import Mathlib

/-!
Muduo reactor core: a shallow embedding.

The development follows the C++ sources file by file.  Objects are records,
member functions are pure functions that take the object (and whatever it
reaches through a pointer) and return the updated values.

* An object that is referred to through a pointer carries its address in the
  field `addr` (the value of `this`).
* A `std::function` slot is an `Option`: `none` is the empty function object.
* Results of system calls are arguments of the function that issues the call;
  the calls that were issued are returned as a list of `Effect`s.
* Logging at INFO/ERROR/DEBUG level does not change any modelled state and is
  left out.
-/

namespace Muduo

/-! ## System constants (`<sys/epoll.h>`, `<errno.h>`, Linux) -/

def EPOLLIN : Nat := 0x001
def EPOLLPRI : Nat := 0x002
def EPOLLOUT : Nat := 0x004
def EPOLLERR : Nat := 0x008
def EPOLLHUP : Nat := 0x010

def EINTR : Int := 4
def EAGAIN : Int := 11
def EWOULDBLOCK : Int := 11
def EPIPE : Int := 32
def ECONNRESET : Int := 104

/-- Number of values of `size_t` (LP64). -/
def SIZE_MOD : Nat := 2 ^ 64

/-- All-ones pattern of a 32-bit `int`. -/
def INT_MASK : Nat := 0xFFFFFFFF

/-- Bitwise complement of a 32-bit mask: the `~` of C on `int`. -/
def bitNot (x : Nat) : Nat := INT_MASK ^^^ x

abbrev Byte := Fin 256

/-- Timestamp.h: one field, `microSecondsSinceEpoch_`. -/
structure Timestamp where
  microSecondsSinceEpoch_ : Int
  deriving DecidableEq, Repr

/-! ## Channel (Channel.h, Channel.cc) -/

/-- The bound member functions that the sources store in a Channel's callback
slots, `std::bind(&TcpConnection::handleRead, this, _1)` and so on; the `Nat`
is the bound `this`.  `other` stands for any other callable. -/
inductive Handler where
  | tcpHandleRead (conn : Nat)
  | tcpHandleWrite (conn : Nat)
  | tcpHandleClose (conn : Nat)
  | tcpHandleError (conn : Nat)
  | loopHandleRead (loop : Nat)
  | other (id : Nat)
  deriving DecidableEq, Repr

/-- Channel.cc:9, `kNoneEvent = 0`. -/
def kNoneEvent : Nat := 0
/-- Channel.cc:11, `kReadEvent = EPOLLIN | EPOLLPRI`. -/
def kReadEvent : Nat := EPOLLIN ||| EPOLLPRI
/-- Channel.cc:13, `kWriteEvent = EPOLLOUT`. -/
def kWriteEvent : Nat := EPOLLOUT

/-- Channel.h:118-138.  `events_`, `revents_` hold the bit pattern of the
`int`; `tie_` is the `weak_ptr<void>`: the address of the object it watches,
`none` when it was never assigned.  The `loop_` pointer is followed by passing
the loop to the functions that use it. -/
structure Channel where
  addr : Nat
  fd_ : Int
  events_ : Nat
  revents_ : Nat
  index_ : Int
  tie_ : Option Nat
  tied_ : Bool
  readCallback_ : Option Handler
  writeCallback_ : Option Handler
  closeCallback_ : Option Handler
  errorCallback_ : Option Handler
  deriving DecidableEq, Repr

/-- Channel.cc:19-28, the constructor (the four `std::function` members are
default-constructed, hence empty). -/
def Channel.ctor (addr : Nat) (fd : Int) : Channel :=
  { addr := addr, fd_ := fd, events_ := 0, revents_ := 0, index_ := -1,
    tie_ := none, tied_ := false,
    readCallback_ := none, writeCallback_ := none,
    closeCallback_ := none, errorCallback_ := none }

def Channel.setReadCallback (ch : Channel) (cb : Handler) : Channel :=
  { ch with readCallback_ := some cb }
def Channel.setWriteCallback (ch : Channel) (cb : Handler) : Channel :=
  { ch with writeCallback_ := some cb }
def Channel.setCloseCallback (ch : Channel) (cb : Handler) : Channel :=
  { ch with closeCallback_ := some cb }
def Channel.setErrorCallback (ch : Channel) (cb : Handler) : Channel :=
  { ch with errorCallback_ := some cb }

/-- Channel.cc:39-43. -/
def Channel.tie (ch : Channel) (obj : Nat) : Channel :=
  { ch with tie_ := some obj, tied_ := true }

def Channel.set_revents (ch : Channel) (revt : Nat) : Channel :=
  { ch with revents_ := revt }
def Channel.set_index (ch : Channel) (idx : Int) : Channel :=
  { ch with index_ := idx }

/-- Channel.h:86. -/
def Channel.isNoneEvent (ch : Channel) : Bool := ch.events_ == kNoneEvent
/-- Channel.h:88, `events_ & kWriteEvent` converted to `bool`. -/
def Channel.isWriting (ch : Channel) : Bool := ch.events_ &&& kWriteEvent != 0
/-- Channel.h:90. -/
def Channel.isReading (ch : Channel) : Bool := ch.events_ &&& kReadEvent != 0

/-- One callback invocation made by `handleEvent`, tagged with the slot it was
taken from. -/
inductive Call where
  | close (cb : Handler)
  | error (cb : Handler)
  | read (cb : Handler) (receiveTime : Timestamp)
  | write (cb : Handler)
  deriving DecidableEq, Repr

/-- The four callback slots of a Channel. -/
inductive Slot where
  | close | error | read | write
  deriving DecidableEq, Repr

def Call.slot : Call → Slot
  | .close _ => .close
  | .error _ => .error
  | .read _ _ => .read
  | .write _ => .write

/-- Channel.cc:94-130.  The calls are collected in the order they are made. -/
def Channel.handleEventWithGuard (ch : Channel) (receiveTime : Timestamp) : List Call :=
  let calls : List Call := []
  let calls :=
    if (ch.revents_ &&& EPOLLHUP != 0) && !(ch.revents_ &&& EPOLLIN != 0) then
      match ch.closeCallback_ with
      | some cb => calls ++ [Call.close cb]
      | none => calls
    else calls
  let calls :=
    if ch.revents_ &&& EPOLLERR != 0 then
      match ch.errorCallback_ with
      | some cb => calls ++ [Call.error cb]
      | none => calls
    else calls
  let calls :=
    if ch.revents_ &&& (EPOLLIN ||| EPOLLPRI) != 0 then
      match ch.readCallback_ with
      | some cb => calls ++ [Call.read cb receiveTime]
      | none => calls
    else calls
  let calls :=
    if ch.revents_ &&& EPOLLOUT != 0 then
      match ch.writeCallback_ with
      | some cb => calls ++ [Call.write cb]
      | none => calls
    else calls
  calls

/-- `std::weak_ptr::lock`: the strong reference, or nothing when the weak
pointer is empty or the object it watched has been destroyed.  `alive` tells
which addresses hold a live shared object. -/
def weakLock (tie : Option Nat) (alive : Nat → Bool) : Option Nat :=
  match tie with
  | some obj => if alive obj then some obj else none
  | none => none

/-- Channel.cc:75-91. -/
def Channel.handleEvent (ch : Channel) (alive : Nat → Bool) (receiveTime : Timestamp) :
    List Call :=
  if ch.tied_ then
    match weakLock ch.tie_ alive with
    | some _ => ch.handleEventWithGuard receiveTime
    | none => []
  else
    ch.handleEventWithGuard receiveTime

/-! ## Poller, EPollPoller (Poller.h, Poller.cc, EPollPoller.h, EPollPoller.cc) -/

/-- EPollPoller.cc:10, channel not yet added to the poller. -/
def kNew : Int := -1
/-- EPollPoller.cc:12, channel added to the poller. -/
def kAdded : Int := 1
/-- EPollPoller.cc:14, channel deleted from the poller. -/
def kDeleted : Int := 2

/-- EPollPoller.h:29. -/
def kInitEventListSize : Nat := 16

/-- The `op` argument of `epoll_ctl`. -/
inductive EpollOp where
  | EPOLL_CTL_ADD | EPOLL_CTL_DEL | EPOLL_CTL_MOD
  deriving DecidableEq, Repr

/-- One entry of the interest list the kernel keeps for an epoll instance:
the registered fd with the `epoll_event` given for it (`events`, and
`data.ptr`, which EPollPoller::update sets to the Channel). -/
structure EpollItem where
  fd : Int
  events : Nat
  ptr : Nat
  deriving DecidableEq, Repr

/-- One `epoll_ctl(epollfd_, op, fd, &event)` call, as issued. -/
structure CtlCall where
  op : EpollOp
  fd : Int
  events : Nat
  ptr : Nat
  deriving DecidableEq, Repr

/-- `std::unordered_map<int, Channel*>` as an association list with unique
keys; the value is the Channel's address. -/
abbrev ChannelMap := List (Int × Nat)

/-- `m.find(fd)`: the mapped pointer, `none` for `end()`. -/
def ChannelMap.find (m : ChannelMap) (fd : Int) : Option Nat :=
  match m with
  | [] => none
  | (k, v) :: rest => if k = fd then some v else ChannelMap.find rest fd

/-- `m[fd] = ptr`: overwrite the mapped pointer, or insert a new entry. -/
def ChannelMap.assign (m : ChannelMap) (fd : Int) (ptr : Nat) : ChannelMap :=
  match m with
  | [] => [(fd, ptr)]
  | (k, v) :: rest =>
    if k = fd then (k, ptr) :: rest else (k, v) :: ChannelMap.assign rest fd ptr

/-- `m.erase(fd)`. -/
def ChannelMap.erase (m : ChannelMap) (fd : Int) : ChannelMap :=
  m.filter (fun e => e.1 != fd)

/-- Is `fd` in the interest list. -/
def registered (interest : List EpollItem) (fd : Int) : Bool :=
  interest.any (fun it => it.fd == fd)

/-- The fds of an interest list, in registration order. -/
def registeredFds (interest : List EpollItem) : List Int :=
  interest.map (fun it => it.fd)

/-- The kernel side of `epoll_ctl` on an open fd, after epoll_ctl(2):
ADD registers the fd and fails (EEXIST) when it is registered already;
MOD replaces the event of a registered fd and fails (ENOENT) otherwise;
DEL removes a registered fd and fails (ENOENT) otherwise.
`none` is the return value -1; the interest list is then unchanged. -/
def epoll_ctl (interest : List EpollItem) (op : EpollOp) (fd : Int) (events ptr : Nat) :
    Option (List EpollItem) :=
  match op with
  | .EPOLL_CTL_ADD =>
    if registered interest fd then none
    else some (interest ++ [{ fd := fd, events := events, ptr := ptr }])
  | .EPOLL_CTL_MOD =>
    if registered interest fd then
      some (interest.map (fun it =>
        if it.fd = fd then { fd := fd, events := events, ptr := ptr } else it))
    else none
  | .EPOLL_CTL_DEL =>
    if registered interest fd then some (interest.filter (fun it => it.fd != fd))
    else none

/-- Poller.h:38 and EPollPoller.h:37-38, with the state outside the process that
the class drives: `interest` is the kernel's interest list of `epollfd_`,
`ctlCalls` the `epoll_ctl` calls issued so far (oldest first), `eventsSize`
is `events_.size()`.  `fatal` is set when `LOG_FATAL` is reached: the macro
is defined in Logger.h, which is not among the sources; the specification
says that a fatal error is logged and terminates the process, so a state with
`fatal` set is one in which the process has ended. -/
structure EPollPoller where
  channels_ : ChannelMap
  interest : List EpollItem
  ctlCalls : List CtlCall
  eventsSize : Nat
  fatal : Bool
  deriving DecidableEq, Repr

/-- EPollPoller.cc:16-27 (a successful `epoll_create1`). -/
def EPollPoller.ctor : EPollPoller :=
  { channels_ := [], interest := [], ctlCalls := [],
    eventsSize := kInitEventListSize, fatal := false }

/-- Poller.cc:11-15. -/
def EPollPoller.hasChannel (p : EPollPoller) (channel : Channel) : Bool :=
  match p.channels_.find channel.fd_ with
  | some ptr => ptr == channel.addr
  | none => false

/-- EPollPoller.cc:145-168. -/
def EPollPoller.update (p : EPollPoller) (operation : EpollOp) (channel : Channel) :
    EPollPoller :=
  let fd := channel.fd_
  let call : CtlCall :=
    { op := operation, fd := fd, events := channel.events_, ptr := channel.addr }
  let p := { p with ctlCalls := p.ctlCalls ++ [call] }
  match epoll_ctl p.interest operation fd channel.events_ channel.addr with
  | some interest => { p with interest := interest }
  | none =>
    if operation = EpollOp.EPOLL_CTL_DEL then p
    else { p with fatal := true }

/-- EPollPoller.cc:84-115.  Returns the poller and the Channel (whose `index_`
the function sets). -/
def EPollPoller.updateChannel (p : EPollPoller) (channel : Channel) :
    EPollPoller × Channel :=
  let index := channel.index_
  if index = kNew ∨ index = kDeleted then
    let p :=
      if index = kNew then
        { p with channels_ := p.channels_.assign channel.fd_ channel.addr }
      else p
    let channel := channel.set_index kAdded
    (p.update EpollOp.EPOLL_CTL_ADD channel, channel)
  else
    if channel.isNoneEvent then
      let p := p.update EpollOp.EPOLL_CTL_DEL channel
      (p, channel.set_index kDeleted)
    else
      (p.update EpollOp.EPOLL_CTL_MOD channel, channel)

/-- EPollPoller.cc:118-131. -/
def EPollPoller.removeChannel (p : EPollPoller) (channel : Channel) :
    EPollPoller × Channel :=
  let fd := channel.fd_
  let p := { p with channels_ := p.channels_.erase fd }
  let index := channel.index_
  let p := if index = kAdded then p.update EpollOp.EPOLL_CTL_DEL channel else p
  (p, channel.set_index kNew)

/-! ## EventLoop (EventLoop.h, EventLoop.cc) -/

/-- EventLoop.h:24, `Functor = std::function<void()>`: the closures that the
sources hand to `runInLoop`/`queueInLoop`.  The `Nat` arguments are the bound
objects (`shared_from_this()`, `this`) and, for the two user callbacks, the
callback; `sendInLoop` binds the pointer `buf.c_str()` and the size, not the
bytes. -/
inductive EventLoop.Functor where
  | writeComplete (cb : Nat) (conn : Nat)
  | highWaterMark (cb : Nat) (conn : Nat) (len : Nat)
  | shutdownInLoop (conn : Nat)
  | sendInLoop (conn : Nat) (data : Nat) (len : Nat)
  | connectEstablished (conn : Nat)
  | connectDestroy (conn : Nat)
  | removeConnectionInLoop (server : Nat) (conn : Nat)
  | listen (acceptor : Nat)
  | other (id : Nat)
  deriving DecidableEq, Repr

/-- EventLoop.h:59-75.  `wakeupWrites` is outside the object: the number of
8-byte writes made to `wakeupFd_`. -/
structure EventLoop where
  addr : Nat
  looping_ : Bool
  quit_ : Bool
  threadId_ : Int
  pollReturnTime_ : Timestamp
  poller_ : EPollPoller
  wakeupFd_ : Int
  wakeupChannel_ : Channel
  activeChannels_ : List Nat
  callingPendingFunctors_ : Bool
  pendingFunctors_ : List EventLoop.Functor
  wakeupWrites : Nat
  deriving DecidableEq, Repr

/-- EventLoop.h:51; `tid` is `CurrentThread::tid()` of the caller. -/
def EventLoop.isInLoopThread (loop : EventLoop) (tid : Int) : Bool :=
  loop.threadId_ == tid

/-- EventLoop.cc:164-172. -/
def EventLoop.wakeup (loop : EventLoop) : EventLoop :=
  { loop with wakeupWrites := loop.wakeupWrites + 1 }

/-- EventLoop.cc:129-145. -/
def EventLoop.queueInLoop (loop : EventLoop) (tid : Int) (cb : EventLoop.Functor) :
    EventLoop :=
  let loop := { loop with pendingFunctors_ := loop.pendingFunctors_ ++ [cb] }
  if !loop.isInLoopThread tid || loop.callingPendingFunctors_ then
    loop.wakeup
  else loop

/-- EventLoop.cc:175-178. -/
def EventLoop.updateChannel (loop : EventLoop) (channel : Channel) : EventLoop × Channel :=
  let r := loop.poller_.updateChannel channel
  ({ loop with poller_ := r.1 }, r.2)

/-- EventLoop.cc:180-183. -/
def EventLoop.removeChannel (loop : EventLoop) (channel : Channel) : EventLoop × Channel :=
  let r := loop.poller_.removeChannel channel
  ({ loop with poller_ := r.1 }, r.2)

/-- EventLoop.cc:185-188. -/
def EventLoop.hasChannel (loop : EventLoop) (channel : Channel) : Bool :=
  loop.poller_.hasChannel channel

/-! ## Channel members that go through the loop (Channel.h:63-82, Channel.cc:49-70) -/

/-- Channel.cc:49-56. -/
def Channel.update (ch : Channel) (loop : EventLoop) : EventLoop × Channel :=
  loop.updateChannel ch

/-- Channel.cc:64-70. -/
def Channel.remove (ch : Channel) (loop : EventLoop) : EventLoop × Channel :=
  loop.removeChannel ch

def Channel.enableReading (ch : Channel) (loop : EventLoop) : EventLoop × Channel :=
  Channel.update { ch with events_ := ch.events_ ||| kReadEvent } loop
def Channel.disableReading (ch : Channel) (loop : EventLoop) : EventLoop × Channel :=
  Channel.update { ch with events_ := ch.events_ &&& bitNot kReadEvent } loop
def Channel.enableWriting (ch : Channel) (loop : EventLoop) : EventLoop × Channel :=
  Channel.update { ch with events_ := ch.events_ ||| kWriteEvent } loop
def Channel.disableWriting (ch : Channel) (loop : EventLoop) : EventLoop × Channel :=
  Channel.update { ch with events_ := ch.events_ &&& bitNot kWriteEvent } loop
def Channel.disableAll (ch : Channel) (loop : EventLoop) : EventLoop × Channel :=
  Channel.update { ch with events_ := kNoneEvent } loop

/-! ## System calls -/

/-- What a system call hands back: its return value and the `errno` left
behind when that value is negative. -/
structure SysRet where
  ret : Int
  errno : Int
  deriving DecidableEq, Repr

/-- Actions that leave the modelled objects: system calls on the socket and
invocations of the callbacks held by a TcpConnection.  `connected` is what
`conn->connected()` returns while the callback runs, `readable` what
`buf->peek()` yields for the buffer handed to the message callback.
`badFunctionCall` is the `std::bad_function_call` thrown by invoking an empty
`std::function`; it ends the member function that made the call. -/
inductive Effect where
  | write (fd : Int) (data : List Byte)
  | shutdownWr (fd : Int)
  | setKeepAlive (fd : Int) (optval : Bool)
  | connectionCallback (cb : Nat) (conn : Nat) (connected : Bool)
  | closeCallback (cb : Nat) (conn : Nat)
  | close (fd : Int)
  | readv (fd : Int)
  | getsockopt (fd : Int)
  | messageCallback (cb : Nat) (conn : Nat) (readable : List Byte) (receiveTime : Timestamp)
  | badFunctionCall
  deriving DecidableEq, Repr

/-! ## Buffer (Buffer.cc; the class itself is declared in Buffer.h) -/

/-- Modelled from the spec: Buffer.h, which declares the class and defines
its inline members, is not among the sources.  Section 3 of the specification:
a backing byte array of length `cap` with a read cursor `r` and a write
cursor `w`, and a fixed prependable prefix. -/
structure Buffer where
  buffer_ : List Byte
  readerIndex_ : Nat
  writerIndex_ : Nat
  deriving DecidableEq, Repr

/-- Modelled from the spec: the size of the prependable prefix in Buffer.h
("8 bytes is standard"). -/
def kCheapPrepend : Nat := 8

/-- Modelled from the spec: the Buffer constructor of Buffer.h; both cursors
start at the initial prependable offset.  The initial capacity is not given by
the specification and is an argument. -/
def Buffer.ctor (initialSize : Nat) : Buffer :=
  { buffer_ := List.replicate (kCheapPrepend + initialSize) 0,
    readerIndex_ := kCheapPrepend, writerIndex_ := kCheapPrepend }

/-- Modelled from the spec: `readable = w - r` (Buffer.h). -/
def Buffer.readableBytes (b : Buffer) : Nat := b.writerIndex_ - b.readerIndex_
/-- Modelled from the spec: `writable = cap - w` (Buffer.h). -/
def Buffer.writableBytes (b : Buffer) : Nat := b.buffer_.length - b.writerIndex_
/-- Modelled from the spec: the prependable region ends at `r` (Buffer.h). -/
def Buffer.prependableBytes (b : Buffer) : Nat := b.readerIndex_

/-- Modelled from the spec: `peek()` of Buffer.h "returns the readable region
without consuming". -/
def Buffer.peek (b : Buffer) : List Byte :=
  (b.buffer_.drop b.readerIndex_).take b.readableBytes

/-- Modelled from the spec: `retrieveAll` of Buffer.h, "both cursors reset to
the initial prependable offset". -/
def Buffer.retrieveAll (b : Buffer) : Buffer :=
  { b with readerIndex_ := kCheapPrepend, writerIndex_ := kCheapPrepend }

/-- Modelled from the spec: `retrieve(n)` of Buffer.h "advances `r` by `n`;
when equal, resets both cursors". -/
def Buffer.retrieve (b : Buffer) (len : Nat) : Buffer :=
  if len < b.readableBytes then { b with readerIndex_ := b.readerIndex_ + len }
  else b.retrieveAll

/-- Modelled from the spec: the grow-or-shift step of `append` in Buffer.h:
"if `writable + prependable_slack < n`, the buffer grows; otherwise it
internally shifts readable bytes to the initial prependable offset to reuse
space".  Growth is to the least capacity that makes `writable ≥ n`. -/
def Buffer.makeSpace (b : Buffer) (len : Nat) : Buffer :=
  if b.writableBytes + (b.prependableBytes - kCheapPrepend) < len then
    { b with buffer_ := b.buffer_ ++
        List.replicate (b.writerIndex_ + len - b.buffer_.length) 0 }
  else
    let readable := b.readableBytes
    { buffer_ := b.buffer_.take kCheapPrepend ++ b.peek ++
        b.buffer_.drop (kCheapPrepend + readable),
      readerIndex_ := kCheapPrepend,
      writerIndex_ := kCheapPrepend + readable }

/-- Modelled from the spec: `append(bytes, n)` of Buffer.h "grows-or-shifts to
ensure `writable ≥ n` then copies". -/
def Buffer.append (b : Buffer) (data : List Byte) : Buffer :=
  let len := data.length
  let b := if b.writableBytes < len then b.makeSpace len else b
  { b with
    buffer_ := b.buffer_.take b.writerIndex_ ++ data ++
      b.buffer_.drop (b.writerIndex_ + len),
    writerIndex_ := b.writerIndex_ + len }

/-- Buffer.cc:56-64; `r` is what `::write(fd, peek(), readableBytes())`
hands back.  Returns `n`, `*saveErrno` and the call made. -/
def Buffer.writeFd (b : Buffer) (fd : Int) (saveErrno : Int) (r : SysRet) :
    Int × Int × List Effect :=
  let n := r.ret
  let saveErrno := if n < 0 then r.errno else saveErrno
  (n, saveErrno, [Effect.write fd b.peek])

/-! ## TcpConnection (TcpConnection.h, TcpConnection.cc) -/

/-- InetAddress.cc: the wrapped `sockaddr_in`, fields as stored. -/
structure InetAddress where
  sin_port : Nat
  s_addr : Nat
  deriving DecidableEq, Repr

/-- Socket.cc: the owned descriptor. -/
structure Socket where
  sockfd_ : Int
  deriving DecidableEq, Repr

/-- Socket.cc:78-87. -/
def Socket.shutdownWrite (s : Socket) : List Effect := [Effect.shutdownWr s.sockfd_]

/-- Socket.cc:130-139. -/
def Socket.setKeepAlive (s : Socket) (optval : Bool) : List Effect :=
  [Effect.setKeepAlive s.sockfd_ optval]

/-- TcpConnection.h:62-68. -/
inductive StateE where
  | kDisconnected | kConnecting | kConnected | kDisconnecting
  deriving DecidableEq, Repr

/-- TcpConnection.h:80-102.  The five callbacks are `std::function`s supplied
from outside (the user's, and the server's close hook); they are named by a
number and are taken not to call back into the connection. -/
structure TcpConnection where
  addr : Nat
  name_ : String
  state_ : StateE
  reading_ : Bool
  socket_ : Socket
  channel_ : Channel
  localAddr_ : InetAddress
  peerAddr_ : InetAddress
  connectionCallback_ : Option Nat
  messageCallback_ : Option Nat
  writeCompleteCallback_ : Option Nat
  highWaterMarkCallback_ : Option Nat
  closeCallback_ : Option Nat
  highWaterMark_ : Nat
  inputBuffer_ : Buffer
  outputBuffer_ : Buffer
  deriving DecidableEq, Repr

/-- TcpConnection.cc:27-57.  `addr` is the address of the new object,
`channelAddr` that of the Channel it allocates, `initialSize` the initial
capacity of its two Buffers. -/
def TcpConnection.ctor (addr channelAddr initialSize : Nat) (nameArg : String) (sockfd : Int)
    (localAddr peerAddr : InetAddress) : TcpConnection × List Effect :=
  let socket : Socket := { sockfd_ := sockfd }
  let channel := Channel.ctor channelAddr sockfd
  let channel := channel.setReadCallback (Handler.tcpHandleRead addr)
  let channel := channel.setWriteCallback (Handler.tcpHandleWrite addr)
  let channel := channel.setCloseCallback (Handler.tcpHandleClose addr)
  let channel := channel.setCloseCallback (Handler.tcpHandleError addr)
  ({ addr := addr, name_ := nameArg, state_ := StateE.kConnecting, reading_ := true,
     socket_ := socket, channel_ := channel,
     localAddr_ := localAddr, peerAddr_ := peerAddr,
     connectionCallback_ := none, messageCallback_ := none,
     writeCompleteCallback_ := none, highWaterMarkCallback_ := none,
     closeCallback_ := none,
     highWaterMark_ := 64 * 1024 * 1024,
     inputBuffer_ := Buffer.ctor initialSize, outputBuffer_ := Buffer.ctor initialSize },
   socket.setKeepAlive true)

/-- TcpConnection.h:37. -/
def TcpConnection.connected (c : TcpConnection) : Bool := c.state_ == StateE.kConnected

def TcpConnection.setState (c : TcpConnection) (state : StateE) : TcpConnection :=
  { c with state_ := state }
def TcpConnection.setConnectionCallback (c : TcpConnection) (cb : Option Nat) : TcpConnection :=
  { c with connectionCallback_ := cb }
def TcpConnection.setMessageCallback (c : TcpConnection) (cb : Option Nat) : TcpConnection :=
  { c with messageCallback_ := cb }
def TcpConnection.setWriteCompleteCallback (c : TcpConnection) (cb : Option Nat) :
    TcpConnection :=
  { c with writeCompleteCallback_ := cb }
def TcpConnection.setCloseCallback (c : TcpConnection) (cb : Option Nat) : TcpConnection :=
  { c with closeCallback_ := cb }
def TcpConnection.setHighWaterMarkCallback (c : TcpConnection) (cb : Option Nat)
    (highWaterMark : Nat) : TcpConnection :=
  { c with highWaterMarkCallback_ := cb, highWaterMark_ := highWaterMark }

/-- The locals of `sendInLoop` after its first part, together with the loop
and the calls made so far. -/
structure SendLocals where
  nwrote : Int
  remaining : Nat
  faultError : Bool
  loop : EventLoop
  effects : List Effect
  deriving DecidableEq, Repr

/-- TcpConnection.cc:70-72 and 83-121: the locals are initialised and the
direct write is tried; `w` is what `::write(channel_->fd(), data, len)` hands
back if it is called.  `remaining = len - nwrote` is `size_t` arithmetic. -/
def TcpConnection.sendInLoopDirect (c : TcpConnection) (loop : EventLoop) (tid : Int)
    (data : List Byte) (w : SysRet) : SendLocals :=
  let len := data.length
  let l : SendLocals :=
    { nwrote := 0, remaining := len, faultError := false, loop := loop, effects := [] }
  if c.channel_.isWriting && c.outputBuffer_.readableBytes == 0 then
    let l : SendLocals := { l with nwrote := w.ret, effects := [Effect.write c.channel_.fd_ data] }
    if l.nwrote ≥ (0 : Int) then
      let l : SendLocals := { l with remaining := ((Int.ofNat len - l.nwrote) % Int.ofNat SIZE_MOD).toNat }
      if l.remaining = 0 then
        match c.writeCompleteCallback_ with
        | some cb =>
          { l with loop := l.loop.queueInLoop tid (EventLoop.Functor.writeComplete cb c.addr) }
        | none => l
      else l
    else
      let l := { l with nwrote := 0 }
      if w.errno ≠ EWOULDBLOCK then
        if w.errno = EPIPE ∨ w.errno = ECONNRESET then { l with faultError := true }
        else l
      else l
  else l

/-- TcpConnection.cc:67-154. -/
def TcpConnection.sendInLoop (c : TcpConnection) (loop : EventLoop) (tid : Int)
    (data : List Byte) (w : SysRet) : TcpConnection × EventLoop × List Effect :=
  if c.state_ = StateE.kDisconnected then (c, loop, [])
  else
    let l := c.sendInLoopDirect loop tid data w
    if !l.faultError && l.remaining > 0 then
      let oldLen := c.outputBuffer_.readableBytes
      let loop :=
        if (oldLen + l.remaining) % SIZE_MOD ≥ c.highWaterMark_ ∧ oldLen < c.highWaterMark_ then
          match c.highWaterMarkCallback_ with
          | some cb =>
            l.loop.queueInLoop tid
              (EventLoop.Functor.highWaterMark cb c.addr ((oldLen + l.remaining) % SIZE_MOD))
          | none => l.loop
        else l.loop
      let c := { c with outputBuffer_ :=
        c.outputBuffer_.append ((data.drop l.nwrote.toNat).take l.remaining) }
      if !c.channel_.isWriting then
        let r := c.channel_.enableWriting loop
        ({ c with channel_ := r.2 }, r.1, l.effects)
      else (c, loop, l.effects)
    else (c, l.loop, l.effects)

/-- TcpConnection.cc:175-184. -/
def TcpConnection.shutdownInLoop (c : TcpConnection) : List Effect :=
  if !c.channel_.isWriting then c.socket_.shutdownWrite else []

/-- TcpConnection.cc:158-170, with `EventLoop::runInLoop` (EventLoop.cc:116-126)
unfolded at the call: on the loop's thread the bound `shutdownInLoop` runs at
once, otherwise it is queued. -/
def TcpConnection.shutdown (c : TcpConnection) (loop : EventLoop) (tid : Int) :
    TcpConnection × EventLoop × List Effect :=
  if c.state_ = StateE.kConnected then
    let c := c.setState StateE.kDisconnecting
    if loop.isInLoopThread tid then (c, loop, c.shutdownInLoop)
    else (c, loop.queueInLoop tid (EventLoop.Functor.shutdownInLoop c.addr), [])
  else (c, loop, [])

/-- TcpConnection.cc:187-200. -/
def TcpConnection.connectEstablished (c : TcpConnection) (loop : EventLoop) :
    TcpConnection × EventLoop × List Effect :=
  let c := c.setState StateE.kConnected
  let c := { c with channel_ := c.channel_.tie c.addr }
  let r := c.channel_.enableReading loop
  let c := { c with channel_ := r.2 }
  match c.connectionCallback_ with
  | some cb => (c, r.1, [Effect.connectionCallback cb c.addr c.connected])
  | none => (c, r.1, [Effect.badFunctionCall])

/-- TcpConnection.cc:203-212. -/
def TcpConnection.connectDestroy (c : TcpConnection) (loop : EventLoop) :
    TcpConnection × EventLoop × List Effect :=
  if c.state_ = StateE.kConnected then
    let c := c.setState StateE.kDisconnected
    let r := c.channel_.disableAll loop
    let c := { c with channel_ := r.2 }
    match c.connectionCallback_ with
    | some cb =>
      let r2 := c.channel_.remove r.1
      ({ c with channel_ := r2.2 }, r2.1, [Effect.connectionCallback cb c.addr c.connected])
    | none => (c, r.1, [Effect.badFunctionCall])
  else
    let r := c.channel_.remove loop
    ({ c with channel_ := r.2 }, r.1, [])

/-- TcpConnection.cc:235-270; `w` is what the `::write` inside
`outputBuffer_.writeFd` hands back. -/
def TcpConnection.handleWrite (c : TcpConnection) (loop : EventLoop) (tid : Int) (w : SysRet) :
    TcpConnection × EventLoop × List Effect :=
  let savedErrno : Int := 0
  if c.channel_.isWriting then
    let r := c.outputBuffer_.writeFd c.channel_.fd_ savedErrno w
    let n := r.1
    if n > 0 then
      let c := { c with outputBuffer_ := c.outputBuffer_.retrieve n.toNat }
      if c.outputBuffer_.readableBytes == 0 then
        let u := c.channel_.disableWriting loop
        let c := { c with channel_ := u.2 }
        let loop :=
          match c.writeCompleteCallback_ with
          | some cb => u.1.queueInLoop tid (EventLoop.Functor.writeComplete cb c.addr)
          | none => u.1
        if c.state_ = StateE.kDisconnecting then (c, loop, r.2.2 ++ c.shutdownInLoop)
        else (c, loop, r.2.2)
      else (c, loop, r.2.2)
    else (c, loop, r.2.2)
  else (c, loop, [])

/-- TcpConnection.cc:274-297. -/
def TcpConnection.handleClose (c : TcpConnection) (loop : EventLoop) :
    TcpConnection × EventLoop × List Effect :=
  let c := c.setState StateE.kDisconnected
  let r := c.channel_.disableAll loop
  let c := { c with channel_ := r.2 }
  match c.connectionCallback_ with
  | none => (c, r.1, [Effect.badFunctionCall])
  | some cb =>
    let e1 := Effect.connectionCallback cb c.addr c.connected
    match c.closeCallback_ with
    | none => (c, r.1, [e1, Effect.badFunctionCall])
    | some hook => (c, r.1, [e1, Effect.closeCallback hook c.addr])

/-- One step of a connection on its loop: the member function called and what
the kernel hands back to it. -/
inductive ConnStep where
  | sendInLoop (tid : Int) (data : List Byte) (w : SysRet)
  | handleWrite (tid : Int) (w : SysRet)
  | shutdown (tid : Int)
  | shutdownInLoop
  deriving DecidableEq, Repr

/-- Connection and loop after a step. -/
def ConnStep.run (s : ConnStep) (st : TcpConnection × EventLoop) : TcpConnection × EventLoop :=
  match s with
  | .sendInLoop tid data w => let r := st.1.sendInLoop st.2 tid data w; (r.1, r.2.1)
  | .handleWrite tid w => let r := st.1.handleWrite st.2 tid w; (r.1, r.2.1)
  | .shutdown tid => let r := st.1.shutdown st.2 tid; (r.1, r.2.1)
  | .shutdownInLoop => st

/-- Connection and loop after a sequence of steps, first step first. -/
def runSteps (steps : List ConnStep) (st : TcpConnection × EventLoop) :
    TcpConnection × EventLoop :=
  steps.foldl (fun acc s => s.run acc) st

/-- The write-interest invariant of a connection: the channel is
write-interested exactly when the output buffer has readable bytes; stated
together with the order of the output buffer's cursors, on which the count of
readable bytes rests. -/
def WriteInterestInv (c : TcpConnection) : Prop :=
  c.outputBuffer_.readerIndex_ ≤ c.outputBuffer_.writerIndex_
  ∧ (c.channel_.isWriting = true ↔ 0 < c.outputBuffer_.readableBytes)

/-! ## Concrete objects used to evaluate the functions -/

/-- An idle loop owned by thread 1, with a freshly constructed poller. -/
def sampleLoop : EventLoop :=
  { addr := 100, looping_ := false, quit_ := false, threadId_ := 1,
    pollReturnTime_ := { microSecondsSinceEpoch_ := 0 },
    poller_ := EPollPoller.ctor, wakeupFd_ := 3, wakeupChannel_ := Channel.ctor 101 3,
    activeChannels_ := [], callingPendingFunctors_ := false, pendingFunctors_ := [],
    wakeupWrites := 0 }

/-- A connection on fd 5 as TcpServer::newConnection (TcpServer.cc:106-130)
leaves it: constructed, with the connection, message and write-complete
callbacks and the close hook set. -/
def sampleConn : TcpConnection :=
  ((((TcpConnection.ctor 200 201 16 "srv-127.0.0.1:8000#1" 5
      { sin_port := 8000, s_addr := 0x7f000001 }
      { sin_port := 40000, s_addr := 0x7f000001 }).1.setConnectionCallback (some 1)
    ).setMessageCallback (some 2)).setWriteCompleteCallback (some 3)).setCloseCallback (some 4)

/-- The sample connection after `connectEstablished` on the sample loop. -/
def sampleEstablished : TcpConnection × EventLoop :=
  ((sampleConn.connectEstablished sampleLoop).1, (sampleConn.connectEstablished sampleLoop).2.1)

/-- Three bytes are handed to `sendInLoop`; a later `handleWrite` gets two of
them into the kernel. -/
def sampleSteps : List ConnStep :=
  [ConnStep.sendInLoop 1 [1, 2, 3] { ret := 3, errno := 0 },
   ConnStep.handleWrite 1 { ret := 2, errno := 0 }]

/-- Modelled from the spec: the cursor order of Buffer.h, section 3 of the
specification: `prependable ≤ r ≤ w ≤ cap`. -/
def Buffer.wf (b : Buffer) : Prop :=
  kCheapPrepend ≤ b.readerIndex_ ∧ b.readerIndex_ ≤ b.writerIndex_
    ∧ b.writerIndex_ ≤ b.buffer_.length

/-- Buffer.cc:18, `sizeof(extrabuf)`. -/
def kExtraBufSize : Nat := 65536

/-- What is behind a descriptor when it is read: `ready bytes` are the bytes
the kernel holds for it (none at all is the end of the stream), `fail errno`
is a read that fails. -/
inductive FdInput where
  | ready (bytes : List Byte)
  | fail (errno : Int)
  deriving DecidableEq, Repr

/-- What `readv` leaves behind: its return value and `errno`, and the bytes it
stored through the first and through the second `iovec`. -/
structure ReadvResult where
  ret : Int
  errno : Int
  vec0 : List Byte
  vec1 : List Byte
  deriving DecidableEq, Repr

/-- The kernel side of `readv(fd, vec, iovcnt)` on a stream, after readv(2):
as many of the ready bytes as the buffers hold are transferred, filling
`vec[0]` (of `len0` bytes) before `vec[1]` (of `len1` bytes; `iovcnt = 1` is
`len1 = 0`); the return value is their number.  A failing read transfers
nothing and returns -1. -/
def readv (input : FdInput) (len0 len1 : Nat) : ReadvResult :=
  match input with
  | .ready bytes =>
    let got := bytes.take (len0 + len1)
    { ret := Int.ofNat got.length, errno := 0, vec0 := got.take len0, vec1 := got.drop len0 }
  | .fail errno => { ret := -1, errno := errno, vec0 := [], vec1 := [] }

/-- Buffer.cc:26-39: the `readv` call that `readFd` makes, with the writable
tail as `vec[0]` and, when that tail is shorter than `extrabuf`, `extrabuf` as
`vec[1]`. -/
def Buffer.readFdCall (b : Buffer) (input : FdInput) : ReadvResult :=
  let writable := b.writableBytes
  let iovcnt := if writable < kExtraBufSize then 2 else 1
  readv input writable (if iovcnt = 2 then kExtraBufSize else 0)

/-- Buffer.cc:16-54.  Returns the buffer, `n` and `*saveErrno`.  The bytes
stored through `vec[0]` land in the writable tail; `extrabuf` is zero-filled
before the call. -/
def Buffer.readFd (b : Buffer) (saveErrno : Int) (input : FdInput) : Buffer × Int × Int :=
  let writable := b.writableBytes
  let r := b.readFdCall input
  let extrabuf := r.vec1 ++ List.replicate (kExtraBufSize - r.vec1.length) 0
  let b : Buffer := { b with buffer_ := b.buffer_.take b.writerIndex_ ++ r.vec0 ++
                      b.buffer_.drop (b.writerIndex_ + r.vec0.length) }
  let n := r.ret
  if n < 0 then (b, n, r.errno)
  else if n ≤ Int.ofNat writable then
    ({ b with writerIndex_ := b.writerIndex_ + n.toNat }, n, saveErrno)
  else
    let b : Buffer := { b with writerIndex_ := b.buffer_.length }
    (b.append (extrabuf.take (n.toNat - writable)), n, saveErrno)

/-- The kernel side of `readv` on a stream, what it leaves: the ready bytes
that did not fit the buffers stay queued behind the descriptor, in order. -/
def readvLeft (bytes : List Byte) (len0 len1 : Nat) : List Byte :=
  bytes.drop (len0 + len1)

/-- Buffer.cc:26-39: the bytes still queued behind the descriptor after the
`readv` that `readFd` makes when `bytes` are ready. -/
def Buffer.readFdLeft (b : Buffer) (bytes : List Byte) : List Byte :=
  let writable := b.writableBytes
  let iovcnt := if writable < kExtraBufSize then 2 else 1
  readvLeft bytes writable (if iovcnt = 2 then kExtraBufSize else 0)

/-- TcpConnection.cc:334-352, with `EventLoop::runInLoop` (EventLoop.cc:116-126)
unfolded for a caller that is not on the loop's thread: the closure that binds
`sendInLoop` to the pointer `bufAddr = buf.c_str()` and to `buf.size()` is
queued.  `w` is what the `::write` of `sendInLoop` hands back if it is
called. -/
def TcpConnection.send (c : TcpConnection) (loop : EventLoop) (tid : Int)
    (buf : List Byte) (bufAddr : Nat) (w : SysRet) :
    TcpConnection × EventLoop × List Effect :=
  if c.state_ = StateE.kConnected then
    if loop.isInLoopThread tid then c.sendInLoop loop tid buf w
    else
      (c, loop.queueInLoop tid (EventLoop.Functor.sendInLoop c.addr bufAddr buf.length), [])
  else (c, loop, [])

/-- A member function of a connection called from outside or from its loop,
with what the kernel hands back to it: `send` and `shutdown` are the public
entry points, the other three run on the loop. -/
inductive ConnEvent where
  | send (tid : Int) (buf : List Byte) (bufAddr : Nat) (w : SysRet)
  | shutdown (tid : Int)
  | sendInLoop (tid : Int) (data : List Byte) (w : SysRet)
  | shutdownInLoop
  | handleWrite (tid : Int) (w : SysRet)
  deriving DecidableEq, Repr

/-- Connection, loop and the calls made by one event. -/
def ConnEvent.fire (e : ConnEvent) (st : TcpConnection × EventLoop) :
    TcpConnection × EventLoop × List Effect :=
  match e with
  | .send tid buf bufAddr w => st.1.send st.2 tid buf bufAddr w
  | .shutdown tid => st.1.shutdown st.2 tid
  | .sendInLoop tid data w => st.1.sendInLoop st.2 tid data w
  | .shutdownInLoop => (st.1, st.2, st.1.shutdownInLoop)
  | .handleWrite tid w => st.1.handleWrite st.2 tid w

/-- Connection and loop after a sequence of events, first event first. -/
def fireAll (events : List ConnEvent) (st : TcpConnection × EventLoop) :
    TcpConnection × EventLoop :=
  events.foldl (fun acc e => ((e.fire acc).1, (e.fire acc).2.1)) st

/-- The user's connection callback being told that the connection is down:
an invocation during which `connected()` is false. -/
def Effect.isConnectionDown : Effect → Bool
  | .connectionCallback _ _ connected => !connected
  | _ => false

/-- Connection and loop after `connectEstablished`. -/
def TcpConnection.established (c : TcpConnection) (loop : EventLoop) :
    TcpConnection × EventLoop :=
  ((c.connectEstablished loop).1, (c.connectEstablished loop).2.1)

/-- Three bytes are sent and `shutdown()` is called, both on the loop's
thread. -/
def sampleHalfClose : List ConnEvent :=
  [ConnEvent.send 1 [1, 2, 3] 300 { ret := 3, errno := 0 }, ConnEvent.shutdown 1]

/-! ## EventLoop: closures, the pending queue, construction and `loop()` -/

/-- A call made on a loop while a closure or a channel callback runs: by the
running code itself (`tid` is then the loop's thread) or by another thread in
the meantime; the mutex of the queue puts such calls in one order. -/
inductive LoopCall where
  | queueInLoop (tid : Int) (cb : EventLoop.Functor)
  | quit (tid : Int)
  deriving DecidableEq, Repr

/-- The closure that a call puts in the queue. -/
def LoopCall.queued : LoopCall → Option EventLoop.Functor
  | .queueInLoop _ cb => some cb
  | .quit _ => none

/-- Is the call a `quit()`. -/
def LoopCall.isQuit : LoopCall → Bool
  | .quit _ => true
  | .queueInLoop _ _ => false

/-- The closures that a list of calls puts in the queue, in order. -/
def enqueuedBy (calls : List LoopCall) : List EventLoop.Functor :=
  calls.filterMap LoopCall.queued

/-- EventLoop.cc:104-112. -/
def EventLoop.quit (loop : EventLoop) (tid : Int) : EventLoop :=
  let loop := { loop with quit_ := true }
  if !loop.isInLoopThread tid then loop.wakeup else loop

/-- The loop after one call. -/
def EventLoop.call (loop : EventLoop) : LoopCall → EventLoop
  | .queueInLoop tid cb => loop.queueInLoop tid cb
  | .quit tid => loop.quit tid

/-- The loop after a list of calls, first call first. -/
def EventLoop.callAll (loop : EventLoop) (calls : List LoopCall) : EventLoop :=
  calls.foldl EventLoop.call loop

/-- EventLoop.cc:116-126.  `body cb` are the calls made on the loop while `cb`
runs.  Returns the loop and the closures that were called. -/
def EventLoop.runInLoop (body : EventLoop.Functor → List LoopCall) (loop : EventLoop)
    (tid : Int) (cb : EventLoop.Functor) : EventLoop × List EventLoop.Functor :=
  if loop.isInLoopThread tid then (loop.callAll (body cb), [cb])
  else (loop.queueInLoop tid cb, [])

/-- EventLoop.cc:204-207, the `for` over the local vector.  Returns the loop
and the closures called, in the order of the calls. -/
def EventLoop.runFunctors (body : EventLoop.Functor → List LoopCall) (loop : EventLoop)
    (functors : List EventLoop.Functor) : EventLoop × List EventLoop.Functor :=
  functors.foldl (fun acc f => (acc.1.callAll (body f), acc.2 ++ [f])) (loop, [])

/-- EventLoop.cc:190-209. -/
def EventLoop.doPendingFunctors (body : EventLoop.Functor → List LoopCall)
    (loop : EventLoop) : EventLoop × List EventLoop.Functor :=
  let loop := { loop with callingPendingFunctors_ := true }
  let functors := loop.pendingFunctors_
  let loop := { loop with pendingFunctors_ := [] }
  let r := loop.runFunctors body functors
  ({ r.1 with callingPendingFunctors_ := false }, r.2)

/-- A number of successive drains: the loop afterwards and all closures called,
in the order of the calls. -/
def EventLoop.drains (body : EventLoop.Functor → List LoopCall) :
    Nat → EventLoop → EventLoop × List EventLoop.Functor
  | 0, loop => (loop, [])
  | k + 1, loop =>
    let d := loop.doPendingFunctors body
    let r := EventLoop.drains body k d.1
    (r.1, d.2 ++ r.2)

/-- Modelled from the spec: `Poller::newDefaultPoller` is defined in a source
file that is not among the sources; by section 3 of the specification the
loop owns one Demultiplexer, and the epoll one is the only one the repository
has. -/
def Poller.newDefaultPoller : EPollPoller := EPollPoller.ctor

/-- EventLoop.cc:13 and 18-58: the constructor, run on thread `tid`, with the
value of that thread's `t_loopInThisThread`; `evtfd` is what `::eventfd`
hands back.  Returns the new loop and the new value of the thread-local
pointer, or `none` when `LOG_FATAL` is reached (the macro is defined in
Logger.h, which is not among the sources; by section 7 of the specification a
fatal error is logged and terminates the process). -/
def EventLoop.ctor (addr channelAddr : Nat) (tid : Int) (evtfd : Int)
    (t_loopInThisThread : Option Nat) : Option (EventLoop × Option Nat) :=
  if evtfd < 0 then none
  else
    let loop : EventLoop :=
      { addr := addr, looping_ := false, quit_ := false, callingPendingFunctors_ := false,
        threadId_ := tid, pollReturnTime_ := { microSecondsSinceEpoch_ := 0 },
        poller_ := Poller.newDefaultPoller, wakeupFd_ := evtfd,
        wakeupChannel_ := Channel.ctor channelAddr evtfd,
        activeChannels_ := [], pendingFunctors_ := [], wakeupWrites := 0 }
    match t_loopInThisThread with
    | some _ => none
    | none =>
      let t_loopInThisThread := some addr
      let ch := loop.wakeupChannel_.setReadCallback (Handler.loopHandleRead addr)
      let r := ch.enableReading loop
      some ({ r.1 with wakeupChannel_ := r.2 }, t_loopInThisThread)

/-- EventLoop.cc:60-66: the destructor.  Returns the loop as it is torn down,
the new value of `t_loopInThisThread` on the thread that runs the destructor,
and the system call made. -/
def EventLoop.dtor (loop : EventLoop) : EventLoop × Option Nat × List Effect :=
  let r := loop.wakeupChannel_.disableAll loop
  let loop := { r.1 with wakeupChannel_ := r.2 }
  let r := loop.wakeupChannel_.remove loop
  let loop := { r.1 with wakeupChannel_ := r.2 }
  (loop, none, [Effect.close loop.wakeupFd_])

/-- The threads of the process as far as loops go: `t_loopInThisThread` of
every thread (a thread is named by its id) and the EventLoop objects that
exist. -/
structure Process where
  t_loopInThisThread : Int → Option Nat
  loops : List EventLoop

/-- A process in which no loop was constructed yet. -/
def Process.start : Process :=
  { t_loopInThisThread := fun _ => none, loops := [] }

/-- Construction of a loop on thread `tid`, or destruction of the loop that
lives on thread `tid`, by that thread (as in EventLoopThread::threadFunc,
where the loop is a local of the thread's function). -/
inductive LifeStep where
  | construct (tid : Int) (addr channelAddr : Nat) (evtfd : Int)
  | destroy (tid : Int)
  deriving DecidableEq, Repr

/-- The process after a step; `none` when the step ends the process. -/
def Process.step (p : Process) : LifeStep → Option Process
  | .construct tid addr channelAddr evtfd =>
    match EventLoop.ctor addr channelAddr tid evtfd (p.t_loopInThisThread tid) with
    | none => none
    | some r =>
      some { t_loopInThisThread := Function.update p.t_loopInThisThread tid r.2,
             loops := p.loops ++ [r.1] }
  | .destroy tid =>
    match p.loops.find? (fun l => l.threadId_ == tid) with
    | none => some p
    | some loop =>
      some { t_loopInThisThread := Function.update p.t_loopInThisThread tid loop.dtor.2.1,
             loops := p.loops.eraseP (fun l => l.threadId_ == tid) }

/-- The process after a sequence of steps, `none` once a step has ended it. -/
def Process.run (p : Process) : List LifeStep → Option Process
  | [] => some p
  | s :: rest =>
    match p.step s with
    | none => none
    | some q => q.run rest

/-- How many loops live on thread `tid`. -/
def Process.loopsOn (p : Process) (tid : Int) : Nat :=
  p.loops.countP (fun l => l.threadId_ == tid)

/-- One loop per thread, as a property of a process: on every thread the
number of live loops is one if the thread-local pointer is set and zero if
it is null, and the pointer of a live loop's thread holds that loop's
address. -/
def Process.onePerThread (p : Process) : Prop :=
  (∀ tid, p.loopsOn tid = if (p.t_loopInThisThread tid).isSome then 1 else 0)
  ∧ (∀ l, l ∈ p.loops → p.t_loopInThisThread l.threadId_ = some l.addr)

/-- One `epoll_event` as `epoll_wait` fills it in: the ready events and the
`data.ptr` registered for the descriptor, a Channel. -/
structure EpollEvent where
  events : Nat
  ptr : Nat
  deriving DecidableEq, Repr

/-- What one `epoll_wait` hands back: the return value, `errno`, the entries
it wrote to the front of the event list, and `Timestamp::now()` taken right
after it. -/
structure EpollWait where
  numEvents : Int
  errno : Int
  events : List EpollEvent
  now : Timestamp
  deriving DecidableEq, Repr

/-- EPollPoller.cc:134-142.  `chans` are the Channel objects by address;
returns them with `revents_` set, and the extended list of active
channels. -/
def EPollPoller.fillActiveChannels (numEvents : Nat) (events : List EpollEvent)
    (chans : Nat → Channel) (activeChannels : List Nat) : (Nat → Channel) × List Nat :=
  (events.take numEvents).foldl
    (fun acc ev =>
      (Function.update acc.1 ev.ptr ((acc.1 ev.ptr).set_revents ev.events), acc.2 ++ [ev.ptr]))
    (chans, activeChannels)

/-- EPollPoller.cc:41-74.  Returns the poller, the Channel objects, the active
channels and the timestamp.  (A timeout and an error only log.) -/
def EPollPoller.poll (p : EPollPoller) (r : EpollWait) (chans : Nat → Channel)
    (activeChannels : List Nat) : EPollPoller × (Nat → Channel) × List Nat × Timestamp :=
  let now := r.now
  if r.numEvents > 0 then
    let f := EPollPoller.fillActiveChannels r.numEvents.toNat r.events chans activeChannels
    let p := if r.numEvents.toNat = p.eventsSize then
        { p with eventsSize := p.eventsSize * 2 }
      else p
    (p, f.1, f.2, now)
  else (p, chans, activeChannels, now)

/-- What `loop()` did, in order: a poll with the channels it reported, a
`handleEvent` on a channel with the callbacks it invoked, a call of a pending
closure. -/
inductive LoopEvent where
  | polled (activeChannels : List Nat)
  | handled (channel : Nat) (calls : List Call)
  | ran (cb : EventLoop.Functor)
  deriving DecidableEq, Repr

/-- The code that the loop calls into: which tether targets are alive, the
calls made on the loop while a channel callback runs, and the calls made on
it while a closure runs. -/
structure LoopEnv where
  alive : Nat → Bool
  onCall : Call → List LoopCall
  body : EventLoop.Functor → List LoopCall

/-- What `loop()` works on: the loop, the Channel objects it reaches through
the pointers the poller reports, and the record of what it did. -/
structure LoopRun where
  loop : EventLoop
  chans : Nat → Channel
  trace : List LoopEvent

/-- EventLoop.cc:84, `channel->handleEvent(pollReturnTime_)` for one active
channel. -/
def EventLoop.handleOne (env : LoopEnv) (w : LoopRun) (channel : Nat) : LoopRun :=
  let calls := (w.chans channel).handleEvent env.alive w.loop.pollReturnTime_
  { w with
    loop := w.loop.callAll (calls.flatMap env.onCall),
    trace := w.trace ++ [LoopEvent.handled channel calls] }

/-- EventLoop.cc:78-91, one pass of the `while` body; `r` is what the
`epoll_wait` of this pass hands back. -/
def EventLoop.iteration (env : LoopEnv) (w : LoopRun) (r : EpollWait) : LoopRun :=
  let loop := { w.loop with activeChannels_ := [] }
  let pr := loop.poller_.poll r w.chans loop.activeChannels_
  let loop := { loop with
    poller_ := pr.1, activeChannels_ := pr.2.2.1, pollReturnTime_ := pr.2.2.2 }
  let w : LoopRun :=
    { loop := loop, chans := pr.2.1,
      trace := w.trace ++ [LoopEvent.polled loop.activeChannels_] }
  let w := loop.activeChannels_.foldl (EventLoop.handleOne env) w
  let d := w.loop.doPendingFunctors env.body
  { w with loop := d.1, trace := w.trace ++ d.2.map LoopEvent.ran }

/-- EventLoop.cc:93-94, what follows the `while`. -/
def EventLoop.loopExit (w : LoopRun) : LoopRun :=
  { w with loop := { w.loop with looping_ := false } }

/-- EventLoop.cc:76-92, the `while (!quit_)`; each pass takes the next result
of `epoll_wait` from `polls`.  `none`: the results supplied ran out with the
loop still running. -/
def EventLoop.loopFrom (env : LoopEnv) : List EpollWait → LoopRun → Option LoopRun
  | [], w => if w.loop.quit_ then some (EventLoop.loopExit w) else none
  | r :: rest, w =>
    if w.loop.quit_ then some (EventLoop.loopExit w)
    else EventLoop.loopFrom env rest (EventLoop.iteration env w r)

/-- EventLoop.cc:69-95. -/
def EventLoop.loop (env : LoopEnv) (polls : List EpollWait) (w : LoopRun) : Option LoopRun :=
  let w := { w with loop := { w.loop with looping_ := true, quit_ := false } }
  EventLoop.loopFrom env polls w

/-- The channels that the poll of a pass reports, in order. -/
def EventLoop.passActive (w : LoopRun) (r : EpollWait) : List Nat :=
  (w.loop.poller_.poll r w.chans []).2.2.1

/-- The callbacks that a pass invokes on an active channel. -/
def EventLoop.passCalls (env : LoopEnv) (w : LoopRun) (r : EpollWait) (channel : Nat) :
    List Call :=
  ((w.loop.poller_.poll r w.chans []).2.1 channel).handleEvent env.alive r.now

/-- The calls made on the loop while the channel callbacks of a pass run. -/
def EventLoop.passHandlerCalls (env : LoopEnv) (w : LoopRun) (r : EpollWait) :
    List LoopCall :=
  (EventLoop.passActive w r).flatMap
    (fun ch => (EventLoop.passCalls env w r ch).flatMap env.onCall)

/-- The closures pending when the drain of a pass starts: those pending at
the start of the pass and those enqueued while the channel callbacks ran. -/
def EventLoop.passQueue (env : LoopEnv) (w : LoopRun) (r : EpollWait) :
    List EventLoop.Functor :=
  w.loop.pendingFunctors_ ++ enqueuedBy (EventLoop.passHandlerCalls env w r)

/-- All calls made on the loop during a pass, in order: while the channel
callbacks run, then while the pending closures run. -/
def EventLoop.passLoopCalls (env : LoopEnv) (w : LoopRun) (r : EpollWait) : List LoopCall :=
  EventLoop.passHandlerCalls env w r ++ (EventLoop.passQueue env w r).flatMap env.body

/-- Sample surroundings of a loop: every tether target is alive, channel
callbacks call nothing on the loop, and the closure `other 7` calls `quit()`
on the loop's thread. -/
def sampleEnv : LoopEnv :=
  { alive := fun _ => true,
    onCall := fun _ => [],
    body := fun f => if f = EventLoop.Functor.other 7 then [LoopCall.quit 1] else [] }

/-- The sample loop at the head of a pass with two closures pending. -/
def sampleRun : LoopRun :=
  { loop := { sampleLoop with
      looping_ := true,
      pendingFunctors_ := [EventLoop.Functor.other 7, EventLoop.Functor.other 8] },
    chans := fun a => Channel.ctor a 3,
    trace := [] }

/-- An `epoll_wait` that times out. -/
def sampleTimeout : EpollWait :=
  { numEvents := 0, errno := 0, events := [], now := { microSecondsSinceEpoch_ := 1000 } }

/-! ## InetAddress text and TcpServer (InetAddress.cc, TcpServer.cc) -/

/-- The character of a decimal digit. -/
def digitChar (d : Nat) : Char := Char.ofNat (48 + d)

/-- The text `printf` produces for `%u`. -/
def fmtU (n : Nat) : String :=
  String.mk (if n = 0 then ['0'] else (Nat.digits 10 n).reverse.map digitChar)

/-- The text `printf` produces for `%d`. -/
def fmtD (i : Int) : String :=
  if i < 0 then "-" ++ fmtU i.natAbs else fmtU i.toNat

/-- The text `snprintf(buf, size, ...)` leaves in `buf`: at most `size - 1`
characters of the formatted text. -/
def snprintf (size : Nat) (text : String) : String :=
  String.mk (text.data.take (size - 1))

/-- `ntohs` on a little-endian host. -/
def ntohs (x : Nat) : Nat := (x % 256) * 256 + (x / 256) % 256

/-- `inet_ntop(AF_INET, ...)`: the four bytes of the address, in memory order,
in dotted decimal. -/
def inet_ntop (s_addr : Nat) : String :=
  fmtU (s_addr % 256) ++ "." ++ fmtU (s_addr / 256 % 256) ++ "." ++
    fmtU (s_addr / 65536 % 256) ++ "." ++ fmtU (s_addr / 16777216 % 256)

/-- InetAddress.cc:29-41. -/
def InetAddress.toIpPort (a : InetAddress) : String :=
  let buf := inet_ntop a.s_addr
  let port := ntohs a.sin_port
  buf ++ (":" ++ fmtU port)

/-- The largest `int`. -/
def INT_MAX : Int := 2147483647

/-- The smallest `int`. -/
def INT_MIN : Int := -2147483648

/-- The value of an `int` after `++`.  Past `INT_MAX` the standard leaves the
result undefined; on the two's-complement targets of the code it wraps to
`INT_MIN`. -/
def intIncr (x : Int) : Int := if x = INT_MAX then INT_MIN else x + 1

/-- `std::unordered_map<std::string, TcpConnectionPtr>` as an association
list with unique keys; the value is the connection's address. -/
abbrev ConnectionMap := List (String × Nat)

/-- `m.find(name)`. -/
def ConnectionMap.find (m : ConnectionMap) (name : String) : Option Nat :=
  match m with
  | [] => none
  | (k, v) :: rest => if k = name then some v else ConnectionMap.find rest name

/-- `m[name] = conn`. -/
def ConnectionMap.assign (m : ConnectionMap) (name : String) (conn : Nat) : ConnectionMap :=
  match m with
  | [] => [(name, conn)]
  | (k, v) :: rest =>
    if k = name then (k, conn) :: rest else (k, v) :: ConnectionMap.assign rest name conn

/-- `m.erase(name)`. -/
def ConnectionMap.erase (m : ConnectionMap) (name : String) : ConnectionMap :=
  m.filter (fun e => e.1 != name)

/-- TcpServer.cc; the class is declared in TcpServer.h, which is not among the
sources: these are the members that TcpServer.cc uses (`nextConnId_` is
printed with `%d`, an `int`). -/
structure TcpServer where
  addr : Nat
  ipPort_ : String
  name_ : String
  connectionCallback_ : Option Nat
  messageCallback_ : Option Nat
  writeCompleteCallback_ : Option Nat
  nextConnId_ : Int
  started_ : Int
  connections_ : ConnectionMap
  deriving DecidableEq, Repr

/-- TcpServer.cc:18-35. -/
def TcpServer.ctor (addr : Nat) (listenAddr : InetAddress) (nameArg : String) : TcpServer :=
  { addr := addr, ipPort_ := listenAddr.toIpPort, name_ := nameArg,
    connectionCallback_ := none, messageCallback_ := none, writeCompleteCallback_ := none,
    nextConnId_ := 1, started_ := 0, connections_ := [] }

/-- TcpServer.cc:75-83: the name given to the next connection. -/
def TcpServer.connName (s : TcpServer) : String :=
  let buf := snprintf 64 ("-" ++ s.ipPort_ ++ "#" ++ fmtD s.nextConnId_)
  s.name_ ++ buf

/-- What comes with one accepted connection: the arguments of `newConnection`,
the loop that `threadPool_->getNextLoop()` picks (EventLoopThreadPool is not
among the sources), the thread that runs `newConnection`, what `getsockname`
stores, and where the new objects are allocated. -/
structure Accepted where
  sockfd : Int
  peerAddr : InetAddress
  ioLoop : EventLoop
  tid : Int
  localAddr : InetAddress
  connAddr : Nat
  channelAddr : Nat
  initialSize : Nat

/-- TcpServer.cc:67-137.  Returns the server, the new connection, the loop it
was given to and the calls made. -/
def TcpServer.newConnection (s : TcpServer) (a : Accepted) :
    TcpServer × TcpConnection × EventLoop × List Effect :=
  let ioLoop := a.ioLoop
  let connName := s.connName
  let s := { s with nextConnId_ := intIncr s.nextConnId_ }
  let made := TcpConnection.ctor a.connAddr a.channelAddr a.initialSize connName a.sockfd
    a.localAddr a.peerAddr
  let conn := made.1
  let s := { s with connections_ := s.connections_.assign connName conn.addr }
  let conn := conn.setConnectionCallback s.connectionCallback_
  let conn := conn.setMessageCallback s.messageCallback_
  let conn := conn.setWriteCompleteCallback s.writeCompleteCallback_
  let conn := conn.setCloseCallback (some s.addr)
  if ioLoop.isInLoopThread a.tid then
    let r := conn.connectEstablished ioLoop
    (s, r.1, r.2.1, made.2 ++ r.2.2)
  else
    (s, conn, ioLoop.queueInLoop a.tid (EventLoop.Functor.connectEstablished conn.addr), made.2)

/-- TcpServer.cc:149-164; `ioLoop` is `conn->getLoop()`. -/
def TcpServer.removeConnectionInLoop (s : TcpServer) (conn : TcpConnection)
    (ioLoop : EventLoop) (tid : Int) : TcpServer × EventLoop :=
  let s := { s with connections_ := s.connections_.erase conn.name_ }
  (s, ioLoop.queueInLoop tid (EventLoop.Functor.connectDestroy conn.addr))

/-- What happens to the registry of a server: a connection is accepted
(`newConnection`), or a connection is removed (`removeConnectionInLoop`, run
on thread `tid`). -/
inductive ServerStep where
  | accept (a : Accepted)
  | remove (conn : TcpConnection) (ioLoop : EventLoop) (tid : Int)

/-- Is the step an accepted connection. -/
def ServerStep.isAccept : ServerStep → Bool
  | .accept _ => true
  | .remove _ _ _ => false

/-- The server after a step. -/
def TcpServer.step (s : TcpServer) : ServerStep → TcpServer
  | .accept a => (s.newConnection a).1
  | .remove conn ioLoop tid => (s.removeConnectionInLoop conn ioLoop tid).1

/-- The server after a sequence of steps, first step first. -/
def TcpServer.steps (s : TcpServer) (l : List ServerStep) : TcpServer :=
  l.foldl TcpServer.step s

/-- The name that the `k`-th connection should carry. -/
def TcpServer.nameOf (s : TcpServer) (k : Nat) : String :=
  s.name_ ++ ("-" ++ s.ipPort_ ++ "#" ++ fmtU k)

/-- The registry of a server holds only names that were given out: every key
is the name of a connection number below the next id. -/
def TcpServer.namesIssued (s : TcpServer) : Prop :=
  1 ≤ s.nextConnId_ ∧ s.ipPort_.length ≤ 21
  ∧ ∀ key, key ∈ s.connections_.map Prod.fst →
      ∃ j : Nat, 1 ≤ j ∧ Int.ofNat j < s.nextConnId_ ∧ key = s.nameOf j

/-- A server named "srv" listening on 127.0.0.1:8080 (both fields in network
byte order, as `sockaddr_in` holds them). -/
def sampleServer : TcpServer :=
  TcpServer.ctor 500 { sin_port := 36895, s_addr := 16777343 } "srv"

/-- One accepted connection, given to `sampleLoop` by the thread of that loop. -/
def sampleAccepted : Accepted :=
  { sockfd := 9, peerAddr := { sin_port := 47873, s_addr := 33554559 },
    ioLoop := sampleLoop, tid := sampleLoop.threadId_,
    localAddr := { sin_port := 36895, s_addr := 16777343 },
    connAddr := 600, channelAddr := 601, initialSize := 1024 }

/-! ## TcpConnection: the read and close paths -/

/-- TcpConnection.cc:274-297 once more, keeping with every callback invoked
the connection as the callee finds it behind the handle. -/
def TcpConnection.handleCloseSeen (c : TcpConnection) (loop : EventLoop) :
    List (Effect × TcpConnection) :=
  let c := c.setState StateE.kDisconnected
  let r := c.channel_.disableAll loop
  let c := { c with channel_ := r.2 }
  match c.connectionCallback_ with
  | none => [(Effect.badFunctionCall, c)]
  | some cb =>
    let e1 := (Effect.connectionCallback cb c.addr c.connected, c)
    match c.closeCallback_ with
    | none => [e1, (Effect.badFunctionCall, c)]
    | some hook => [e1, (Effect.closeCallback hook c.addr, c)]

/-- Is the call the queueing of a write-complete callback. -/
def EventLoop.Functor.isWriteComplete : EventLoop.Functor → Bool
  | .writeComplete _ _ => true
  | _ => false

/-! ## The poller over a run of calls -/

/-- The poller together with the Channel objects it is handed, by address. -/
structure PollerWorld where
  poller : EPollPoller
  chans : Nat → Channel

/-- A call that reaches the poller: `Channel::update()` (Channel.cc:49-56)
after the channel's interest mask was set to `events`, as `enableReading` and
its siblings do; `Channel::remove()` (Channel.cc:64-70); `poll` with what
`epoll_wait` hands back. -/
inductive PollerCall where
  | updateChannel (channel : Nat) (events : Nat)
  | removeChannel (channel : Nat)
  | poll (r : EpollWait)
  deriving DecidableEq, Repr

/-- Poller and channels after one call. -/
def PollerWorld.step (w : PollerWorld) : PollerCall → PollerWorld
  | .updateChannel a events =>
    let r := w.poller.updateChannel { w.chans a with events_ := events }
    { poller := r.1, chans := Function.update w.chans a r.2 }
  | .removeChannel a =>
    let r := w.poller.removeChannel (w.chans a)
    { poller := r.1, chans := Function.update w.chans a r.2 }
  | .poll r =>
    let pr := w.poller.poll r w.chans []
    { poller := pr.1, chans := pr.2.1 }

/-- Poller and channels after a sequence of calls, first call first. -/
def PollerWorld.run (w : PollerWorld) (calls : List PollerCall) : PollerWorld :=
  calls.foldl PollerWorld.step w

/-- A freshly constructed poller with channels none of which it has seen. -/
def PollerWorld.fresh (chans : Nat → Channel) : PollerWorld :=
  { poller := EPollPoller.ctor, chans := chans }

/-- The `epoll_ctl` calls that a call on the poller issues. -/
def PollerWorld.issued (w : PollerWorld) (call : PollerCall) : List CtlCall :=
  (w.step call).poller.ctlCalls.drop w.poller.ctlCalls.length

/-- What the registry and the kernel's interest list have to do with the
registration states: every channel sits at its own address, no two channels
share an fd, every state is new, added or deleted; the fd of a channel in
state new has no entry in the map and the fd of any other channel maps to
that channel; an fd is in the kernel's interest list exactly when its channel
is in state added; no fatal error was reached. -/
def PollerWorld.consistent (w : PollerWorld) : Prop :=
  (∀ a, (w.chans a).addr = a)
  ∧ (∀ a b, (w.chans a).fd_ = (w.chans b).fd_ → a = b)
  ∧ (∀ a, (w.chans a).index_ = kNew ∨ (w.chans a).index_ = kAdded
      ∨ (w.chans a).index_ = kDeleted)
  ∧ (∀ a, (w.chans a).index_ = kNew → w.poller.channels_.find (w.chans a).fd_ = none)
  ∧ (∀ a, (w.chans a).index_ ≠ kNew → w.poller.channels_.find (w.chans a).fd_ = some a)
  ∧ (∀ a, registered w.poller.interest (w.chans a).fd_ = true ↔ (w.chans a).index_ = kAdded)
  ∧ w.poller.fatal = false

/-- Channels on distinct descriptors: the channel at address `a` is on fd `a`. -/
def sampleChans : Nat → Channel := fun a => Channel.ctor a (Int.ofNat a)

/-- Calls on the channels at addresses 5 and 6: both are given read interest,
the first loses all interest and is removed, a poll fills the event list. -/
def sampleCalls : List PollerCall :=
  [PollerCall.updateChannel 5 kReadEvent, PollerCall.updateChannel 6 kReadEvent,
   PollerCall.updateChannel 5 kNoneEvent, PollerCall.removeChannel 5,
   PollerCall.poll { numEvents := 16, errno := 0, events := [], now := { microSecondsSinceEpoch_ := 7 } }]

/-! ## loop() from its entry -/

/-- EventLoop.cc:71-72: the loop at the head of the first pass. -/
def EventLoop.loopEntry (w : LoopRun) : LoopRun :=
  { w with loop := { w.loop with looping_ := true, quit_ := false } }

/-- The loop after the passes for the given results of `epoll_wait`, one pass
after the other. -/
def EventLoop.passes (env : LoopEnv) (polls : List EpollWait) (w : LoopRun) : LoopRun :=
  polls.foldl (EventLoop.iteration env) w

/-- During none of the passes for the given results of `epoll_wait` is
`quit()` called, by anyone. -/
def EventLoop.noQuit (env : LoopEnv) : List EpollWait → LoopRun → Bool
  | [], _ => true
  | r :: rest, w =>
    !(EventLoop.passLoopCalls env w r).any LoopCall.isQuit
      && EventLoop.noQuit env rest (EventLoop.iteration env w r)

/-- Sample surroundings of a loop: the closure `other 8` queues the closure
`other 7` from the loop's thread, and `other 7` calls `quit()`. -/
def sampleEnvTwo : LoopEnv :=
  { alive := fun _ => true,
    onCall := fun _ => [],
    body := fun f =>
      if f = EventLoop.Functor.other 8 then
        [LoopCall.queueInLoop 1 (EventLoop.Functor.other 7)]
      else if f = EventLoop.Functor.other 7 then [LoopCall.quit 1]
      else [] }

/-- The sample loop with the closure `other 8` pending, not yet in `loop()`. -/
def sampleIdle : LoopRun :=
  { loop := { sampleLoop with pendingFunctors_ := [EventLoop.Functor.other 8] },
    chans := fun a => Channel.ctor a 3,
    trace := [] }



/-! # Properties -/

/-! ## Bit masks -/

theorem lor_eq_zero_iff (a b : Nat) : a ||| b = 0 ↔ a = 0 ∧ b = 0 := by
  constructor
  · intro h
    have hb : ∀ i, (a ||| b).testBit i = false := by
      intro i; rw [h]; exact Nat.zero_testBit i
    constructor
    · apply Nat.eq_of_testBit_eq
      intro i
      have := hb i
      rw [Nat.testBit_or, Bool.or_eq_false_iff] at this
      rw [this.1, Nat.zero_testBit]
    · apply Nat.eq_of_testBit_eq
      intro i
      have := hb i
      rw [Nat.testBit_or, Bool.or_eq_false_iff] at this
      rw [this.2, Nat.zero_testBit]
  · rintro ⟨rfl, rfl⟩
    rfl

/-- A mask meets `EPOLLIN | EPOLLPRI` exactly when it meets one of the two. -/
theorem land_read_ne_zero_iff (x : Nat) :
    x &&& (EPOLLIN ||| EPOLLPRI) ≠ 0 ↔ (x &&& EPOLLIN ≠ 0 ∨ x &&& EPOLLPRI ≠ 0) := by
  rw [Nat.and_or_distrib_left, Ne, lor_eq_zero_iff]
  tauto

/-! ## Channel dispatch -/

theorem mem_slot_part {α : Type} (c : Prop) [Decidable c] (o : Option α) (f : α → Call)
    (x : Call) :
    x ∈ (if c then (o.map f).toList else []) ↔ c ∧ ∃ cb, o = some cb ∧ f cb = x := by
  by_cases h : c <;> cases o <;> simp [h, eq_comm]

theorem handleEventWithGuard_eq (ch : Channel) (ts : Timestamp) :
    ch.handleEventWithGuard ts =
      (if ch.revents_ &&& EPOLLHUP ≠ 0 ∧ ch.revents_ &&& EPOLLIN = 0 then
        (ch.closeCallback_.map Call.close).toList else [])
      ++ (if ch.revents_ &&& EPOLLERR ≠ 0 then
        (ch.errorCallback_.map Call.error).toList else [])
      ++ (if ch.revents_ &&& (EPOLLIN ||| EPOLLPRI) ≠ 0 then
        (ch.readCallback_.map (fun cb => Call.read cb ts)).toList else [])
      ++ (if ch.revents_ &&& EPOLLOUT ≠ 0 then
        (ch.writeCallback_.map Call.write).toList else []) := by
  unfold Channel.handleEventWithGuard
  cases ch.closeCallback_ <;> cases ch.errorCallback_ <;> cases ch.readCallback_ <;>
    cases ch.writeCallback_ <;>
    by_cases h1 : ch.revents_ &&& EPOLLHUP = 0 <;>
    by_cases h2 : ch.revents_ &&& EPOLLIN = 0 <;>
    by_cases h3 : ch.revents_ &&& EPOLLERR = 0 <;>
    by_cases h4 : ch.revents_ &&& (EPOLLIN ||| EPOLLPRI) = 0 <;>
    by_cases h5 : ch.revents_ &&& EPOLLOUT = 0 <;>
    simp [h1, h2, h3, h4, h5]

/-- C9: for every realized-events mask the guarded dispatch invokes registered
callbacks only, in the order close, error, read, write and each at most once
(the slots invoked form a sublist of that list); the close callback runs iff
the mask has hang-up and not read-ready, the error callback iff it has the
error flag, the read callback (with the poll timestamp) iff it has read-ready
or urgent, the write callback iff it has write-ready; a mask with read-ready
and hang-up runs the read callback and not the close callback. -/
theorem handleEventWithGuard_dispatch (ch : Channel) (ts : Timestamp) :
    List.Sublist ((ch.handleEventWithGuard ts).map Call.slot)
        [Slot.close, Slot.error, Slot.read, Slot.write]
    ∧ (∀ cb, Call.close cb ∈ ch.handleEventWithGuard ts ↔
        (ch.revents_ &&& EPOLLHUP ≠ 0 ∧ ch.revents_ &&& EPOLLIN = 0
          ∧ ch.closeCallback_ = some cb))
    ∧ (∀ cb, Call.error cb ∈ ch.handleEventWithGuard ts ↔
        (ch.revents_ &&& EPOLLERR ≠ 0 ∧ ch.errorCallback_ = some cb))
    ∧ (∀ cb t, Call.read cb t ∈ ch.handleEventWithGuard ts ↔
        ((ch.revents_ &&& EPOLLIN ≠ 0 ∨ ch.revents_ &&& EPOLLPRI ≠ 0)
          ∧ ch.readCallback_ = some cb ∧ t = ts))
    ∧ (∀ cb, Call.write cb ∈ ch.handleEventWithGuard ts ↔
        (ch.revents_ &&& EPOLLOUT ≠ 0 ∧ ch.writeCallback_ = some cb))
    ∧ (ch.revents_ &&& EPOLLIN ≠ 0 ∧ ch.revents_ &&& EPOLLHUP ≠ 0 →
        (∀ cb, Call.close cb ∉ ch.handleEventWithGuard ts)
        ∧ ∀ cb, ch.readCallback_ = some cb → Call.read cb ts ∈ ch.handleEventWithGuard ts) := by
  have hrd := land_read_ne_zero_iff ch.revents_
  rw [handleEventWithGuard_eq]
  refine ⟨?_, ?_, ?_, ?_, ?_, ?_⟩
  · cases ch.closeCallback_ <;> cases ch.errorCallback_ <;> cases ch.readCallback_ <;>
      cases ch.writeCallback_ <;>
      split_ifs <;> simp [Call.slot]
  · intro cb
    simp only [List.mem_append, mem_slot_part]
    simp [and_assoc]
  · intro cb
    simp only [List.mem_append, mem_slot_part]
    simp
  · intro cb t
    simp only [List.mem_append, mem_slot_part, hrd]
    simp
    intro _
    constructor
    · rintro ⟨cb1, h, rfl, rfl⟩
      exact ⟨h, rfl⟩
    · rintro ⟨h, rfl⟩
      exact ⟨cb, h, rfl, rfl⟩
  · intro cb
    simp only [List.mem_append, mem_slot_part]
    simp
  · rintro ⟨hin, hhup⟩
    have hr : ch.revents_ &&& (EPOLLIN ||| EPOLLPRI) ≠ 0 := hrd.mpr (Or.inl hin)
    constructor
    · intro cb
      simp only [List.mem_append, mem_slot_part]
      simp [hin]
    · intro cb hcb
      simp only [List.mem_append, mem_slot_part]
      simp [hcb, hr]

/-- C10: a channel tied to an owner that is no longer alive dispatches nothing,
whatever the events mask (also stated for any tied channel whose tether does
not upgrade); an untied channel, and a tied one whose tether upgrades, perform
exactly the guarded dispatch. -/
theorem handleEvent_tether (ch : Channel) (alive : Nat → Bool) (ts : Timestamp) :
    (∀ obj, alive obj = false → (ch.tie obj).handleEvent alive ts = [])
    ∧ (ch.tied_ = true ∧ weakLock ch.tie_ alive = none → ch.handleEvent alive ts = [])
    ∧ (ch.tied_ = false → ch.handleEvent alive ts = ch.handleEventWithGuard ts)
    ∧ (ch.tied_ = true ∧ (weakLock ch.tie_ alive).isSome = true →
        ch.handleEvent alive ts = ch.handleEventWithGuard ts)
    ∧ (∀ obj, alive obj = true →
        (ch.tie obj).handleEvent alive ts = ch.handleEventWithGuard ts) := by
  refine ⟨?_, ?_, ?_, ?_, ?_⟩
  · intro obj h
    simp [Channel.handleEvent, Channel.tie, weakLock, h]
  · rintro ⟨h1, h2⟩
    simp [Channel.handleEvent, h1, h2]
  · intro h
    simp [Channel.handleEvent, h]
  · rintro ⟨h1, h2⟩
    cases hw : weakLock ch.tie_ alive with
    | none => rw [hw] at h2; cases h2
    | some o => simp [Channel.handleEvent, h1, hw]
  · intro obj h
    simp [Channel.handleEvent, Channel.tie, weakLock, h, Channel.handleEventWithGuard]

/-! ## The fd -> Channel map -/

theorem find_assign_self (m : ChannelMap) (fd : Int) (ptr : Nat) :
    (m.assign fd ptr).find fd = some ptr := by
  induction m with
  | nil => simp [ChannelMap.assign, ChannelMap.find]
  | cons e rest ih =>
    obtain ⟨k, v⟩ := e
    by_cases h : k = fd
    · simp [ChannelMap.assign, ChannelMap.find, h]
    · simp [ChannelMap.assign, ChannelMap.find, h, ih]

theorem find_assign_ne (m : ChannelMap) (fd fd2 : Int) (ptr : Nat) (hne : fd2 ≠ fd) :
    (m.assign fd ptr).find fd2 = m.find fd2 := by
  induction m with
  | nil => simp [ChannelMap.assign, ChannelMap.find, Ne.symm hne]
  | cons e rest ih =>
    obtain ⟨k, v⟩ := e
    by_cases h : k = fd
    · subst h
      simp [ChannelMap.assign, ChannelMap.find, Ne.symm hne]
    · by_cases h2 : k = fd2
      · subst h2
        simp [ChannelMap.assign, ChannelMap.find, h]
      · simp [ChannelMap.assign, ChannelMap.find, h, h2, ih]

theorem find_erase_self (m : ChannelMap) (fd : Int) : (m.erase fd).find fd = none := by
  induction m with
  | nil => simp [ChannelMap.erase, ChannelMap.find]
  | cons e rest ih =>
    obtain ⟨k, v⟩ := e
    by_cases h : k = fd
    · simpa [ChannelMap.erase, List.filter_cons, h] using ih
    · have ih2 : ChannelMap.find (List.filter (fun e => e.1 != fd) rest) fd = none := ih
      simp [ChannelMap.erase, List.filter_cons, h, ChannelMap.find, ih2]

theorem find_erase_ne (m : ChannelMap) (fd fd2 : Int) (hne : fd2 ≠ fd) :
    (m.erase fd).find fd2 = m.find fd2 := by
  induction m with
  | nil => simp [ChannelMap.erase, ChannelMap.find]
  | cons e rest ih =>
    obtain ⟨k, v⟩ := e
    have ih2 : ChannelMap.find (List.filter (fun e => e.1 != fd) rest) fd2
        = ChannelMap.find rest fd2 := ih
    by_cases h : k = fd
    · subst h
      simp [ChannelMap.erase, List.filter_cons, ChannelMap.find, Ne.symm hne, ih2]
    · by_cases h2 : k = fd2
      · subst h2
        simp [ChannelMap.erase, List.filter_cons, h, ChannelMap.find]
      · simp [ChannelMap.erase, List.filter_cons, h, ChannelMap.find, h2, ih2]

/-! ## EPollPoller -/

theorem update_channels (p : EPollPoller) (op : EpollOp) (ch : Channel) :
    (p.update op ch).channels_ = p.channels_ := by
  unfold EPollPoller.update
  simp only
  split
  · rfl
  · split <;> rfl

theorem update_ctlCalls (p : EPollPoller) (op : EpollOp) (ch : Channel) :
    (p.update op ch).ctlCalls = p.ctlCalls ++
      [{ op := op, fd := ch.fd_, events := ch.events_, ptr := ch.addr }] := by
  unfold EPollPoller.update
  simp only
  split
  · rfl
  · split <;> rfl

/-- C6: `updateChannel` by registration state.  From new: the map sends the
fd to the channel and is otherwise unchanged, one kernel add is issued, the
state becomes added.  From deleted: one kernel add, map unchanged, state
added.  From added with empty interest: one kernel delete, map unchanged (the
entry is kept), state deleted.  From added with non-empty interest: one
kernel modify, state and map unchanged. -/
theorem updateChannel_by_state (p : EPollPoller) (ch : Channel) :
    (ch.index_ = kNew →
      (p.updateChannel ch).1.channels_.find ch.fd_ = some ch.addr
      ∧ (∀ fd, fd ≠ ch.fd_ →
          (p.updateChannel ch).1.channels_.find fd = p.channels_.find fd)
      ∧ (p.updateChannel ch).1.ctlCalls = p.ctlCalls ++
          [{ op := EpollOp.EPOLL_CTL_ADD, fd := ch.fd_, events := ch.events_, ptr := ch.addr }]
      ∧ (p.updateChannel ch).2 = ch.set_index kAdded)
    ∧ (ch.index_ = kDeleted →
      (p.updateChannel ch).1.channels_ = p.channels_
      ∧ (p.updateChannel ch).1.ctlCalls = p.ctlCalls ++
          [{ op := EpollOp.EPOLL_CTL_ADD, fd := ch.fd_, events := ch.events_, ptr := ch.addr }]
      ∧ (p.updateChannel ch).2 = ch.set_index kAdded)
    ∧ (ch.index_ = kAdded ∧ ch.events_ = 0 →
      (p.updateChannel ch).1.channels_ = p.channels_
      ∧ (p.updateChannel ch).1.ctlCalls = p.ctlCalls ++
          [{ op := EpollOp.EPOLL_CTL_DEL, fd := ch.fd_, events := ch.events_, ptr := ch.addr }]
      ∧ (p.updateChannel ch).2 = ch.set_index kDeleted)
    ∧ (ch.index_ = kAdded ∧ ch.events_ ≠ 0 →
      (p.updateChannel ch).1.channels_ = p.channels_
      ∧ (p.updateChannel ch).1.ctlCalls = p.ctlCalls ++
          [{ op := EpollOp.EPOLL_CTL_MOD, fd := ch.fd_, events := ch.events_, ptr := ch.addr }]
      ∧ (p.updateChannel ch).2 = ch) := by
  refine ⟨?_, ?_, ?_, ?_⟩
  · intro h
    simp only [EPollPoller.updateChannel, h, true_or, if_true, update_channels, update_ctlCalls]
    refine ⟨find_assign_self _ _ _, fun fd hfd => find_assign_ne _ _ _ _ hfd, ?_⟩
    simp [Channel.set_index]
  · intro h
    have hk : kDeleted ≠ kNew := by decide
    simp only [EPollPoller.updateChannel, h, hk, or_true, if_true, if_false, update_channels,
      update_ctlCalls]
    simp [Channel.set_index]
  · rintro ⟨h, he⟩
    have hk : ¬ (kAdded = kNew ∨ kAdded = kDeleted) := by decide
    simp [EPollPoller.updateChannel, h, hk, update_channels, update_ctlCalls,
      Channel.isNoneEvent, kNoneEvent, he]
  · rintro ⟨h, he⟩
    have hk : ¬ (kAdded = kNew ∨ kAdded = kDeleted) := by decide
    simp [EPollPoller.updateChannel, h, hk, update_channels, update_ctlCalls,
      Channel.isNoneEvent, kNoneEvent, he]

/-- C8: `removeChannel` leaves no entry for the channel's fd in the map and
keeps the entry of every other fd, issues one kernel delete when the state was
added and no kernel call otherwise, sets the state to new; afterwards
`hasChannel` is false for the channel. -/
theorem removeChannel_effect (p : EPollPoller) (ch : Channel) :
    (p.removeChannel ch).1.channels_.find ch.fd_ = none
    ∧ (∀ fd, fd ≠ ch.fd_ →
        (p.removeChannel ch).1.channels_.find fd = p.channels_.find fd)
    ∧ (ch.index_ = kAdded →
        (p.removeChannel ch).1.ctlCalls = p.ctlCalls ++
          [{ op := EpollOp.EPOLL_CTL_DEL, fd := ch.fd_, events := ch.events_, ptr := ch.addr }])
    ∧ (ch.index_ ≠ kAdded → (p.removeChannel ch).1.ctlCalls = p.ctlCalls)
    ∧ (p.removeChannel ch).2 = ch.set_index kNew
    ∧ (p.removeChannel ch).1.hasChannel (p.removeChannel ch).2 = false
    ∧ (p.removeChannel ch).1.hasChannel ch = false := by
  have hmap : (p.removeChannel ch).1.channels_ = p.channels_.erase ch.fd_ := by
    unfold EPollPoller.removeChannel
    simp only
    split
    · rw [update_channels]
    · rfl
  refine ⟨?_, ?_, ?_, ?_, rfl, ?_, ?_⟩
  · rw [hmap]; exact find_erase_self _ _
  · intro fd hfd
    rw [hmap]; exact find_erase_ne _ _ _ hfd
  · intro h
    simp [EPollPoller.removeChannel, h, update_ctlCalls]
  · intro h
    simp [EPollPoller.removeChannel, h]
  · have hfd : (p.removeChannel ch).2.fd_ = ch.fd_ := rfl
    unfold EPollPoller.hasChannel
    rw [hfd, hmap, find_erase_self]
  · unfold EPollPoller.hasChannel
    rw [hmap, find_erase_self]

theorem update_mod_registeredFds (p : EPollPoller) (ch : Channel) :
    registeredFds (p.update EpollOp.EPOLL_CTL_MOD ch).interest = registeredFds p.interest := by
  unfold EPollPoller.update epoll_ctl
  simp only
  by_cases hr : registered p.interest ch.fd_ = true
  · simp only [hr, if_true, registeredFds, List.map_map]
    apply List.map_congr_left
    intro it _
    by_cases hfd : it.fd = ch.fd_ <;> simp [hfd]
  · simp [hr]

/-- C7 (as stated, refuted): a freshly constructed channel (state new, empty
interest) updated once is in state added with its fd registered in the
kernel; updated a second time with the interest unchanged it is in state
deleted and the fd is no longer registered. -/
theorem updateChannel_twice_empty_interest :
    (EPollPoller.ctor.updateChannel (Channel.ctor 1 5)).2.index_ = kAdded
    ∧ registeredFds (EPollPoller.ctor.updateChannel (Channel.ctor 1 5)).1.interest = [5]
    ∧ ((EPollPoller.ctor.updateChannel (Channel.ctor 1 5)).1.updateChannel
        (EPollPoller.ctor.updateChannel (Channel.ctor 1 5)).2).2.index_ = kDeleted
    ∧ registeredFds ((EPollPoller.ctor.updateChannel (Channel.ctor 1 5)).1.updateChannel
        (EPollPoller.ctor.updateChannel (Channel.ctor 1 5)).2).1.interest = []
    ∧ ((EPollPoller.ctor.updateChannel (Channel.ctor 1 5)).1.updateChannel
        (EPollPoller.ctor.updateChannel (Channel.ctor 1 5)).2).2.index_
        ≠ (EPollPoller.ctor.updateChannel (Channel.ctor 1 5)).2.index_ := by
  decide

/-- C7 (amended): for every poller, every channel in any registration state
and every non-empty interest mask, a second `updateChannel` with the interest
unchanged leaves the channel (hence its registration state), the fd -> Channel
map and the kernel-registered fds as the first call left them. -/
theorem updateChannel_idempotent_of_interest (p : EPollPoller) (ch : Channel)
    (h : ch.events_ ≠ 0) :
    ((p.updateChannel ch).1.updateChannel (p.updateChannel ch).2).2 = (p.updateChannel ch).2
    ∧ ((p.updateChannel ch).1.updateChannel (p.updateChannel ch).2).1.channels_
        = (p.updateChannel ch).1.channels_
    ∧ registeredFds ((p.updateChannel ch).1.updateChannel (p.updateChannel ch).2).1.interest
        = registeredFds (p.updateChannel ch).1.interest := by
  have hk : ¬ (kAdded = kNew ∨ kAdded = kDeleted) := by decide
  have hne : ∀ c : Channel, c.events_ = ch.events_ → c.isNoneEvent = false := by
    intro c hc
    simp [Channel.isNoneEvent, kNoneEvent, hc, h]
  by_cases hi : ch.index_ = kNew ∨ ch.index_ = kDeleted
  · have h1 : (p.updateChannel ch).2 = ch.set_index kAdded := by
      simp [EPollPoller.updateChannel, hi]
    have h2 : ∀ q : EPollPoller, q.updateChannel (ch.set_index kAdded)
        = (q.update EpollOp.EPOLL_CTL_MOD (ch.set_index kAdded), ch.set_index kAdded) := by
      intro q
      have := hne (ch.set_index kAdded) rfl
      simp [EPollPoller.updateChannel, Channel.set_index, hk, Channel.isNoneEvent] at this ⊢
      simp [this]
    rw [h1, h2]
    exact ⟨rfl, update_channels _ _ _, update_mod_registeredFds _ _⟩
  · have h2 : ∀ q : EPollPoller, q.updateChannel ch
        = (q.update EpollOp.EPOLL_CTL_MOD ch, ch) := by
      intro q
      simp [EPollPoller.updateChannel, hi, hne ch rfl]
    rw [h2 p, h2]
    exact ⟨rfl, update_channels _ _ _, update_mod_registeredFds _ _⟩

/-- The amended C7 at a read-interested channel on fd 5 and a fresh poller. -/
theorem updateChannel_idempotent_of_interest_witness :
    ({ Channel.ctor 1 5 with events_ := kReadEvent } : Channel).events_ ≠ 0
    ∧ ((EPollPoller.ctor.updateChannel { Channel.ctor 1 5 with events_ := kReadEvent }).1.updateChannel
        (EPollPoller.ctor.updateChannel { Channel.ctor 1 5 with events_ := kReadEvent }).2).2
        = (EPollPoller.ctor.updateChannel { Channel.ctor 1 5 with events_ := kReadEvent }).2
    ∧ ((EPollPoller.ctor.updateChannel { Channel.ctor 1 5 with events_ := kReadEvent }).1.updateChannel
        (EPollPoller.ctor.updateChannel { Channel.ctor 1 5 with events_ := kReadEvent }).2).1.channels_
        = (EPollPoller.ctor.updateChannel { Channel.ctor 1 5 with events_ := kReadEvent }).1.channels_
    ∧ registeredFds ((EPollPoller.ctor.updateChannel
        { Channel.ctor 1 5 with events_ := kReadEvent }).1.updateChannel
        (EPollPoller.ctor.updateChannel { Channel.ctor 1 5 with events_ := kReadEvent }).2).1.interest
        = registeredFds
          (EPollPoller.ctor.updateChannel { Channel.ctor 1 5 with events_ := kReadEvent }).1.interest :=
  ⟨by decide,
   updateChannel_idempotent_of_interest EPollPoller.ctor
     { Channel.ctor 1 5 with events_ := kReadEvent } (by decide)⟩

/-! ## TcpConnection -/

/-- C4 (what the code does): after construction the channel's read callback
is handleRead and its write callback is handleWrite, but its close callback is
handleError (the second `setCloseCallback` overwrites handleClose) and its
error callback is empty. -/
theorem ctor_channel_callbacks (addr channelAddr initialSize : Nat) (nameArg : String)
    (sockfd : Int) (localAddr peerAddr : InetAddress) :
    (TcpConnection.ctor addr channelAddr initialSize nameArg sockfd localAddr
        peerAddr).1.channel_.readCallback_ = some (Handler.tcpHandleRead addr)
    ∧ (TcpConnection.ctor addr channelAddr initialSize nameArg sockfd localAddr
        peerAddr).1.channel_.writeCallback_ = some (Handler.tcpHandleWrite addr)
    ∧ (TcpConnection.ctor addr channelAddr initialSize nameArg sockfd localAddr
        peerAddr).1.channel_.closeCallback_ = some (Handler.tcpHandleError addr)
    ∧ (TcpConnection.ctor addr channelAddr initialSize nameArg sockfd localAddr
        peerAddr).1.channel_.closeCallback_ ≠ some (Handler.tcpHandleClose addr)
    ∧ (TcpConnection.ctor addr channelAddr initialSize nameArg sockfd localAddr
        peerAddr).1.channel_.errorCallback_ = none := by
  refine ⟨rfl, rfl, rfl, ?_, rfl⟩
  simp [TcpConnection.ctor, Channel.setCloseCallback]

/-- C5 (as stated, refuted): an established connection on which `shutdown`
was called is in state Disconnecting, and `connectDestroy` leaves it in state
Disconnecting, not Disconnected. -/
theorem connectDestroy_disconnecting_stays :
    (sampleEstablished.1.shutdown sampleEstablished.2 1).1.state_ = StateE.kDisconnecting
    ∧ ((sampleEstablished.1.shutdown sampleEstablished.2 1).1.connectDestroy
        (sampleEstablished.1.shutdown sampleEstablished.2 1).2.1).1.state_
        = StateE.kDisconnecting
    ∧ ((sampleEstablished.1.shutdown sampleEstablished.2 1).1.connectDestroy
        (sampleEstablished.1.shutdown sampleEstablished.2 1).2.1).1.state_
        ≠ StateE.kDisconnected := by
  decide

/-- C5 (amended): for every connection in state Connected or Disconnecting,
`handleClose` leaves it in state Disconnected; `connectDestroy` leaves it in
state Disconnected when it was Connected, and in state Disconnecting when it
was Disconnecting. -/
theorem close_paths_state (c : TcpConnection) (loop : EventLoop)
    (h : c.state_ = StateE.kConnected ∨ c.state_ = StateE.kDisconnecting) :
    (c.handleClose loop).1.state_ = StateE.kDisconnected
    ∧ (c.connectDestroy loop).1.state_ =
        (if c.state_ = StateE.kConnected then StateE.kDisconnected
         else StateE.kDisconnecting) := by
  refine ⟨?_, ?_⟩
  · unfold TcpConnection.handleClose
    simp only [TcpConnection.setState]
    split
    · rfl
    · split <;> rfl
  · rcases h with hc | hc
    · unfold TcpConnection.connectDestroy
      simp only [hc, if_true, TcpConnection.setState]
      split <;> rfl
    · unfold TcpConnection.connectDestroy
      simp [hc]

/-- The amended C5 at the established sample connection. -/
theorem close_paths_state_witness :
    (sampleEstablished.1.state_ = StateE.kConnected
      ∨ sampleEstablished.1.state_ = StateE.kDisconnecting)
    ∧ (sampleEstablished.1.handleClose sampleEstablished.2).1.state_ = StateE.kDisconnected
    ∧ (sampleEstablished.1.connectDestroy sampleEstablished.2).1.state_ =
        (if sampleEstablished.1.state_ = StateE.kConnected then StateE.kDisconnected
         else StateE.kDisconnecting) :=
  ⟨Or.inl (by decide),
   close_paths_state sampleEstablished.1 sampleEstablished.2 (Or.inl (by decide))⟩

/-- C1 (what the code does at the failing input): an established connection
with an empty output buffer and no write interest is given one byte to send,
and the kernel would take it.  The code makes no `write` call at all: the
byte is appended to the output buffer and write interest is enabled. -/
theorem sendInLoop_skips_direct_write :
    sampleEstablished.1.state_ = StateE.kConnected
    ∧ sampleEstablished.1.outputBuffer_.readableBytes = 0
    ∧ sampleEstablished.1.channel_.isWriting = false
    ∧ (sampleEstablished.1.sendInLoop sampleEstablished.2 1 [104]
        { ret := 1, errno := 0 }).2.2 = []
    ∧ (sampleEstablished.1.sendInLoop sampleEstablished.2 1 [104]
        { ret := 1, errno := 0 }).1.outputBuffer_.peek = [104]
    ∧ (sampleEstablished.1.sendInLoop sampleEstablished.2 1 [104]
        { ret := 1, errno := 0 }).1.channel_.isWriting = true := by
  decide

theorem queueInLoop_pending (loop : EventLoop) (tid : Int) (cb : EventLoop.Functor) :
    (loop.queueInLoop tid cb).pendingFunctors_ = loop.pendingFunctors_ ++ [cb] := by
  unfold EventLoop.queueInLoop
  simp only
  split <;> rfl

theorem updateChannel_events (p : EPollPoller) (ch : Channel) :
    (p.updateChannel ch).2.events_ = ch.events_ := by
  unfold EPollPoller.updateChannel
  simp only
  split
  · rfl
  · split <;> rfl

theorem channel_update_events (ch : Channel) (loop : EventLoop) :
    (ch.update loop).2.events_ = ch.events_ :=
  updateChannel_events _ _

theorem channel_update_pending (ch : Channel) (loop : EventLoop) :
    (ch.update loop).1.pendingFunctors_ = loop.pendingFunctors_ := rfl

theorem enableWriting_pending (ch : Channel) (loop : EventLoop) :
    (ch.enableWriting loop).1.pendingFunctors_ = loop.pendingFunctors_ := rfl

/-- The first part of `sendInLoop` leaves the loop alone unless everything
was written. -/
theorem sendInLoopDirect_loop (c : TcpConnection) (loop : EventLoop) (tid : Int)
    (data : List Byte) (w : SysRet)
    (hr : 0 < (c.sendInLoopDirect loop tid data w).remaining) :
    (c.sendInLoopDirect loop tid data w).loop = loop := by
  unfold TcpConnection.sendInLoopDirect at hr ⊢
  simp only at hr ⊢
  split
  · rename_i h1
    rw [if_pos h1] at hr
    split
    · rename_i h2
      rw [if_pos h2] at hr
      split
      · rename_i h3
        rw [if_pos h3] at hr
        exfalso
        cases hcb : c.writeCompleteCallback_ <;> rw [hcb] at hr <;> simp only at hr <;> omega
      · rfl
    · split
      · split <;> rfl
      · rfl
  · rfl

/-- C3: in `sendInLoop` on a connection that is not Disconnected, when no
fault occurred and `remaining > 0` bytes are to be buffered (old + remaining
being a `size_t` value), what is queued on the loop is exactly: the high-water
callback with the argument `old + remaining` if one is registered and
`old < highWaterMark ≤ old + remaining`, where `old` is the readable size of
the output buffer before the append, and nothing otherwise; in particular
nothing is queued when `old ≥ highWaterMark`. -/
theorem sendInLoop_highWaterMark (c : TcpConnection) (loop : EventLoop) (tid : Int)
    (data : List Byte) (w : SysRet)
    (hs : c.state_ ≠ StateE.kDisconnected)
    (hf : (c.sendInLoopDirect loop tid data w).faultError = false)
    (hr : 0 < (c.sendInLoopDirect loop tid data w).remaining)
    (hsz : c.outputBuffer_.readableBytes + (c.sendInLoopDirect loop tid data w).remaining
        < SIZE_MOD) :
    (c.sendInLoop loop tid data w).2.1.pendingFunctors_
      = loop.pendingFunctors_ ++
        (match c.highWaterMarkCallback_ with
         | some cb =>
           if c.outputBuffer_.readableBytes < c.highWaterMark_
              ∧ c.highWaterMark_ ≤ c.outputBuffer_.readableBytes
                  + (c.sendInLoopDirect loop tid data w).remaining then
             [EventLoop.Functor.highWaterMark cb c.addr
               (c.outputBuffer_.readableBytes
                 + (c.sendInLoopDirect loop tid data w).remaining)]
           else []
         | none => [])
    ∧ (c.highWaterMark_ ≤ c.outputBuffer_.readableBytes →
        (c.sendInLoop loop tid data w).2.1.pendingFunctors_ = loop.pendingFunctors_) := by
  have hloop := sendInLoopDirect_loop c loop tid data w hr
  have hmod := Nat.mod_eq_of_lt hsz
  have key : (c.sendInLoop loop tid data w).2.1.pendingFunctors_
      = loop.pendingFunctors_ ++
        (match c.highWaterMarkCallback_ with
         | some cb =>
           if c.outputBuffer_.readableBytes < c.highWaterMark_
              ∧ c.highWaterMark_ ≤ c.outputBuffer_.readableBytes
                  + (c.sendInLoopDirect loop tid data w).remaining then
             [EventLoop.Functor.highWaterMark cb c.addr
               (c.outputBuffer_.readableBytes
                 + (c.sendInLoopDirect loop tid data w).remaining)]
           else []
         | none => []) := by
    unfold TcpConnection.sendInLoop
    rw [if_neg hs]
    simp only [hf, hr, hmod, hloop, Bool.not_false, Bool.true_and, decide_True, if_true]
    by_cases hw : c.channel_.isWriting = true
    · simp only [hw, Bool.not_true, if_false]
      by_cases hc : c.highWaterMark_ ≤ c.outputBuffer_.readableBytes
            + (c.sendInLoopDirect loop tid data w).remaining
          ∧ c.outputBuffer_.readableBytes < c.highWaterMark_
      · cases hcb : c.highWaterMarkCallback_ <;>
          simp [hc, hc.1, hc.2, queueInLoop_pending]
      · have hc2 : ¬ (c.outputBuffer_.readableBytes < c.highWaterMark_
            ∧ c.highWaterMark_ ≤ c.outputBuffer_.readableBytes
                + (c.sendInLoopDirect loop tid data w).remaining) := fun h => hc ⟨h.2, h.1⟩
        cases hcb : c.highWaterMarkCallback_ <;> simp [hc, hc2]
    · simp only [Bool.not_eq_true] at hw
      simp only [hw, Bool.not_false, if_true, enableWriting_pending]
      by_cases hc : c.highWaterMark_ ≤ c.outputBuffer_.readableBytes
            + (c.sendInLoopDirect loop tid data w).remaining
          ∧ c.outputBuffer_.readableBytes < c.highWaterMark_
      · cases hcb : c.highWaterMarkCallback_ <;>
          simp [hc, hc.1, hc.2, queueInLoop_pending]
      · have hc2 : ¬ (c.outputBuffer_.readableBytes < c.highWaterMark_
            ∧ c.highWaterMark_ ≤ c.outputBuffer_.readableBytes
                + (c.sendInLoopDirect loop tid data w).remaining) := fun h => hc ⟨h.2, h.1⟩
        cases hcb : c.highWaterMarkCallback_ <;> simp [hc, hc2]
  refine ⟨key, ?_⟩
  intro hge
  rw [key]
  have hno : ¬ (c.outputBuffer_.readableBytes < c.highWaterMark_
      ∧ c.highWaterMark_ ≤ c.outputBuffer_.readableBytes
          + (c.sendInLoopDirect loop tid data w).remaining) := fun h => by omega
  cases c.highWaterMarkCallback_ <;> simp [hno]

/-- C3 at the sample connection with a high-water mark of 4 bytes and five
bytes to send: the high-water callback is queued with the argument 5. -/
theorem sendInLoop_highWaterMark_witness :
    (sampleEstablished.1.setHighWaterMarkCallback (some 9) 4).state_ ≠ StateE.kDisconnected
    ∧ ((sampleEstablished.1.setHighWaterMarkCallback (some 9) 4).sendInLoopDirect
        sampleEstablished.2 1 [1, 2, 3, 4, 5] { ret := 0, errno := 0 }).faultError = false
    ∧ 0 < ((sampleEstablished.1.setHighWaterMarkCallback (some 9) 4).sendInLoopDirect
        sampleEstablished.2 1 [1, 2, 3, 4, 5] { ret := 0, errno := 0 }).remaining
    ∧ ((sampleEstablished.1.setHighWaterMarkCallback (some 9) 4).sendInLoop
        sampleEstablished.2 1 [1, 2, 3, 4, 5] { ret := 0, errno := 0 }).2.1.pendingFunctors_
        = [EventLoop.Functor.highWaterMark 9 200 5] :=
  ⟨by decide, by decide, by decide,
   (sendInLoop_highWaterMark (sampleEstablished.1.setHighWaterMarkCallback (some 9) 4)
      sampleEstablished.2 1 [1, 2, 3, 4, 5] { ret := 0, errno := 0 }
      (by decide) (by decide) (by decide) (by decide)).1⟩

/-! ## Write interest -/

theorem isWriting_of_lor (e : Nat) : ((e ||| kWriteEvent) &&& kWriteEvent != 0) = true := by
  have h : (e ||| kWriteEvent) &&& kWriteEvent ≠ 0 := by
    rw [Nat.and_comm, Nat.and_or_distrib_left, Ne, lor_eq_zero_iff]
    rintro ⟨_, h2⟩
    exact absurd h2 (by decide)
  simpa using h

theorem isWriting_of_land_not (e : Nat) :
    ((e &&& bitNot kWriteEvent) &&& kWriteEvent != 0) = false := by
  have h : (e &&& bitNot kWriteEvent) &&& kWriteEvent = 0 := by
    rw [Nat.and_assoc]
    have : bitNot kWriteEvent &&& kWriteEvent = 0 := by decide
    rw [this]
    exact Nat.and_zero e
  simp [h]

theorem enableWriting_isWriting (ch : Channel) (loop : EventLoop) :
    (ch.enableWriting loop).2.isWriting = true := by
  unfold Channel.isWriting Channel.enableWriting
  rw [channel_update_events]
  exact isWriting_of_lor _

theorem disableWriting_isWriting (ch : Channel) (loop : EventLoop) :
    (ch.disableWriting loop).2.isWriting = false := by
  unfold Channel.isWriting Channel.disableWriting
  rw [channel_update_events]
  exact isWriting_of_land_not _

/-! ## Buffer cursors -/

theorem makeSpace_cursors (b : Buffer) (len : Nat)
    (h : b.readerIndex_ ≤ b.writerIndex_) :
    (b.makeSpace len).readerIndex_ ≤ (b.makeSpace len).writerIndex_
    ∧ (b.makeSpace len).readableBytes = b.readableBytes := by
  unfold Buffer.makeSpace
  split
  · exact ⟨h, rfl⟩
  · simp only [Buffer.readableBytes]
    omega

theorem append_cursors (b : Buffer) (data : List Byte)
    (h : b.readerIndex_ ≤ b.writerIndex_) :
    (b.append data).readerIndex_ ≤ (b.append data).writerIndex_
    ∧ (b.append data).readableBytes = b.readableBytes + data.length := by
  unfold Buffer.append
  simp only
  split
  · have hm := makeSpace_cursors b data.length h
    simp only [Buffer.readableBytes] at hm ⊢
    omega
  · simp only [Buffer.readableBytes]
    omega

theorem retrieve_cursors (b : Buffer) (len : Nat)
    (h : b.readerIndex_ ≤ b.writerIndex_) :
    (b.retrieve len).readerIndex_ ≤ (b.retrieve len).writerIndex_
    ∧ (b.retrieve len).readableBytes = b.readableBytes - len := by
  unfold Buffer.retrieve
  split
  · rename_i hlt
    simp only [Buffer.readableBytes] at hlt ⊢
    omega
  · rename_i hge
    simp only [Buffer.retrieveAll, Buffer.readableBytes] at hge ⊢
    omega

/-! ## The write-interest invariant along the steps of a connection -/

/-- Without the condition of TcpConnection.cc:83 the first part of
`sendInLoop` does nothing. -/
theorem sendInLoopDirect_skip (c : TcpConnection) (loop : EventLoop) (tid : Int)
    (data : List Byte) (w : SysRet)
    (h : (c.channel_.isWriting && c.outputBuffer_.readableBytes == 0) = false) :
    c.sendInLoopDirect loop tid data w
      = { nwrote := 0, remaining := data.length, faultError := false, loop := loop,
          effects := [] } := by
  unfold TcpConnection.sendInLoopDirect
  simp [h]

theorem inv_direct_cond (c : TcpConnection) (h : WriteInterestInv c) :
    (c.channel_.isWriting && c.outputBuffer_.readableBytes == 0) = false := by
  obtain ⟨_, hiff⟩ := h
  cases hw : c.channel_.isWriting
  · rfl
  · have := hiff.mp hw
    simp
    omega

theorem sendInLoop_state (c : TcpConnection) (loop : EventLoop) (tid : Int)
    (data : List Byte) (w : SysRet) :
    (c.sendInLoop loop tid data w).1.state_ = c.state_ := by
  unfold TcpConnection.sendInLoop
  split
  · rfl
  · simp only
    split
    · split <;> rfl
    · rfl

theorem sendInLoop_inv (c : TcpConnection) (loop : EventLoop) (tid : Int)
    (data : List Byte) (w : SysRet) (h : WriteInterestInv c) :
    WriteInterestInv (c.sendInLoop loop tid data w).1 := by
  have hskip := sendInLoopDirect_skip c loop tid data w (inv_direct_cond c h)
  obtain ⟨hrw, hiff⟩ := h
  unfold TcpConnection.sendInLoop
  split
  · exact ⟨hrw, hiff⟩
  · rw [hskip]
    simp only [Bool.not_false, Bool.true_and, Int.toNat_zero, List.drop_zero, List.take_length]
    by_cases hlen : data.length > 0
    · have ha := append_cursors c.outputBuffer_ data hrw
      simp only [hlen, decide_True, if_true]
      by_cases hw : c.channel_.isWriting = true
      · simp only [hw, Bool.not_true, if_false]
        refine ⟨ha.1, ?_⟩
        have hpos : 0 < (c.outputBuffer_.append data).readableBytes := by
          rw [ha.2]; omega
        exact ⟨fun _ => hpos, fun _ => hw⟩
      · simp only [Bool.not_eq_true] at hw
        simp only [hw, Bool.not_false, if_true]
        refine ⟨ha.1, ?_⟩
        have hpos : 0 < (c.outputBuffer_.append data).readableBytes := by
          rw [ha.2]; omega
        exact ⟨fun _ => hpos, fun _ => enableWriting_isWriting _ _⟩
    · simp only [hlen, decide_False, if_false]
      exact ⟨hrw, hiff⟩

theorem handleWrite_state (c : TcpConnection) (loop : EventLoop) (tid : Int) (w : SysRet) :
    (c.handleWrite loop tid w).1.state_ = c.state_ := by
  unfold TcpConnection.handleWrite
  simp only
  split
  · split
    · split
      · split <;> rfl
      · rfl
    · rfl
  · rfl

theorem handleWrite_inv (c : TcpConnection) (loop : EventLoop) (tid : Int) (w : SysRet)
    (h : WriteInterestInv c) :
    WriteInterestInv (c.handleWrite loop tid w).1 := by
  obtain ⟨hrw, hiff⟩ := h
  unfold TcpConnection.handleWrite
  simp only
  split
  · rename_i hw
    split
    · have hr := retrieve_cursors c.outputBuffer_ (c.outputBuffer_.writeFd c.channel_.fd_ 0 w).1.toNat hrw
      split
      · rename_i hz
        have hz2 : (c.outputBuffer_.retrieve
            (c.outputBuffer_.writeFd c.channel_.fd_ 0 w).1.toNat).readableBytes = 0 := by
          simpa using hz
        split
        · refine ⟨hr.1, ?_⟩
          simp only [disableWriting_isWriting, hz2]
          simp
        · refine ⟨hr.1, ?_⟩
          simp only [disableWriting_isWriting, hz2]
          simp
      · rename_i hz
        have hz2 : (c.outputBuffer_.retrieve
            (c.outputBuffer_.writeFd c.channel_.fd_ 0 w).1.toNat).readableBytes ≠ 0 := by
          simpa using hz
        refine ⟨hr.1, ?_⟩
        simp only [hw, true_iff]
        omega
    · exact ⟨hrw, hiff⟩
  · exact ⟨hrw, hiff⟩

theorem shutdown_inv (c : TcpConnection) (loop : EventLoop) (tid : Int)
    (h : WriteInterestInv c) :
    WriteInterestInv (c.shutdown loop tid).1 := by
  unfold TcpConnection.shutdown
  split
  · split <;> exact h
  · exact h

theorem shutdown_state (c : TcpConnection) (loop : EventLoop) (tid : Int)
    (h : c.state_ = StateE.kConnected ∨ c.state_ = StateE.kDisconnecting) :
    (c.shutdown loop tid).1.state_ = StateE.kConnected
      ∨ (c.shutdown loop tid).1.state_ = StateE.kDisconnecting := by
  unfold TcpConnection.shutdown
  split
  · split <;> exact Or.inr rfl
  · exact h

theorem step_inv (s : ConnStep) (st : TcpConnection × EventLoop)
    (h : (st.1.state_ = StateE.kConnected ∨ st.1.state_ = StateE.kDisconnecting)
      ∧ WriteInterestInv st.1) :
    ((s.run st).1.state_ = StateE.kConnected ∨ (s.run st).1.state_ = StateE.kDisconnecting)
      ∧ WriteInterestInv (s.run st).1 := by
  cases s with
  | sendInLoop tid data w =>
    simp only [ConnStep.run, sendInLoop_state]
    exact ⟨h.1, sendInLoop_inv _ _ _ _ _ h.2⟩
  | handleWrite tid w =>
    simp only [ConnStep.run, handleWrite_state]
    exact ⟨h.1, handleWrite_inv _ _ _ _ h.2⟩
  | shutdown tid =>
    simp only [ConnStep.run]
    exact ⟨shutdown_state _ _ _ h.1, shutdown_inv _ _ _ h.2⟩
  | shutdownInLoop => exact h

theorem runSteps_inv (steps : List ConnStep) (st : TcpConnection × EventLoop)
    (h : (st.1.state_ = StateE.kConnected ∨ st.1.state_ = StateE.kDisconnecting)
      ∧ WriteInterestInv st.1) :
    ((runSteps steps st).1.state_ = StateE.kConnected
        ∨ (runSteps steps st).1.state_ = StateE.kDisconnecting)
      ∧ WriteInterestInv (runSteps steps st).1 := by
  induction steps generalizing st with
  | nil => exact h
  | cons s rest ih =>
    simp only [runSteps, List.foldl_cons]
    exact ih (s.run st) (step_inv s st h)

theorem connectEstablished_inv (c0 : TcpConnection) (loop0 : EventLoop)
    (hch : c0.channel_.events_ = 0)
    (hbuf : c0.outputBuffer_.readerIndex_ = c0.outputBuffer_.writerIndex_) :
    (c0.connectEstablished loop0).1.state_ = StateE.kConnected
    ∧ WriteInterestInv (c0.connectEstablished loop0).1 := by
  have hev : ∀ l : EventLoop,
      (Channel.enableReading (c0.channel_.tie c0.addr) l).2.isWriting = false := by
    intro l
    unfold Channel.isWriting Channel.enableReading
    rw [channel_update_events]
    simp only [Channel.tie, hch]
    decide
  unfold TcpConnection.connectEstablished
  simp only [TcpConnection.setState]
  split
  · refine ⟨rfl, ?_, ?_⟩
    · exact le_of_eq hbuf
    · simp only [hev, Buffer.readableBytes, hbuf]
      simp
  · refine ⟨rfl, ?_, ?_⟩
    · exact le_of_eq hbuf
    · simp only [hev, Buffer.readableBytes, hbuf]
      simp

/-- C2: write-interest invariant.  A connection whose channel has no
interest yet and whose output buffer is empty (read cursor at the write
cursor) goes through `connectEstablished` and then through any sequence of
`sendInLoop`, `handleWrite`, `shutdown` and `shutdownInLoop` steps, on any
threads and with arbitrary results of the kernel writes.  Afterwards its state
is Connected or Disconnecting and its channel is write-interested if and only
if its output buffer has readable bytes. -/
theorem write_interest_invariant (c0 : TcpConnection) (loop0 : EventLoop)
    (steps : List ConnStep)
    (hch : c0.channel_.events_ = 0)
    (hbuf : c0.outputBuffer_.readerIndex_ = c0.outputBuffer_.writerIndex_) :
    ((runSteps steps ((c0.connectEstablished loop0).1,
          (c0.connectEstablished loop0).2.1)).1.state_ = StateE.kConnected
      ∨ (runSteps steps ((c0.connectEstablished loop0).1,
          (c0.connectEstablished loop0).2.1)).1.state_ = StateE.kDisconnecting)
    ∧ ((runSteps steps ((c0.connectEstablished loop0).1,
          (c0.connectEstablished loop0).2.1)).1.channel_.isWriting = true
        ↔ 0 < (runSteps steps ((c0.connectEstablished loop0).1,
          (c0.connectEstablished loop0).2.1)).1.outputBuffer_.readableBytes) := by
  have h0 := connectEstablished_inv c0 loop0 hch hbuf
  have h := runSteps_inv steps
    ((c0.connectEstablished loop0).1, (c0.connectEstablished loop0).2.1)
    ⟨Or.inl h0.1, h0.2⟩
  exact ⟨h.1, h.2.2⟩

/-- C2 at the sample connection and the two sample steps. -/
theorem write_interest_invariant_witness :
    sampleConn.channel_.events_ = 0
    ∧ sampleConn.outputBuffer_.readerIndex_ = sampleConn.outputBuffer_.writerIndex_
    ∧ ((runSteps sampleSteps ((sampleConn.connectEstablished sampleLoop).1,
          (sampleConn.connectEstablished sampleLoop).2.1)).1.state_ = StateE.kConnected
      ∨ (runSteps sampleSteps ((sampleConn.connectEstablished sampleLoop).1,
          (sampleConn.connectEstablished sampleLoop).2.1)).1.state_ = StateE.kDisconnecting)
    ∧ ((runSteps sampleSteps ((sampleConn.connectEstablished sampleLoop).1,
          (sampleConn.connectEstablished sampleLoop).2.1)).1.channel_.isWriting = true
        ↔ 0 < (runSteps sampleSteps ((sampleConn.connectEstablished sampleLoop).1,
          (sampleConn.connectEstablished sampleLoop).2.1)).1.outputBuffer_.readableBytes) :=
  ⟨by decide, by decide,
   write_interest_invariant sampleConn sampleLoop sampleSteps (by decide) (by decide)⟩

/-- The run used above ends with one byte left in the output buffer and the
channel write-interested. -/
theorem sampleSteps_result :
    (runSteps sampleSteps sampleEstablished).1.outputBuffer_.peek = [3]
    ∧ (runSteps sampleSteps sampleEstablished).1.channel_.isWriting = true := by
  decide

/-- What `sendInLoop` does about the direct write, for every connection that
is not Disconnected: `write` is called, once and with all of `data`, exactly
when the channel is write-interested and the output buffer has no readable
bytes (TcpConnection.cc:83). -/
theorem sendInLoop_effects (c : TcpConnection) (loop : EventLoop) (tid : Int)
    (data : List Byte) (w : SysRet) (hs : c.state_ ≠ StateE.kDisconnected) :
    (c.sendInLoop loop tid data w).2.2 =
      if c.channel_.isWriting = true ∧ c.outputBuffer_.readableBytes = 0 then
        [Effect.write c.channel_.fd_ data]
      else [] := by
  have hd : (c.sendInLoopDirect loop tid data w).effects =
      if c.channel_.isWriting = true ∧ c.outputBuffer_.readableBytes = 0 then
        [Effect.write c.channel_.fd_ data]
      else [] := by
    unfold TcpConnection.sendInLoopDirect
    simp only
    by_cases hc : c.channel_.isWriting = true ∧ c.outputBuffer_.readableBytes = 0
    · have hb : (c.channel_.isWriting && c.outputBuffer_.readableBytes == 0) = true := by
        simp [hc.1, hc.2]
      rw [if_pos hb, if_pos hc]
      split
      · split
        · split <;> rfl
        · rfl
      · split
        · split <;> rfl
        · rfl
    · have hb : ¬ (c.channel_.isWriting && c.outputBuffer_.readableBytes == 0) = true := by
        intro hb
        simp only [Bool.and_eq_true, beq_iff_eq] at hb
        exact hc hb
      rw [if_neg hb, if_neg hc]
  rw [← hd]
  unfold TcpConnection.sendInLoop
  rw [if_neg hs]
  simp only
  split
  · split <;> rfl
  · rfl

/-! ## Buffer contents -/

theorem slice_write {α : Type} (buf data : List α) (r w : Nat) (hrw : r ≤ w)
    (hw : w ≤ buf.length) :
    ((buf.take w ++ data ++ buf.drop (w + data.length)).drop r).take (w + data.length - r)
      = (buf.drop r).take (w - r) ++ data := by
  have h1 : (buf.take w).length = w := by simp [hw]
  rw [List.append_assoc, List.drop_append_of_le_length (by omega)]
  have h2 : ((buf.take w).drop r).length = w - r := by simp [h1]
  have h3 : w + data.length - r = ((buf.take w).drop r).length + data.length := by omega
  rw [h3, List.take_append, List.take_left, List.drop_take]

theorem peek_length (b : Buffer) (h : b.wf) : b.peek.length = b.readableBytes := by
  obtain ⟨_, h2, h3⟩ := h
  simp only [Buffer.peek, Buffer.readableBytes, List.length_take, List.length_drop]
  omega

theorem makeSpace_wf (b : Buffer) (len : Nat) (h : b.wf) :
    (b.makeSpace len).wf ∧ (b.makeSpace len).peek = b.peek
    ∧ len ≤ (b.makeSpace len).writableBytes := by
  have hpl := peek_length b h
  obtain ⟨h1, h2, h3⟩ := h
  unfold Buffer.makeSpace
  split
  · rename_i hlt
    simp only [Buffer.writableBytes, Buffer.prependableBytes] at hlt
    refine ⟨⟨h1, h2, ?_⟩, ?_, ?_⟩
    · simp only [List.length_append]; omega
    · simp only [Buffer.peek, Buffer.readableBytes]
      rw [List.drop_append_of_le_length (by omega), List.take_append_of_le_length]
      simp only [List.length_drop]; omega
    · simp only [Buffer.writableBytes, List.length_append, List.length_replicate]
      omega
  · rename_i hge
    simp only [Buffer.writableBytes, Buffer.prependableBytes, not_lt] at hge
    have hr : b.readableBytes = b.writerIndex_ - b.readerIndex_ := rfl
    have hk : kCheapPrepend = 8 := rfl
    have hlen : (List.take kCheapPrepend b.buffer_ ++ b.peek ++
        List.drop (kCheapPrepend + b.readableBytes) b.buffer_).length = b.buffer_.length := by
      simp only [List.length_append, List.length_take, List.length_drop, hpl]
      omega
    refine ⟨⟨le_refl _, by simp, ?_⟩, ?_, ?_⟩
    · show kCheapPrepend + b.readableBytes ≤ _
      rw [hlen]; omega
    · show List.take (kCheapPrepend + b.readableBytes - kCheapPrepend)
        (List.drop kCheapPrepend (List.take kCheapPrepend b.buffer_ ++ b.peek ++
          List.drop (kCheapPrepend + b.readableBytes) b.buffer_)) = b.peek
      have h8 : (List.take kCheapPrepend b.buffer_).length = kCheapPrepend := by
        simp only [List.length_take]; omega
      rw [List.append_assoc, List.drop_left' h8, Nat.add_sub_cancel_left, ← hpl, List.take_left]
    · show len ≤ (List.take kCheapPrepend b.buffer_ ++ b.peek ++
          List.drop (kCheapPrepend + b.readableBytes) b.buffer_).length
          - (kCheapPrepend + b.readableBytes)
      rw [hlen]; omega

theorem append_wf (b : Buffer) (data : List Byte) (h : b.wf) :
    (b.append data).wf ∧ (b.append data).peek = b.peek ++ data := by
  have key : ∀ b1 : Buffer, b1.wf → data.length ≤ b1.writableBytes →
      ({ b1 with
          buffer_ := b1.buffer_.take b1.writerIndex_ ++ data ++
            b1.buffer_.drop (b1.writerIndex_ + data.length),
          writerIndex_ := b1.writerIndex_ + data.length } : Buffer).wf
      ∧ ({ b1 with
          buffer_ := b1.buffer_.take b1.writerIndex_ ++ data ++
            b1.buffer_.drop (b1.writerIndex_ + data.length),
          writerIndex_ := b1.writerIndex_ + data.length } : Buffer).peek = b1.peek ++ data := by
    intro b1 hwf hfit
    obtain ⟨h1, h2, h3⟩ := hwf
    simp only [Buffer.writableBytes] at hfit
    refine ⟨⟨h1, by show b1.readerIndex_ ≤ b1.writerIndex_ + data.length; omega, ?_⟩, ?_⟩
    · show b1.writerIndex_ + data.length ≤ _
      simp only [List.length_append, List.length_take, List.length_drop]
      omega
    · exact slice_write b1.buffer_ data b1.readerIndex_ b1.writerIndex_ h2 h3
  unfold Buffer.append
  simp only
  split
  · have hm := makeSpace_wf b data.length h
    have := key (b.makeSpace data.length) hm.1 hm.2.2
    rw [hm.2.1] at this
    exact this
  · rename_i hfit
    exact key b h (by omega)


/-! ## readFd -/

/-- What the kernel model of `readv` guarantees: a failing read stores
nothing; otherwise the return value counts the stored bytes, which fill
`vec[0]` first. -/
theorem readv_spec (input : FdInput) (len0 len1 : Nat) :
    ((readv input len0 len1).ret < 0 → (readv input len0 len1).vec0 = []
        ∧ (readv input len0 len1).vec1 = [])
    ∧ (0 ≤ (readv input len0 len1).ret →
        (readv input len0 len1).ret
          = Int.ofNat ((readv input len0 len1).vec0.length + (readv input len0 len1).vec1.length))
    ∧ (readv input len0 len1).vec0.length ≤ len0
    ∧ ((readv input len0 len1).vec1 ≠ [] → (readv input len0 len1).vec0.length = len0) := by
  cases input with
  | ready bytes =>
    simp only [readv]
    refine ⟨fun h => ?_, fun _ => ?_, ?_, ?_⟩
    · have h0 : (0 : Int) ≤ Int.ofNat (List.take (len0 + len1) bytes).length :=
        Int.ofNat_nonneg _
      omega
    · simp only [List.length_take, List.length_drop, Int.ofNat_eq_coe]
      congr 1; omega
    · simp only [List.length_take]; omega
    · intro h
      have := List.length_pos.mpr h
      simp only [List.length_take, List.length_drop] at this ⊢
      omega
  | fail errno =>
    simp [readv]


theorem readFdCall_spec (b : Buffer) (input : FdInput) :
    ((b.readFdCall input).ret < 0 → (b.readFdCall input).vec0 = []
        ∧ (b.readFdCall input).vec1 = [])
    ∧ (0 ≤ (b.readFdCall input).ret →
        (b.readFdCall input).ret
          = Int.ofNat ((b.readFdCall input).vec0.length + (b.readFdCall input).vec1.length))
    ∧ (b.readFdCall input).vec0.length ≤ b.writableBytes
    ∧ ((b.readFdCall input).vec1 ≠ [] → (b.readFdCall input).vec0.length = b.writableBytes) :=
  readv_spec _ _ _

/-- The writable tail of a buffer after `data` was stored at its start. -/
theorem fill_tail (b : Buffer) (data : List Byte) (h : b.wf)
    (hfit : data.length ≤ b.writableBytes) :
    (b.buffer_.take b.writerIndex_ ++ data ++
        b.buffer_.drop (b.writerIndex_ + data.length)).length = b.buffer_.length
    ∧ ({ b with
          buffer_ := b.buffer_.take b.writerIndex_ ++ data ++
            b.buffer_.drop (b.writerIndex_ + data.length),
          writerIndex_ := b.writerIndex_ + data.length } : Buffer).wf
    ∧ ({ b with
          buffer_ := b.buffer_.take b.writerIndex_ ++ data ++
            b.buffer_.drop (b.writerIndex_ + data.length),
          writerIndex_ := b.writerIndex_ + data.length } : Buffer).peek = b.peek ++ data := by
  obtain ⟨h1, h2, h3⟩ := h
  simp only [Buffer.writableBytes] at hfit
  have hlen : (b.buffer_.take b.writerIndex_ ++ data ++
        b.buffer_.drop (b.writerIndex_ + data.length)).length = b.buffer_.length := by
    simp only [List.length_append, List.length_take, List.length_drop]
    omega
  refine ⟨hlen, ⟨h1, ?_, ?_⟩, ?_⟩
  · show b.readerIndex_ ≤ b.writerIndex_ + data.length
    omega
  · show b.writerIndex_ + data.length ≤ _
    rw [hlen]; omega
  · exact slice_write b.buffer_ data b.readerIndex_ b.writerIndex_ h2 h3


/-- The three outcomes of `readFd`, in terms of what its `readv` call handed
back (`r`): a well-formed buffer after the call and its readable bytes. -/
theorem readFd_outcome (b : Buffer) (saveErrno : Int) (input : FdInput) (h : b.wf) :
    (b.readFd saveErrno input).2.1 = (b.readFdCall input).ret
    ∧ ((b.readFdCall input).ret < 0 →
        (b.readFd saveErrno input).1 = b
        ∧ (b.readFd saveErrno input).2.2 = (b.readFdCall input).errno)
    ∧ (0 ≤ (b.readFdCall input).ret →
        (b.readFdCall input).ret ≤ Int.ofNat b.writableBytes →
        (b.readFd saveErrno input).1 =
          { b with
            buffer_ := b.buffer_.take b.writerIndex_ ++ (b.readFdCall input).vec0 ++
              b.buffer_.drop (b.writerIndex_ + (b.readFdCall input).vec0.length),
            writerIndex_ := b.writerIndex_ + (b.readFdCall input).ret.toNat }
        ∧ (b.readFdCall input).vec1 = []
        ∧ (b.readFdCall input).vec0.length = (b.readFdCall input).ret.toNat)
    ∧ (Int.ofNat b.writableBytes < (b.readFdCall input).ret →
        (b.readFd saveErrno input).1 =
          ({ b with
            buffer_ := b.buffer_.take b.writerIndex_ ++ (b.readFdCall input).vec0 ++
              b.buffer_.drop (b.writerIndex_ + (b.readFdCall input).vec0.length),
            writerIndex_ := b.buffer_.length } : Buffer).append (b.readFdCall input).vec1
        ∧ (b.readFdCall input).vec0.length = b.writableBytes
        ∧ (b.readFdCall input).vec1.length
            = (b.readFdCall input).ret.toNat - b.writableBytes) := by
  obtain ⟨p1, p2, p3, p4⟩ := readFdCall_spec b input
  have hw := h.2.2
  unfold Buffer.readFd
  simp only
  generalize b.readFdCall input = r at *
  refine ⟨?_, ?_, ?_, ?_⟩
  · split
    · rfl
    · split <;> rfl
  · intro hneg
    rw [if_pos hneg]
    obtain ⟨e0, _⟩ := p1 hneg
    refine ⟨?_, rfl⟩
    simp [e0]
  · intro h0 hle
    have hn := p2 h0
    rw [if_neg (by omega), if_pos hle]
    have h1 : r.vec1 = [] := by
      by_contra hne
      have := p4 hne
      have := List.length_pos.mpr hne
      simp only [Int.ofNat_eq_coe] at hn hle
      omega
    refine ⟨rfl, h1, ?_⟩
    simp only [h1, List.length_nil, Nat.add_zero, Int.ofNat_eq_coe] at hn
    omega
  · intro hgt
    have h0 : 0 ≤ r.ret := by
      have : (0 : Int) ≤ Int.ofNat b.writableBytes := Int.ofNat_nonneg _
      omega
    have hn := p2 h0
    rw [if_neg (by omega), if_neg (by omega)]
    have h1 : r.vec1 ≠ [] := by
      intro he
      simp only [he, List.length_nil, Nat.add_zero, Int.ofNat_eq_coe] at hn hgt
      omega
    have h2 := p4 h1
    have h3 : r.vec1.length = r.ret.toNat - b.writableBytes := by
      simp only [Int.ofNat_eq_coe] at hn
      omega
    have hlen := (fill_tail b r.vec0 h p3).1
    refine ⟨?_, h2, h3⟩
    rw [← h3, List.take_left, hlen]


/-- After a read that did not fail the buffer is well formed and its readable
bytes are the old ones followed by all bytes that `readv` stored. -/
theorem readFd_peek (b : Buffer) (saveErrno : Int) (input : FdInput) (h : b.wf)
    (h0 : 0 ≤ (b.readFdCall input).ret) :
    (b.readFd saveErrno input).1.wf
    ∧ (b.readFd saveErrno input).1.peek
        = b.peek ++ ((b.readFdCall input).vec0 ++ (b.readFdCall input).vec1)
    ∧ (b.readFdCall input).ret.toNat
        = (b.readFdCall input).vec0.length + (b.readFdCall input).vec1.length := by
  obtain ⟨_, _, o3, o4⟩ := readFd_outcome b saveErrno input h
  obtain ⟨_, p2, p3, _⟩ := readFdCall_spec b input
  have hn := p2 h0
  have hcnt : (b.readFdCall input).ret.toNat
      = (b.readFdCall input).vec0.length + (b.readFdCall input).vec1.length := by
    simp only [Int.ofNat_eq_coe] at hn
    omega
  have hft := fill_tail b (b.readFdCall input).vec0 h p3
  by_cases hle : (b.readFdCall input).ret ≤ Int.ofNat b.writableBytes
  · obtain ⟨e, e1, e0⟩ := o3 h0 hle
    rw [e, ← e0, e1, List.append_nil]
    exact ⟨hft.2.1, hft.2.2, by rw [e0, e1] at hcnt; simp⟩
  · obtain ⟨e, e0, _⟩ := o4 (by omega)
    have hcap : b.buffer_.length = b.writerIndex_ + (b.readFdCall input).vec0.length := by
      have := h.2.2
      simp only [Buffer.writableBytes] at e0
      omega
    rw [e, hcap]
    have ha := append_wf _ (b.readFdCall input).vec1 hft.2.1
    have ha2 := ha.2
    rw [hft.2.2] at ha2
    exact ⟨ha.1, by rw [ha2, List.append_assoc], hcnt⟩

/-- C12: `readFd` by the value `n` of its scatter read, for a well-formed
buffer.  If `0 ≤ n ≤ writable` the write cursor advances by exactly `n`, the
read cursor and the capacity stay.  If `n > writable` the result is the buffer
with the write cursor at the capacity, to which the `n - writable` bytes of
the auxiliary region are appended.  In both cases the readable bytes grow by
exactly `n` and the old readable bytes stay in front, and the errno slot is
not touched.  If `n < 0` the buffer is unchanged and the errno slot holds the
errno of the read. -/
theorem readFd_by_result (b : Buffer) (saveErrno : Int) (input : FdInput) (h : b.wf) :
    (0 ≤ (b.readFd saveErrno input).2.1 →
        (b.readFd saveErrno input).2.1 ≤ Int.ofNat b.writableBytes →
        (b.readFd saveErrno input).1.writerIndex_
            = b.writerIndex_ + (b.readFd saveErrno input).2.1.toNat
        ∧ (b.readFd saveErrno input).1.readerIndex_ = b.readerIndex_
        ∧ (b.readFd saveErrno input).1.buffer_.length = b.buffer_.length)
    ∧ (Int.ofNat b.writableBytes < (b.readFd saveErrno input).2.1 →
        (b.readFd saveErrno input).1 =
          ({ b with
            buffer_ := b.buffer_.take b.writerIndex_ ++ (b.readFdCall input).vec0 ++
              b.buffer_.drop (b.writerIndex_ + (b.readFdCall input).vec0.length),
            writerIndex_ := b.buffer_.length } : Buffer).append (b.readFdCall input).vec1
        ∧ (b.readFdCall input).vec1.length
            = (b.readFd saveErrno input).2.1.toNat - b.writableBytes)
    ∧ (0 ≤ (b.readFd saveErrno input).2.1 →
        (b.readFd saveErrno input).1.readableBytes
            = b.readableBytes + (b.readFd saveErrno input).2.1.toNat
        ∧ (b.readFd saveErrno input).1.peek.take b.readableBytes = b.peek
        ∧ (b.readFd saveErrno input).1.peek
            = b.peek ++ ((b.readFdCall input).vec0 ++ (b.readFdCall input).vec1)
        ∧ (b.readFd saveErrno input).2.2 = saveErrno)
    ∧ ((b.readFd saveErrno input).2.1 < 0 →
        (b.readFd saveErrno input).1 = b
        ∧ (b.readFd saveErrno input).2.2 = (b.readFdCall input).errno) := by
  obtain ⟨o1, o2, o3, o4⟩ := readFd_outcome b saveErrno input h
  obtain ⟨_, _, p3, _⟩ := readFdCall_spec b input
  rw [o1]
  refine ⟨?_, ?_, ?_, o2⟩
  · intro h0 hle
    obtain ⟨e, _, _⟩ := o3 h0 hle
    rw [e]
    exact ⟨rfl, rfl, (fill_tail b _ h p3).1⟩
  · intro hgt
    obtain ⟨e, _, e1⟩ := o4 hgt
    exact ⟨e, e1⟩
  · intro h0
    obtain ⟨hwf, hpk, hcnt⟩ := readFd_peek b saveErrno input h h0
    have hl := peek_length _ hwf
    rw [hpk, List.length_append, peek_length b h, List.length_append, ← hcnt] at hl
    refine ⟨hl.symm, ?_, hpk, ?_⟩
    · rw [hpk, ← peek_length b h, List.take_left]
    · unfold Buffer.readFd
      simp only
      rw [if_neg (by omega)]
      split <;> rfl


theorem ctor_wf (initialSize : Nat) : (Buffer.ctor initialSize).wf := by
  simp [Buffer.wf, Buffer.ctor]

/-- One `readFd` takes as many of the ready bytes as the writable tail and,
when the tail is shorter than it, the auxiliary region hold. -/
theorem readFd_ret_ready (b : Buffer) (saveErrno : Int) (bytes : List Byte) :
    (b.readFd saveErrno (FdInput.ready bytes)).2.1
      = Int.ofNat (min bytes.length
          (b.writableBytes + (if b.writableBytes < kExtraBufSize then kExtraBufSize else 0))) := by
  have h1 : (b.readFd saveErrno (FdInput.ready bytes)).2.1
      = (b.readFdCall (FdInput.ready bytes)).ret := by
    unfold Buffer.readFd
    simp only
    split
    · rfl
    · split <;> rfl
  rw [h1]
  unfold Buffer.readFdCall readv
  simp only [List.length_take]
  by_cases hw : b.writableBytes < kExtraBufSize
  · simp only [hw, if_true]
    rw [Nat.min_comm]
  · simp only [hw, if_false]
    rw [Nat.min_comm]
    simp

theorem take_min_length {α : Type} (l : List α) (k : Nat) :
    l.take (min l.length k) = l.take k := by
  by_cases h : k ≤ l.length
  · rw [Nat.min_eq_right h]
  · have h2 : l.length ≤ k := by omega
    rw [Nat.min_eq_left h2, List.take_of_length_le h2, List.take_of_length_le (le_refl _)]

/-- One `readFd` on a descriptor with `bytes` ready: it takes the first `n`
of them, `n` the lesser of their number and the room of the two regions, and
these become readable behind what was readable. -/
theorem readFd_ready (b : Buffer) (saveErrno : Int) (bytes : List Byte) (h : b.wf) :
    (b.readFd saveErrno (FdInput.ready bytes)).1.wf
    ∧ (b.readFd saveErrno (FdInput.ready bytes)).1.peek
        = b.peek ++ bytes.take (b.readFd saveErrno (FdInput.ready bytes)).2.1.toNat
    ∧ (0 ≤ (b.readFd saveErrno (FdInput.ready bytes)).2.1)
    ∧ (b.readFd saveErrno (FdInput.ready bytes)).2.1.toNat ≤ bytes.length
    ∧ (bytes ≠ [] → 0 < (b.readFd saveErrno (FdInput.ready bytes)).2.1) := by
  have hret := readFd_ret_ready b saveErrno bytes
  have hout := (readFd_outcome b saveErrno (FdInput.ready bytes) h).1
  have h0 : 0 ≤ (b.readFdCall (FdInput.ready bytes)).ret := by
    rw [← hout, hret]
    exact Int.ofNat_nonneg _
  obtain ⟨hwf, hpk, hlen⟩ := readFd_peek b saveErrno (FdInput.ready bytes) h h0
  have hvec : (b.readFdCall (FdInput.ready bytes)).vec0 ++ (b.readFdCall (FdInput.ready bytes)).vec1
      = bytes.take (b.readFd saveErrno (FdInput.ready bytes)).2.1.toNat := by
    rw [hret]
    simp only [Buffer.readFdCall, readv, List.take_append_drop, Int.ofNat_eq_coe, Int.toNat_ofNat]
    split
    · simp only [if_true]
      rw [take_min_length]
    · rename_i hlt
      have hne : ¬ ((1 : Nat) = 2) := by decide
      simp only [hne, if_false, Nat.add_zero]
      rw [take_min_length]
  refine ⟨hwf, by rw [hpk, hvec], by rw [hret]; exact Int.ofNat_nonneg _, ?_, ?_⟩
  · rw [hret]
    simp only [Int.ofNat_eq_coe, Int.toNat_ofNat]
    exact Nat.min_le_left _ _
  · intro hne
    rw [hret]
    have hpos : 0 < bytes.length := List.length_pos.mpr hne
    have hroom : 0 < b.writableBytes
        + (if b.writableBytes < kExtraBufSize then kExtraBufSize else 0) := by
      unfold kExtraBufSize
      split <;> omega
    simp only [Int.ofNat_eq_coe]
    have : 0 < min bytes.length (b.writableBytes
        + (if b.writableBytes < kExtraBufSize then kExtraBufSize else 0)) := by
      exact Nat.lt_min.mpr ⟨hpos, hroom⟩
    omega

theorem readFdLeft_eq (b : Buffer) (bytes : List Byte) :
    b.readFdLeft bytes
      = bytes.drop (b.writableBytes
          + (if b.writableBytes < kExtraBufSize then kExtraBufSize else 0)) := by
  unfold Buffer.readFdLeft readvLeft
  simp only
  split
  · rfl
  · have hne : ¬ ((1 : Nat) = 2) := by decide
    rw [if_neg hne]

theorem readFdCall_eq (b : Buffer) (input : FdInput) :
    b.readFdCall input
      = readv input b.writableBytes
          (if b.writableBytes < kExtraBufSize then kExtraBufSize else 0) := by
  unfold Buffer.readFdCall
  simp only
  split
  · rfl
  · have hne : ¬ ((1 : Nat) = 2) := by decide
    rw [if_neg hne]

/-- One `readFd` with `bytes` ready and room for `room` of them in the two
regions: it returns the lesser of the two numbers, these first bytes become
readable behind what was readable, the rest is left in the socket, and the
next `readFd` goes on with the rest. -/
theorem readFd_take (b : Buffer) (saveErrno : Int) (bytes : List Byte) (h : b.wf)
    (room : Nat)
    (hroom : room = b.writableBytes
      + (if b.writableBytes < kExtraBufSize then kExtraBufSize else 0)) :
    (b.readFd saveErrno (FdInput.ready bytes)).2.1 = Int.ofNat (min bytes.length room)
    ∧ (b.readFd saveErrno (FdInput.ready bytes)).1.peek = b.peek ++ bytes.take room
    ∧ (b.readFd saveErrno (FdInput.ready bytes)).1.wf
    ∧ b.readFdLeft bytes = bytes.drop room
    ∧ (b.readFdCall (FdInput.ready bytes)).vec0 = bytes.take b.writableBytes
    ∧ (b.readFdCall (FdInput.ready bytes)).vec1 = (bytes.take room).drop b.writableBytes := by
  have hret := readFd_ret_ready b saveErrno bytes
  rw [← hroom] at hret
  obtain ⟨hwf, hpk, _, _, _⟩ := readFd_ready b saveErrno bytes h
  rw [hret] at hpk
  have ht : List.take (Int.ofNat (min bytes.length room)).toNat bytes = bytes.take room := by
    simp only [Int.ofNat_eq_coe, Int.toNat_ofNat]
    exact take_min_length bytes room
  rw [ht] at hpk
  refine ⟨hret, hpk, hwf, by rw [readFdLeft_eq, ← hroom], ?_, ?_⟩
  · have hle : b.writableBytes ≤ room := by
      rw [hroom]
      exact Nat.le_add_right _ _
    rw [readFdCall_eq]
    simp only [readv]
    rw [← hroom, List.take_take, Nat.min_eq_left hle]
  · rw [readFdCall_eq]
    simp only [readv]
    rw [← hroom]

/-- C11 (as stated, refuted): a fresh buffer with 16 writable bytes reads
from a descriptor with 65553 bytes ready; the call returns 65552. -/
theorem readFd_leaves_bytes_behind :
    (Buffer.ctor 16).writableBytes = 16
    ∧ (List.replicate 65553 (0 : Byte)).length = 65553
    ∧ ((Buffer.ctor 16).readFd 0 (FdInput.ready (List.replicate 65553 0))).2.1 = 65552
    ∧ ((Buffer.ctor 16).readFd 0 (FdInput.ready (List.replicate 65553 0))).2.1 ≠ 65553 := by
  have hw : (Buffer.ctor 16).writableBytes = 16 := by decide
  have hr := readFd_ret_ready (Buffer.ctor 16) 0 (List.replicate 65553 0)
  rw [hw, List.length_replicate] at hr
  have h2 : ((Buffer.ctor 16).readFd 0 (FdInput.ready (List.replicate 65553 0))).2.1 = 65552 := by
    rw [hr]
    decide
  refine ⟨hw, List.length_replicate _ _, h2, ?_⟩
  rw [h2]
  decide

/-- C11 (amended): one `readFd` on a well-formed buffer with `K` bytes ready.
With fewer than 65536 writable bytes it makes one scatter read into the
writable tail and the 65536-byte temporary.  Then for every `K` up to
`writable + 65536` (so for every such `K > writable`) it returns `K` and
leaves the old readable bytes followed by all `K` bytes, in order, readable:
the first `writable` of them went to the tail, the rest through the
temporary, and nothing is left in the socket.  For `K` beyond
`writable + 65536` it returns `writable + 65536`, these first bytes become
readable and the bytes beyond them stay in the socket.  With 65536 or more
writable bytes the read uses the tail alone (the second region has length 0),
returns the lesser of `K` and `writable`, so at most `writable`, and leaves
the rest in the socket.  In every case what was read followed by what was
left is what was ready, and the next `readFd` appends from what was left. -/
theorem readFd_scatter_complete (b : Buffer) (saveErrno : Int) (bytes : List Byte)
    (h : b.wf) :
    (b.writableBytes < kExtraBufSize →
        b.readFdCall (FdInput.ready bytes)
          = readv (FdInput.ready bytes) b.writableBytes kExtraBufSize
        ∧ (bytes.length ≤ b.writableBytes + kExtraBufSize →
            (b.readFd saveErrno (FdInput.ready bytes)).2.1 = Int.ofNat bytes.length
            ∧ (b.readFd saveErrno (FdInput.ready bytes)).1.peek = b.peek ++ bytes
            ∧ (b.readFd saveErrno (FdInput.ready bytes)).1.readableBytes
                = b.readableBytes + bytes.length
            ∧ (b.readFdCall (FdInput.ready bytes)).vec0 = bytes.take b.writableBytes
            ∧ (b.readFdCall (FdInput.ready bytes)).vec1 = bytes.drop b.writableBytes
            ∧ b.readFdLeft bytes = [])
        ∧ (b.writableBytes + kExtraBufSize < bytes.length →
            (b.readFd saveErrno (FdInput.ready bytes)).2.1
                = Int.ofNat (b.writableBytes + kExtraBufSize)
            ∧ (b.readFd saveErrno (FdInput.ready bytes)).1.peek
                = b.peek ++ bytes.take (b.writableBytes + kExtraBufSize)
            ∧ b.readFdLeft bytes = bytes.drop (b.writableBytes + kExtraBufSize)
            ∧ b.readFdLeft bytes ≠ []))
    ∧ (kExtraBufSize ≤ b.writableBytes →
        b.readFdCall (FdInput.ready bytes) = readv (FdInput.ready bytes) b.writableBytes 0
        ∧ (b.readFd saveErrno (FdInput.ready bytes)).2.1
            = Int.ofNat (min bytes.length b.writableBytes)
        ∧ (b.readFd saveErrno (FdInput.ready bytes)).2.1 ≤ Int.ofNat b.writableBytes
        ∧ (b.readFdCall (FdInput.ready bytes)).vec1 = []
        ∧ (b.readFd saveErrno (FdInput.ready bytes)).1.peek
            = b.peek ++ bytes.take b.writableBytes
        ∧ b.readFdLeft bytes = bytes.drop b.writableBytes)
    ∧ bytes.take (b.readFd saveErrno (FdInput.ready bytes)).2.1.toNat ++ b.readFdLeft bytes
        = bytes
    ∧ ∀ saveErrno2 : Int,
        ((b.readFd saveErrno (FdInput.ready bytes)).1.readFd saveErrno2
            (FdInput.ready (b.readFdLeft bytes))).1.peek
          = (b.readFd saveErrno (FdInput.ready bytes)).1.peek
            ++ (b.readFdLeft bytes).take
                ((b.readFd saveErrno (FdInput.ready bytes)).1.readFd saveErrno2
                  (FdInput.ready (b.readFdLeft bytes))).2.1.toNat := by
  obtain ⟨gret, gpk, gwf, gleft, gv0, gv1⟩ := readFd_take b saveErrno bytes h
    (b.writableBytes + (if b.writableBytes < kExtraBufSize then kExtraBufSize else 0)) rfl
  refine ⟨?_, ?_, ?_, ?_⟩
  · intro hw
    rw [if_pos hw] at gret gpk gleft gv1
    refine ⟨?_, ?_, ?_⟩
    · rw [readFdCall_eq, if_pos hw]
    · intro hcap
      rw [Nat.min_eq_left hcap] at gret
      rw [List.take_of_length_le hcap] at gpk gv1
      refine ⟨gret, gpk, ?_, gv0, gv1, ?_⟩
      · rw [← peek_length _ gwf, gpk, List.length_append, peek_length b h]
      · rw [gleft]
        exact List.drop_of_length_le hcap
    · intro hbig
      rw [Nat.min_eq_right (Nat.le_of_lt hbig)] at gret
      refine ⟨gret, gpk, gleft, ?_⟩
      rw [gleft]
      intro hnil
      have hl := congrArg List.length hnil
      rw [List.length_drop, List.length_nil] at hl
      omega
  · intro hw
    have hnw : ¬ b.writableBytes < kExtraBufSize := Nat.not_lt.mpr hw
    rw [if_neg hnw, Nat.add_zero] at gret gpk gleft gv1
    refine ⟨?_, gret, ?_, ?_, gpk, gleft⟩
    · rw [readFdCall_eq, if_neg hnw]
    · rw [gret]
      simp only [Int.ofNat_eq_coe, Nat.cast_le]
      exact Nat.min_le_right _ _
    · rw [gv1, List.drop_take, Nat.sub_self, List.take_zero]
  · rw [gret, gleft]
    simp only [Int.ofNat_eq_coe, Int.toNat_ofNat]
    rw [take_min_length, List.take_append_drop]
  · intro saveErrno2
    exact (readFd_ready _ saveErrno2 (b.readFdLeft bytes) gwf).2.1

/-- C11 (amended) at a fresh buffer with 2 writable bytes and 5 bytes ready:
all five are read, two into the tail and three through the temporary. -/
theorem readFd_scatter_complete_witness :
    (Buffer.ctor 2).wf
    ∧ (Buffer.ctor 2).writableBytes < [1, 2, 3, 4, 5].length
    ∧ ((Buffer.ctor 2).readFd 0 (FdInput.ready [1, 2, 3, 4, 5])).2.1 = Int.ofNat 5
    ∧ ((Buffer.ctor 2).readFd 0 (FdInput.ready [1, 2, 3, 4, 5])).1.peek
        = (Buffer.ctor 2).peek ++ [1, 2, 3, 4, 5]
    ∧ ((Buffer.ctor 2).readFd 0 (FdInput.ready [1, 2, 3, 4, 5])).1.readableBytes
        = (Buffer.ctor 2).readableBytes + 5
    ∧ ((Buffer.ctor 2).readFdCall (FdInput.ready [1, 2, 3, 4, 5])).vec0 = [1, 2]
    ∧ ((Buffer.ctor 2).readFdCall (FdInput.ready [1, 2, 3, 4, 5])).vec1 = [3, 4, 5]
    ∧ (Buffer.ctor 2).readFdLeft [1, 2, 3, 4, 5] = [] :=
  ⟨ctor_wf 2, by decide,
   ((readFd_scatter_complete (Buffer.ctor 2) 0 [1, 2, 3, 4, 5] (ctor_wf 2)).1
      (by decide)).2.1 (by decide)⟩

theorem readFd_by_result_witness :
    (Buffer.ctor 2).wf
    ∧ ((Buffer.ctor 2).readFd 0 (FdInput.ready [1, 2, 3, 4, 5])).1.peek = [1, 2, 3, 4, 5]
    ∧ ((Buffer.ctor 2).readFd 0 (FdInput.ready [1, 2, 3, 4, 5])).1.readableBytes = 5 :=
  ⟨ctor_wf 2,
   ((readFd_by_result (Buffer.ctor 2) 0 (FdInput.ready [1, 2, 3, 4, 5]) (ctor_wf 2)).2.2.1
      (by decide)).2.2.1,
   ((readFd_by_result (Buffer.ctor 2) 0 (FdInput.ready [1, 2, 3, 4, 5]) (ctor_wf 2)).2.2.1
      (by decide)).1⟩

/-! ## shutdown -/

/-- C13: `shutdown()` on a Connected connection sets the state to
Disconnecting (and changes nothing else of the connection); called on the
loop's thread it runs `shutdownInLoop` at once and leaves the loop alone,
called on another thread it appends the closure bound to `shutdownInLoop` to
the loop's queue and wakes the loop.  In every other state the connection and
the loop are unchanged and nothing is called or queued. -/
theorem shutdown_by_state (c : TcpConnection) (loop : EventLoop) (tid : Int) :
    (c.state_ = StateE.kConnected →
      (c.shutdown loop tid).1 = c.setState StateE.kDisconnecting
      ∧ (c.shutdown loop tid).1.state_ = StateE.kDisconnecting
      ∧ (loop.isInLoopThread tid = true →
          (c.shutdown loop tid).2.1 = loop
          ∧ (c.shutdown loop tid).2.2 = (c.setState StateE.kDisconnecting).shutdownInLoop)
      ∧ (loop.isInLoopThread tid = false →
          (c.shutdown loop tid).2.1.pendingFunctors_
              = loop.pendingFunctors_ ++ [EventLoop.Functor.shutdownInLoop c.addr]
          ∧ (c.shutdown loop tid).2.1.wakeupWrites = loop.wakeupWrites + 1
          ∧ (c.shutdown loop tid).2.2 = []))
    ∧ (c.state_ ≠ StateE.kConnected → c.shutdown loop tid = (c, loop, [])) := by
  refine ⟨?_, ?_⟩
  · intro hs
    refine ⟨?_, ?_, ?_, ?_⟩
    · unfold TcpConnection.shutdown
      rw [if_pos hs]
      split <;> rfl
    · unfold TcpConnection.shutdown
      rw [if_pos hs]
      split <;> rfl
    · intro ht
      have e : c.shutdown loop tid
          = (c.setState StateE.kDisconnecting, loop,
              (c.setState StateE.kDisconnecting).shutdownInLoop) := by
        unfold TcpConnection.shutdown
        rw [if_pos hs, if_pos ht]
      rw [e]
      exact ⟨rfl, rfl⟩
    · intro ht
      have e : c.shutdown loop tid
          = (c.setState StateE.kDisconnecting,
              loop.queueInLoop tid (EventLoop.Functor.shutdownInLoop c.addr), []) := by
        unfold TcpConnection.shutdown
        rw [if_pos hs, if_neg (by simp [ht])]
        rfl
      rw [e]
      refine ⟨queueInLoop_pending _ _ _, ?_, rfl⟩
      have ht2 : (loop.threadId_ == tid) = false := ht
      simp [EventLoop.queueInLoop, EventLoop.isInLoopThread, EventLoop.wakeup, ht2]
  · intro hs
    unfold TcpConnection.shutdown
    rw [if_neg hs]

/-! ## Half-close -/

theorem send_state_inv (c : TcpConnection) (loop : EventLoop) (tid : Int) (buf : List Byte)
    (bufAddr : Nat) (w : SysRet) (h : WriteInterestInv c) :
    (c.send loop tid buf bufAddr w).1.state_ = c.state_
    ∧ WriteInterestInv (c.send loop tid buf bufAddr w).1 := by
  unfold TcpConnection.send
  split
  · split
    · exact ⟨sendInLoop_state _ _ _ _ _, sendInLoop_inv _ _ _ _ _ h⟩
    · exact ⟨rfl, h⟩
  · exact ⟨rfl, h⟩

theorem fire_inv (e : ConnEvent) (st : TcpConnection × EventLoop)
    (h : (st.1.state_ = StateE.kConnected ∨ st.1.state_ = StateE.kDisconnecting)
      ∧ WriteInterestInv st.1) :
    ((e.fire st).1.state_ = StateE.kConnected ∨ (e.fire st).1.state_ = StateE.kDisconnecting)
      ∧ WriteInterestInv (e.fire st).1 := by
  cases e with
  | send tid buf bufAddr w =>
    have := send_state_inv st.1 st.2 tid buf bufAddr w h.2
    simp only [ConnEvent.fire]
    rw [this.1]
    exact ⟨h.1, this.2⟩
  | shutdown tid => exact step_inv (ConnStep.shutdown tid) st h
  | sendInLoop tid data w => exact step_inv (ConnStep.sendInLoop tid data w) st h
  | shutdownInLoop => exact h
  | handleWrite tid w => exact step_inv (ConnStep.handleWrite tid w) st h

theorem fireAll_inv (events : List ConnEvent) (st : TcpConnection × EventLoop)
    (h : (st.1.state_ = StateE.kConnected ∨ st.1.state_ = StateE.kDisconnecting)
      ∧ WriteInterestInv st.1) :
    ((fireAll events st).1.state_ = StateE.kConnected
        ∨ (fireAll events st).1.state_ = StateE.kDisconnecting)
      ∧ WriteInterestInv (fireAll events st).1 := by
  induction events generalizing st with
  | nil => exact h
  | cons e rest ih =>
    simp only [fireAll, List.foldl_cons]
    exact ih _ (fire_inv e st h)

/-- `shutdownInLoop` under the write-interest invariant: the write direction
is shut down exactly when the output buffer is empty. -/
theorem shutdownInLoop_of_inv (c : TcpConnection) (h : WriteInterestInv c) :
    c.shutdownInLoop =
      if c.outputBuffer_.readableBytes = 0 then [Effect.shutdownWr c.socket_.sockfd_]
      else [] := by
  unfold TcpConnection.shutdownInLoop Socket.shutdownWrite
  obtain ⟨_, hiff⟩ := h
  by_cases hz : c.outputBuffer_.readableBytes = 0
  · have hw : c.channel_.isWriting = false := by
      cases hc : c.channel_.isWriting
      · rfl
      · have := hiff.mp hc; omega
    simp [hw, hz]
  · have hw : c.channel_.isWriting = true := hiff.mpr (by omega)
    simp [hw, hz]

/-- The calls made by `handleWrite` on a write-interested connection. -/
theorem handleWrite_effects (c : TcpConnection) (loop : EventLoop) (tid : Int) (w : SysRet)
    (hw : c.channel_.isWriting = true) :
    (c.handleWrite loop tid w).2.2 =
      [Effect.write c.channel_.fd_ c.outputBuffer_.peek] ++
        (if 0 < w.ret ∧ (c.outputBuffer_.retrieve w.ret.toNat).readableBytes = 0
            ∧ c.state_ = StateE.kDisconnecting then
          [Effect.shutdownWr c.socket_.sockfd_]
         else []) := by
  unfold TcpConnection.handleWrite
  simp only [hw, if_true, Buffer.writeFd]
  by_cases hn : 0 < w.ret
  · have hn' : w.ret > 0 := hn
    simp only [hn', if_true]
    by_cases hz : (c.outputBuffer_.retrieve w.ret.toNat).readableBytes = 0
    · simp only [hz, beq_self_eq_true, if_true]
      by_cases hs : c.state_ = StateE.kDisconnecting
      · simp only [hs, if_true, hn, and_self, true_and]
        simp [TcpConnection.shutdownInLoop, disableWriting_isWriting, Socket.shutdownWrite]
      · simp [hs]
    · have hz2 : ((c.outputBuffer_.retrieve w.ret.toNat).readableBytes == 0) = false := by
        simpa using hz
      simp [hz2, hz]
  · have hn' : ¬ w.ret > 0 := hn
    simp [hn', hn]

theorem handleWrite_buffer (c : TcpConnection) (loop : EventLoop) (tid : Int) (w : SysRet) :
    (c.handleWrite loop tid w).1.outputBuffer_ =
      if c.channel_.isWriting = true ∧ 0 < w.ret then c.outputBuffer_.retrieve w.ret.toNat
      else c.outputBuffer_ := by
  unfold TcpConnection.handleWrite
  simp only [Buffer.writeFd]
  by_cases hw : c.channel_.isWriting = true
  · by_cases hn : 0 < w.ret
    · have hn' : w.ret > 0 := hn
      simp only [hw, hn, hn', if_true, and_self]
      split
      · split <;> rfl
      · rfl
    · have hn' : ¬ w.ret > 0 := hn
      simp [hw, hn, hn']
  · simp [hw]

theorem established_inv (c0 : TcpConnection) (loop0 : EventLoop)
    (hch : c0.channel_.events_ = 0)
    (hbuf : c0.outputBuffer_.readerIndex_ = c0.outputBuffer_.writerIndex_) :
    ((c0.established loop0).1.state_ = StateE.kConnected
        ∨ (c0.established loop0).1.state_ = StateE.kDisconnecting)
      ∧ WriteInterestInv (c0.established loop0).1 := by
  have h0 := connectEstablished_inv c0 loop0 hch hbuf
  exact ⟨Or.inl h0.1, h0.2⟩

/-- No event shuts the write direction down with bytes left in the output
buffer, in a state that satisfies the write-interest invariant. -/
theorem fire_shutdownWr (e : ConnEvent) (st : TcpConnection × EventLoop)
    (h : (st.1.state_ = StateE.kConnected ∨ st.1.state_ = StateE.kDisconnecting)
      ∧ WriteInterestInv st.1)
    (fd : Int) (hm : Effect.shutdownWr fd ∈ (e.fire st).2.2) :
    (e.fire st).1.outputBuffer_.readableBytes = 0 ∧ fd = st.1.socket_.sockfd_ := by
  have hnd : st.1.state_ ≠ StateE.kDisconnected := by
    rcases h.1 with h1 | h1 <;> rw [h1] <;> decide
  have hsend : ∀ tid data w, Effect.shutdownWr fd ∉ (st.1.sendInLoop st.2 tid data w).2.2 := by
    intro tid data w
    rw [sendInLoop_effects _ _ _ _ _ hnd]
    split <;> simp
  have hsil : ∀ c : TcpConnection, WriteInterestInv c → c.socket_ = st.1.socket_ →
      Effect.shutdownWr fd ∈ c.shutdownInLoop →
      c.outputBuffer_.readableBytes = 0 ∧ fd = st.1.socket_.sockfd_ := by
    intro c hc hsock hmem
    rw [shutdownInLoop_of_inv c hc] at hmem
    split at hmem
    · rename_i hz
      simp only [List.mem_singleton, Effect.shutdownWr.injEq] at hmem
      exact ⟨hz, by rw [hmem, hsock]⟩
    · simp at hmem
  cases e with
  | send tid buf bufAddr w =>
    simp only [ConnEvent.fire, TcpConnection.send] at hm
    split at hm
    · split at hm
      · exact absurd hm (hsend _ _ _)
      · simp at hm
    · simp at hm
  | shutdown tid =>
    simp only [ConnEvent.fire, TcpConnection.shutdown] at hm ⊢
    split at hm
    · rename_i hs
      rw [if_pos hs]
      split at hm
      · rename_i ht
        rw [if_pos ht]
        exact hsil (st.1.setState StateE.kDisconnecting) h.2 rfl hm
      · simp at hm
    · simp at hm
  | sendInLoop tid data w =>
    exact absurd hm (hsend _ _ _)
  | shutdownInLoop =>
    exact hsil st.1 h.2 rfl hm
  | handleWrite tid w =>
    simp only [ConnEvent.fire] at hm ⊢
    by_cases hw : st.1.channel_.isWriting = true
    · rw [handleWrite_effects _ _ _ _ hw] at hm
      rw [handleWrite_buffer]
      simp only [List.mem_append, List.mem_singleton] at hm
      rcases hm with hm | hm
      · cases hm
      · split at hm
        · rename_i hc
          simp only [List.mem_singleton, Effect.shutdownWr.injEq] at hm
          rw [if_pos ⟨hw, hc.1⟩]
          exact ⟨hc.2.1, hm⟩
        · simp at hm
    · have : (st.1.handleWrite st.2 tid w).2.2 = [] := by
        unfold TcpConnection.handleWrite
        simp [hw]
      rw [this] at hm
      simp at hm

/-- C14: graceful half-close.  Take any state reached from
`connectEstablished` (on a connection whose channel has no interest yet and
whose output buffer is empty) by `send`, `shutdown`, `sendInLoop`,
`shutdownInLoop` and `handleWrite` events, and any further event.  (1) If the
event shuts the socket's write direction down, the output buffer has no
readable bytes at that point.  (2) `shutdown()` called on the loop's thread
of a Connected connection, and likewise `shutdownInLoop` run from the queue,
shuts the write direction down at once exactly when the output buffer is
empty (the channel is not write-interested).  (3) On a Disconnecting
connection with bytes left, `handleWrite` shuts the write direction down
exactly when its write empties the buffer. -/
theorem graceful_half_close (c0 : TcpConnection) (loop0 : EventLoop)
    (events : List ConnEvent)
    (hch : c0.channel_.events_ = 0)
    (hbuf : c0.outputBuffer_.readerIndex_ = c0.outputBuffer_.writerIndex_) :
    (∀ (e : ConnEvent) (fd : Int),
        Effect.shutdownWr fd ∈ (e.fire (fireAll events (c0.established loop0))).2.2 →
        (e.fire (fireAll events (c0.established loop0))).1.outputBuffer_.readableBytes = 0
        ∧ fd = (fireAll events (c0.established loop0)).1.socket_.sockfd_)
    ∧ (∀ tid : Int,
        (fireAll events (c0.established loop0)).1.state_ = StateE.kConnected →
        (fireAll events (c0.established loop0)).2.isInLoopThread tid = true →
        ((ConnEvent.shutdown tid).fire (fireAll events (c0.established loop0))).2.2 =
          if (fireAll events (c0.established loop0)).1.outputBuffer_.readableBytes = 0 then
            [Effect.shutdownWr (fireAll events (c0.established loop0)).1.socket_.sockfd_]
          else [])
    ∧ ((ConnEvent.shutdownInLoop.fire (fireAll events (c0.established loop0))).2.2 =
          if (fireAll events (c0.established loop0)).1.outputBuffer_.readableBytes = 0 then
            [Effect.shutdownWr (fireAll events (c0.established loop0)).1.socket_.sockfd_]
          else [])
    ∧ (∀ (tid : Int) (w : SysRet),
        (fireAll events (c0.established loop0)).1.state_ = StateE.kDisconnecting →
        0 < (fireAll events (c0.established loop0)).1.outputBuffer_.readableBytes →
        ((ConnEvent.handleWrite tid w).fire (fireAll events (c0.established loop0))).2.2 =
          [Effect.write (fireAll events (c0.established loop0)).1.channel_.fd_
              (fireAll events (c0.established loop0)).1.outputBuffer_.peek] ++
            (if Int.ofNat (fireAll events (c0.established loop0)).1.outputBuffer_.readableBytes
                ≤ w.ret then
              [Effect.shutdownWr (fireAll events (c0.established loop0)).1.socket_.sockfd_]
             else [])) := by
  have h := fireAll_inv events (c0.established loop0) (established_inv c0 loop0 hch hbuf)
  generalize fireAll events (c0.established loop0) = st at h
  refine ⟨fun e fd hm => fire_shutdownWr e st h fd hm, ?_, ?_, ?_⟩
  · intro tid hs ht
    simp only [ConnEvent.fire, TcpConnection.shutdown]
    rw [if_pos hs, if_pos ht]
    exact shutdownInLoop_of_inv (st.1.setState StateE.kDisconnecting) h.2
  · exact shutdownInLoop_of_inv st.1 h.2
  · intro tid w hs hpos
    have hw : st.1.channel_.isWriting = true := h.2.2.mpr hpos
    simp only [ConnEvent.fire]
    rw [handleWrite_effects _ _ _ _ hw]
    congr 1
    have hr := (retrieve_cursors st.1.outputBuffer_ w.ret.toNat h.2.1).2
    by_cases hle : Int.ofNat st.1.outputBuffer_.readableBytes ≤ w.ret
    · have hc : 0 < w.ret ∧ (st.1.outputBuffer_.retrieve w.ret.toNat).readableBytes = 0
          ∧ st.1.state_ = StateE.kDisconnecting := by
        simp only [Int.ofNat_eq_coe] at hle
        refine ⟨by omega, ?_, hs⟩
        rw [hr]; omega
      rw [if_pos hc, if_pos hle]
    · have hc : ¬ (0 < w.ret ∧ (st.1.outputBuffer_.retrieve w.ret.toNat).readableBytes = 0
          ∧ st.1.state_ = StateE.kDisconnecting) := by
        rintro ⟨h1, h2, _⟩
        rw [hr] at h2
        simp only [Int.ofNat_eq_coe] at hle
        omega
      rw [if_neg hc, if_neg hle]

/-- C14 at the sample connection: after sending three bytes and calling
`shutdown()` nothing is shut down yet; the `handleWrite` that gets the three
bytes out shuts the write direction down. -/
theorem graceful_half_close_witness :
    sampleConn.channel_.events_ = 0
    ∧ sampleConn.outputBuffer_.readerIndex_ = sampleConn.outputBuffer_.writerIndex_
    ∧ (fireAll sampleHalfClose (sampleConn.established sampleLoop)).1.state_
        = StateE.kDisconnecting
    ∧ ((ConnEvent.handleWrite 1 { ret := 3, errno := 0 }).fire
        (fireAll sampleHalfClose (sampleConn.established sampleLoop))).2.2
        = [Effect.write 5 [1, 2, 3], Effect.shutdownWr 5] :=
  ⟨by decide, by decide, by decide,
   (graceful_half_close sampleConn sampleLoop sampleHalfClose (by decide) (by decide)).2.2.2
     1 { ret := 3, errno := 0 } (by decide) (by decide)⟩

/-! ## Tear-down -/

theorem erase_erase (m : ChannelMap) (fd : Int) : (m.erase fd).erase fd = m.erase fd := by
  simp [ChannelMap.erase, List.filter_filter]

theorem removeChannel_twice (p : EPollPoller) (ch : Channel) :
    (p.removeChannel ch).1.removeChannel (p.removeChannel ch).2 = p.removeChannel ch := by
  have h2 : (p.removeChannel ch).2 = ch.set_index kNew := rfl
  have hc : (p.removeChannel ch).1.channels_ = p.channels_.erase ch.fd_ := by
    unfold EPollPoller.removeChannel
    simp only
    split
    · rw [update_channels]
    · rfl
  have hk : ¬ (kNew = kAdded) := by decide
  generalize p.removeChannel ch = r at h2 hc
  obtain ⟨q, c2⟩ := r
  simp only at h2 hc
  subst h2
  unfold EPollPoller.removeChannel
  simp only [Channel.set_index, hk, if_false, hc, erase_erase]
  cases q
  simp only at hc
  simp [hc]

theorem channel_remove_twice (ch : Channel) (loop : EventLoop) :
    (ch.remove loop).2.remove (ch.remove loop).1 = ch.remove loop := by
  unfold Channel.remove EventLoop.removeChannel
  simp only [removeChannel_twice]

/-- A `connectDestroy` on a connection that is not Connected only removes the
channel. -/
theorem connectDestroy_not_connected (c : TcpConnection) (loop : EventLoop)
    (h : c.state_ ≠ StateE.kConnected) :
    c.connectDestroy loop
      = ({ c with channel_ := (c.channel_.remove loop).2 }, (c.channel_.remove loop).1, []) := by
  unfold TcpConnection.connectDestroy
  rw [if_neg h]

theorem connectDestroy_after_remove (c : TcpConnection) (loop : EventLoop)
    (h : c.state_ ≠ StateE.kConnected) :
    ({ c with channel_ := (c.channel_.remove loop).2 } : TcpConnection).connectDestroy
        (c.channel_.remove loop).1
      = ({ c with channel_ := (c.channel_.remove loop).2 }, (c.channel_.remove loop).1, []) := by
  rw [connectDestroy_not_connected
    ({ c with channel_ := (c.channel_.remove loop).2 } : TcpConnection) _ h]
  simp only [channel_remove_twice]

/-- C20: `connectDestroy` is an idempotent tear-down.  For every connection,
in any state, whose first `connectDestroy` returns (it does not end in
`std::bad_function_call`), a second `connectDestroy` leaves the connection
(its state and its channel with interest and registration state) and the loop
with its poller (fd -> Channel map, kernel interest list, calls issued) as
the first left them, and invokes no callback.  A `connectDestroy` that
follows `handleClose` invokes no callback either.  In both sequences the
user's connection callback is told at most once that the connection is
down. -/
theorem connectDestroy_idempotent (c : TcpConnection) (loop : EventLoop)
    (hret : Effect.badFunctionCall ∉ (c.connectDestroy loop).2.2) :
    ((c.connectDestroy loop).1.connectDestroy (c.connectDestroy loop).2.1).1
        = (c.connectDestroy loop).1
    ∧ ((c.connectDestroy loop).1.connectDestroy (c.connectDestroy loop).2.1).2.1
        = (c.connectDestroy loop).2.1
    ∧ ((c.connectDestroy loop).1.connectDestroy (c.connectDestroy loop).2.1).2.2 = []
    ∧ ((c.handleClose loop).1.connectDestroy (c.handleClose loop).2.1).2.2 = []
    ∧ ((c.connectDestroy loop).2.2 ++
        ((c.connectDestroy loop).1.connectDestroy (c.connectDestroy loop).2.1).2.2).countP
          Effect.isConnectionDown ≤ 1
    ∧ ((c.handleClose loop).2.2 ++
        ((c.handleClose loop).1.connectDestroy (c.handleClose loop).2.1).2.2).countP
          Effect.isConnectionDown ≤ 1 := by
  have hclose_state : (c.handleClose loop).1.state_ ≠ StateE.kConnected := by
    have : (c.handleClose loop).1.state_ = StateE.kDisconnected := by
      unfold TcpConnection.handleClose
      simp only [TcpConnection.setState]
      split
      · rfl
      · split <;> rfl
    rw [this]; decide
  have hclose_eff : ((c.handleClose loop).1.connectDestroy (c.handleClose loop).2.1).2.2 = [] := by
    rw [connectDestroy_not_connected _ _ hclose_state]
  have hclose_cnt : (c.handleClose loop).2.2.countP Effect.isConnectionDown ≤ 1 := by
    unfold TcpConnection.handleClose
    simp only
    split
    · simp [List.countP_cons, Effect.isConnectionDown]
    · split <;> simp [List.countP_cons, Effect.isConnectionDown] <;> split <;> omega
  have hfirst_cnt : (c.connectDestroy loop).2.2.countP Effect.isConnectionDown ≤ 1 := by
    unfold TcpConnection.connectDestroy
    split
    · simp only
      split
      · simp only [List.countP_cons, Effect.isConnectionDown, List.countP_nil]
        split <;> omega
      · simp [List.countP_cons, Effect.isConnectionDown]
    · simp
  have key : (c.connectDestroy loop).1.connectDestroy (c.connectDestroy loop).2.1
      = ((c.connectDestroy loop).1, (c.connectDestroy loop).2.1, []) := by
    by_cases hs : c.state_ = StateE.kConnected
    · cases hcb : c.connectionCallback_ with
      | none =>
        exfalso
        apply hret
        unfold TcpConnection.connectDestroy
        simp [hs, hcb, TcpConnection.setState]
      | some cb =>
        have e : c.connectDestroy loop
            = ({ ({ c.setState StateE.kDisconnected with
                      channel_ := ((c.setState StateE.kDisconnected).channel_.disableAll loop).2 }
                    : TcpConnection) with
                  channel_ := (((c.setState StateE.kDisconnected).channel_.disableAll loop).2.remove
                    ((c.setState StateE.kDisconnected).channel_.disableAll loop).1).2 },
                (((c.setState StateE.kDisconnected).channel_.disableAll loop).2.remove
                    ((c.setState StateE.kDisconnected).channel_.disableAll loop).1).1,
                [Effect.connectionCallback cb c.addr false]) := by
          unfold TcpConnection.connectDestroy
          simp [hs, hcb, TcpConnection.setState, TcpConnection.connected]
        rw [e]
        exact connectDestroy_after_remove
          ({ c.setState StateE.kDisconnected with
              channel_ := ((c.setState StateE.kDisconnected).channel_.disableAll loop).2 })
          _ (by simp [TcpConnection.setState])
    · rw [connectDestroy_not_connected c loop hs]
      exact connectDestroy_after_remove c loop hs
  rw [key, hclose_eff]
  exact ⟨rfl, rfl, rfl, rfl, by simpa using hfirst_cnt, by simpa using hclose_cnt⟩

/-- C20 at the established sample connection: the first `connectDestroy`
returns, the second changes neither connection nor loop and calls nothing. -/
theorem connectDestroy_idempotent_witness :
    Effect.badFunctionCall ∉ (sampleEstablished.1.connectDestroy sampleEstablished.2).2.2
    ∧ ((sampleEstablished.1.connectDestroy sampleEstablished.2).1.connectDestroy
        (sampleEstablished.1.connectDestroy sampleEstablished.2).2.1).1
        = (sampleEstablished.1.connectDestroy sampleEstablished.2).1
    ∧ ((sampleEstablished.1.connectDestroy sampleEstablished.2).1.connectDestroy
        (sampleEstablished.1.connectDestroy sampleEstablished.2).2.1).2.2 = [] :=
  ⟨by decide,
   (connectDestroy_idempotent sampleEstablished.1 sampleEstablished.2 (by decide)).1,
   (connectDestroy_idempotent sampleEstablished.1 sampleEstablished.2 (by decide)).2.2.1⟩

/-! ## The pending queue -/

theorem queueInLoop_eq (loop : EventLoop) (tid : Int) (cb : EventLoop.Functor) :
    loop.queueInLoop tid cb =
      { loop with
        pendingFunctors_ := loop.pendingFunctors_ ++ [cb],
        wakeupWrites := loop.wakeupWrites +
          (if loop.threadId_ ≠ tid ∨ loop.callingPendingFunctors_ = true then 1 else 0) } := by
  unfold EventLoop.queueInLoop EventLoop.isInLoopThread EventLoop.wakeup
  by_cases h1 : loop.threadId_ = tid <;> cases h2 : loop.callingPendingFunctors_ <;>
    simp [h1, h2]

theorem callAll_pending (loop : EventLoop) (calls : List LoopCall) :
    (loop.callAll calls).pendingFunctors_ = loop.pendingFunctors_ ++ enqueuedBy calls := by
  induction calls generalizing loop with
  | nil => simp [EventLoop.callAll, enqueuedBy]
  | cons c rest ih =>
    have hstep : (loop.call c).pendingFunctors_
        = loop.pendingFunctors_ ++ enqueuedBy [c] := by
      cases c with
      | queueInLoop tid cb =>
        simp [EventLoop.call, queueInLoop_pending, enqueuedBy, LoopCall.queued]
      | quit tid =>
        simp only [EventLoop.call, EventLoop.quit, enqueuedBy, List.filterMap_cons,
          LoopCall.queued, List.filterMap_nil, List.append_nil]
        split <;> rfl
    have := ih (loop.call c)
    simp only [EventLoop.callAll, List.foldl_cons] at this ⊢
    rw [this, hstep]
    simp [enqueuedBy, List.filterMap_cons]
    cases LoopCall.queued c <;> simp

theorem callAll_append (loop : EventLoop) (xs ys : List LoopCall) :
    loop.callAll (xs ++ ys) = (loop.callAll xs).callAll ys := by
  simp [EventLoop.callAll, List.foldl_append]

theorem runFunctors_eq (body : EventLoop.Functor → List LoopCall) (loop : EventLoop)
    (functors : List EventLoop.Functor) :
    loop.runFunctors body functors = (loop.callAll (functors.flatMap body), functors) := by
  have gen : ∀ (fs : List EventLoop.Functor) (l : EventLoop) (ran : List EventLoop.Functor),
      fs.foldl (fun acc f => (acc.1.callAll (body f), acc.2 ++ [f])) (l, ran)
        = (l.callAll (fs.flatMap body), ran ++ fs) := by
    intro fs
    induction fs with
    | nil => intro l ran; simp [EventLoop.callAll]
    | cons f rest ih =>
      intro l ran
      simp only [List.foldl_cons, ih, List.flatMap_cons, callAll_append, List.append_assoc,
        List.singleton_append]
  simpa [EventLoop.runFunctors] using gen functors loop []

/-- C15: `queueInLoop` always appends the closure to the tail of the pending
queue, and calls `wakeup` (one more write to the wakeup descriptor) exactly
when the caller is not on the loop's thread or the loop is inside the drain
of its pending closures.  `runInLoop` on the loop's thread calls the closure
at once and does not put it in the queue (the queue grows only by what the
closure itself enqueues); on another thread it does not call the closure,
appends it to the queue and wakes the loop. -/
theorem queueInLoop_runInLoop (body : EventLoop.Functor → List LoopCall) (loop : EventLoop)
    (tid : Int) (cb : EventLoop.Functor) :
    (loop.queueInLoop tid cb).pendingFunctors_ = loop.pendingFunctors_ ++ [cb]
    ∧ (loop.queueInLoop tid cb).wakeupWrites = loop.wakeupWrites +
        (if loop.isInLoopThread tid = false ∨ loop.callingPendingFunctors_ = true then 1
         else 0)
    ∧ (loop.isInLoopThread tid = true →
        loop.runInLoop body tid cb = (loop.callAll (body cb), [cb])
        ∧ (loop.runInLoop body tid cb).1.pendingFunctors_
            = loop.pendingFunctors_ ++ enqueuedBy (body cb))
    ∧ (loop.isInLoopThread tid = false →
        (loop.runInLoop body tid cb).2 = []
        ∧ (loop.runInLoop body tid cb).1 = loop.queueInLoop tid cb
        ∧ (loop.runInLoop body tid cb).1.pendingFunctors_ = loop.pendingFunctors_ ++ [cb]
        ∧ (loop.runInLoop body tid cb).1.wakeupWrites = loop.wakeupWrites + 1) := by
  refine ⟨queueInLoop_pending _ _ _, ?_, ?_, ?_⟩
  · rw [queueInLoop_eq]
    simp only [EventLoop.isInLoopThread]
    by_cases h1 : loop.threadId_ = tid <;> simp [h1]
  · intro ht
    have e : loop.runInLoop body tid cb = (loop.callAll (body cb), [cb]) := by
      unfold EventLoop.runInLoop
      rw [if_pos ht]
    rw [e]
    exact ⟨rfl, callAll_pending _ _⟩
  · intro ht
    have e : loop.runInLoop body tid cb = (loop.queueInLoop tid cb, []) := by
      unfold EventLoop.runInLoop
      rw [if_neg (by simp [ht])]
    rw [e]
    refine ⟨rfl, rfl, queueInLoop_pending _ _ _, ?_⟩
    rw [queueInLoop_eq]
    have h1 : loop.threadId_ ≠ tid := by
      intro h
      simp [EventLoop.isInLoopThread, h] at ht
    simp [h1]

theorem doPendingFunctors_eq (body : EventLoop.Functor → List LoopCall) (loop : EventLoop) :
    (loop.doPendingFunctors body).2 = loop.pendingFunctors_
    ∧ (loop.doPendingFunctors body).1.pendingFunctors_
        = enqueuedBy (loop.pendingFunctors_.flatMap body)
    ∧ (loop.doPendingFunctors body).1.callingPendingFunctors_ = false := by
  unfold EventLoop.doPendingFunctors
  simp only [runFunctors_eq, callAll_pending, List.nil_append]
  trivial

theorem enqueuedBy_append (xs ys : List LoopCall) :
    enqueuedBy (xs ++ ys) = enqueuedBy xs ++ enqueuedBy ys := by
  simp [enqueuedBy, List.filterMap_append]

theorem drains_fifo (body : EventLoop.Functor → List LoopCall) (k : Nat) (loop : EventLoop) :
    (EventLoop.drains body k loop).2 ++ (EventLoop.drains body k loop).1.pendingFunctors_
      = loop.pendingFunctors_ ++ enqueuedBy ((EventLoop.drains body k loop).2.flatMap body) := by
  induction k generalizing loop with
  | zero => simp [EventLoop.drains, enqueuedBy]
  | succ k ih =>
    obtain ⟨h1, h2, _⟩ := doPendingFunctors_eq body loop
    have := ih (loop.doPendingFunctors body).1
    simp only [EventLoop.drains, h1, List.append_assoc, List.flatMap_append, enqueuedBy_append]
    rw [this, h2]

/-- C16: one drain of the pending queue calls exactly the closures that were
in the queue when it started, each once and in queue order.  The closures
that are enqueued while it runs (by the closures called, or by other threads)
are not called in that drain: they are the queue afterwards, in the order in
which they were enqueued, and the next drain calls exactly them.  Over any
number of successive drains the closures called, followed by those still
queued, are the initial queue followed by everything enqueued meanwhile, in
order of enqueueing: closures run in the order in which they were posted. -/
theorem doPendingFunctors_fifo (body : EventLoop.Functor → List LoopCall) (loop : EventLoop) :
    (loop.doPendingFunctors body).2 = loop.pendingFunctors_
    ∧ (loop.doPendingFunctors body).1.pendingFunctors_
        = enqueuedBy (loop.pendingFunctors_.flatMap body)
    ∧ ((loop.doPendingFunctors body).1.doPendingFunctors body).2
        = enqueuedBy (loop.pendingFunctors_.flatMap body)
    ∧ (loop.doPendingFunctors body).1.callingPendingFunctors_ = false
    ∧ (∀ k : Nat,
        (EventLoop.drains body k loop).2 ++ (EventLoop.drains body k loop).1.pendingFunctors_
          = loop.pendingFunctors_
            ++ enqueuedBy ((EventLoop.drains body k loop).2.flatMap body)) := by
  obtain ⟨h1, h2, h3⟩ := doPendingFunctors_eq body loop
  refine ⟨h1, h2, ?_, h3, fun k => drains_fifo body k loop⟩
  rw [(doPendingFunctors_eq body _).1, h2]

/-! ## One loop per thread -/

theorem ctor_some (addr channelAddr : Nat) (tid : Int) (evtfd : Int)
    (t : Option Nat) (r : EventLoop × Option Nat)
    (h : EventLoop.ctor addr channelAddr tid evtfd t = some r) :
    t = none ∧ 0 ≤ evtfd ∧ r.2 = some addr ∧ r.1.threadId_ = tid ∧ r.1.addr = addr := by
  unfold EventLoop.ctor at h
  split at h
  · cases h
  · cases t with
    | some a => simp at h
    | none =>
      simp only [Option.some.injEq] at h
      subst h
      exact ⟨rfl, by omega, rfl, rfl, rfl⟩

theorem ctor_fresh (addr channelAddr : Nat) (tid : Int) (evtfd : Int) (h : 0 ≤ evtfd) :
    ∃ loop, EventLoop.ctor addr channelAddr tid evtfd none = some (loop, some addr) := by
  unfold EventLoop.ctor
  rw [if_neg (by omega)]
  exact ⟨_, rfl⟩

theorem countP_eraseP_self {α : Type} (P : α → Bool) (l : List α) (h : ∃ x ∈ l, P x = true) :
    (l.eraseP P).countP P + 1 = l.countP P := by
  induction l with
  | nil => simp at h
  | cons a rest ih =>
    by_cases ha : P a = true
    · simp [List.eraseP_cons, ha, List.countP_cons]
    · have hr : ∃ x ∈ rest, P x = true := by
        obtain ⟨x, hx, hp⟩ := h
        rcases List.mem_cons.mp hx with rfl | hx
        · exact absurd hp ha
        · exact ⟨x, hx, hp⟩
      simp only [Bool.not_eq_true] at ha
      simp [List.eraseP_cons, ha, List.countP_cons, ih hr]

theorem countP_eraseP_other {α : Type} (P Q : α → Bool) (l : List α)
    (h : ∀ x, P x = true → Q x = false) :
    (l.eraseP P).countP Q = l.countP Q := by
  induction l with
  | nil => simp
  | cons a rest ih =>
    by_cases ha : P a = true
    · simp [List.eraseP_cons, ha, List.countP_cons, h a ha]
    · simp only [Bool.not_eq_true] at ha
      simp [List.eraseP_cons, ha, List.countP_cons, ih]

theorem step_onePerThread (p q : Process) (s : LifeStep) (h : p.onePerThread)
    (hs : p.step s = some q) : q.onePerThread := by
  obtain ⟨hcnt, hptr⟩ := h
  cases s with
  | construct tid addr channelAddr evtfd =>
    simp only [Process.step] at hs
    cases hc : EventLoop.ctor addr channelAddr tid evtfd (p.t_loopInThisThread tid) with
    | none => rw [hc] at hs; cases hs
    | some r =>
      rw [hc] at hs
      simp only [Option.some.injEq] at hs
      subst hs
      obtain ⟨ht, _, hr2, hrt, hra⟩ := ctor_some _ _ _ _ _ _ hc
      have h0 : p.loopsOn tid = 0 := by
        have := hcnt tid
        rw [ht] at this
        simpa using this
      refine ⟨?_, ?_⟩
      · intro tid2
        simp only [Process.loopsOn, List.countP_append, List.countP_cons, List.countP_nil,
          hrt, Function.update_apply]
        by_cases he : tid2 = tid
        · subst he
          have h0' : List.countP (fun l => l.threadId_ == tid2) p.loops = 0 := h0
          simp [hr2, h0']
        · have hne : ¬ (tid = tid2) := fun h => he h.symm
          have := hcnt tid2
          simp only [Process.loopsOn] at this
          simp [he, hne, this]
      · intro l hl
        simp only [Function.update_apply]
        rcases List.mem_append.mp hl with hl | hl
        · have hlt : l.threadId_ ≠ tid := by
            intro he
            have := hptr l hl
            rw [he, ht] at this
            cases this
          rw [if_neg hlt]
          exact hptr l hl
        · simp only [List.mem_singleton] at hl
          subst hl
          rw [if_pos hrt, hr2, hra]
  | destroy tid =>
    simp only [Process.step] at hs
    cases hf : p.loops.find? (fun l => l.threadId_ == tid) with
    | none =>
      rw [hf] at hs
      simp only [Option.some.injEq] at hs
      subst hs
      exact ⟨hcnt, hptr⟩
    | some loop =>
      rw [hf] at hs
      simp only [Option.some.injEq] at hs
      subst hs
      have hmem : ∃ x ∈ p.loops, (fun l : EventLoop => l.threadId_ == tid) x = true :=
        ⟨loop, List.mem_of_find?_eq_some hf,
          @List.find?_some _ (fun l : EventLoop => l.threadId_ == tid) loop p.loops hf⟩
      have hself := countP_eraseP_self (fun l : EventLoop => l.threadId_ == tid) p.loops hmem
      have hone : p.loopsOn tid ≤ 1 := by
        rw [hcnt tid]; split <;> omega
      have hzero : (p.loops.eraseP (fun l => l.threadId_ == tid)).countP
          (fun l => l.threadId_ == tid) = 0 := by
        simp only [Process.loopsOn] at hone
        omega
      refine ⟨?_, ?_⟩
      · intro tid2
        simp only [Process.loopsOn, Function.update_apply]
        by_cases he : tid2 = tid
        · subst he
          simp [hzero, EventLoop.dtor]
        · rw [if_neg he]
          rw [countP_eraseP_other]
          · exact hcnt tid2
          · intro x hx
            simp only [beq_iff_eq] at hx
            simp only [beq_eq_false_iff_ne, ne_eq, hx]
            exact fun h => he h.symm
      · intro l hl
        have hl0 := List.mem_of_mem_eraseP hl
        have hlt : l.threadId_ ≠ tid := by
          intro he
          have := List.countP_eq_zero.mp hzero l hl
          simp [he] at this
        simp only [Function.update_apply]
        rw [if_neg hlt]
        exact hptr l hl0

theorem run_onePerThread (steps : List LifeStep) (p q : Process) (h : p.onePerThread)
    (hr : p.run steps = some q) : q.onePerThread := by
  induction steps generalizing p with
  | nil =>
    simp only [Process.run, Option.some.injEq] at hr
    subst hr
    exact h
  | cons s rest ih =>
    simp only [Process.run] at hr
    cases hs : p.step s with
    | none => rw [hs] at hr; cases hr
    | some p2 =>
      rw [hs] at hr
      exact ih p2 (step_onePerThread p p2 s h hs) hr

theorem start_onePerThread : Process.start.onePerThread := by
  refine ⟨fun tid => ?_, fun l hl => ?_⟩
  · simp [Process.start, Process.loopsOn]
  · simp [Process.start] at hl

theorem ctor_fresh_thread (addr channelAddr : Nat) (tid : Int) (evtfd : Int) (h : 0 ≤ evtfd) :
    ∃ loop, EventLoop.ctor addr channelAddr tid evtfd none = some (loop, some addr)
      ∧ loop.threadId_ = tid ∧ loop.addr = addr := by
  obtain ⟨loop, hl⟩ := ctor_fresh addr channelAddr tid evtfd h
  obtain ⟨_, _, _, h4, h5⟩ := ctor_some _ _ _ _ _ _ hl
  exact ⟨loop, hl, h4, h5⟩

/-- A loop is built on a thread, destroyed, and another one is built on the
same thread: no step ends the process. -/
theorem rebuild_after_destroy (tid : Int) (a c a2 c2 : Nat) (fd fd2 : Int)
    (h : 0 ≤ fd) (h2 : 0 ≤ fd2) :
    ∃ q, Process.start.run [LifeStep.construct tid a c fd, LifeStep.destroy tid,
        LifeStep.construct tid a2 c2 fd2] = some q
      ∧ q.loopsOn tid = 1 ∧ q.t_loopInThisThread tid = some a2 := by
  obtain ⟨l1, e1, t1, _⟩ := ctor_fresh_thread a c tid fd h
  obtain ⟨l2, e2, t2, _⟩ := ctor_fresh_thread a2 c2 tid fd2 h2
  have hb : (l1.threadId_ == tid) = true := by simp [t1]
  have hb2 : (l2.threadId_ == tid) = true := by simp [t2]
  refine ⟨{ t_loopInThisThread :=
              Function.update (Function.update (Function.update (fun _ => none) tid (some a))
                tid none) tid (some a2),
            loops := [l2] }, ?_, ?_, ?_⟩
  · simp [Process.run, Process.step, Process.start, e1, hb, EventLoop.dtor, e2]
  · simp [Process.loopsOn, hb2]
  · simp

/-- C17: one loop per thread.  Constructing an EventLoop on a thread whose
thread-local pointer is set ends in the fatal error, whatever the arguments.
On a thread whose pointer is null (and with an event descriptor) construction
succeeds, the new loop belongs to that thread and the pointer is set to it.
The destructor leaves the pointer null.  Hence, starting from a process
without loops, after every sequence of constructions and destructions (each
by the loop's own thread) that does not end the process every thread has at
most one live loop, has one exactly when its pointer is set, and the pointer
of a live loop's thread is that loop; a construction on a thread that has a
live loop ends the process; and after a loop is destroyed a new one can be
built on its thread. -/
theorem one_loop_per_thread :
    (∀ (addr channelAddr : Nat) (tid evtfd : Int) (a : Nat),
        EventLoop.ctor addr channelAddr tid evtfd (some a) = none)
    ∧ (∀ (addr channelAddr : Nat) (tid evtfd : Int), 0 ≤ evtfd →
        ∃ loop, EventLoop.ctor addr channelAddr tid evtfd none = some (loop, some addr)
          ∧ loop.threadId_ = tid ∧ loop.addr = addr)
    ∧ (∀ loop : EventLoop, loop.dtor.2.1 = none)
    ∧ (∀ (steps : List LifeStep) (q : Process), Process.start.run steps = some q →
        ∀ tid, q.loopsOn tid ≤ 1
          ∧ (q.loopsOn tid = 1 ↔ (q.t_loopInThisThread tid).isSome = true)
          ∧ ∀ l, l ∈ q.loops → q.t_loopInThisThread l.threadId_ = some l.addr)
    ∧ (∀ (steps : List LifeStep) (q : Process) (tid : Int) (addr channelAddr : Nat)
        (evtfd : Int), Process.start.run steps = some q → 0 < q.loopsOn tid →
        q.step (LifeStep.construct tid addr channelAddr evtfd) = none)
    ∧ (∀ (tid : Int) (a c a2 c2 : Nat) (fd fd2 : Int), 0 ≤ fd → 0 ≤ fd2 →
        ∃ q, Process.start.run [LifeStep.construct tid a c fd, LifeStep.destroy tid,
            LifeStep.construct tid a2 c2 fd2] = some q
          ∧ q.loopsOn tid = 1 ∧ q.t_loopInThisThread tid = some a2) := by
  refine ⟨?_, ?_, ?_, ?_, ?_, ?_⟩
  · intro addr channelAddr tid evtfd a
    unfold EventLoop.ctor
    split <;> rfl
  · intro addr channelAddr tid evtfd h
    exact ctor_fresh_thread addr channelAddr tid evtfd h
  · intro loop
    rfl
  · intro steps q hr tid
    obtain ⟨hcnt, hptr⟩ := run_onePerThread steps _ q start_onePerThread hr
    have := hcnt tid
    refine ⟨?_, ?_, hptr⟩
    · rw [this]; split <;> omega
    · rw [this]
      split
      · rename_i h; simp [h]
      · rename_i h; simp [h]
  · intro steps q tid addr channelAddr evtfd hr hpos
    obtain ⟨hcnt, _⟩ := run_onePerThread steps _ q start_onePerThread hr
    have := hcnt tid
    cases ht : q.t_loopInThisThread tid with
    | none => rw [ht] at this; simp at this; omega
    | some a =>
      simp only [Process.step, ht]
      have : EventLoop.ctor addr channelAddr tid evtfd (some a) = none := by
        unfold EventLoop.ctor
        split <;> rfl
      rw [this]
  · intro tid a c a2 c2 fd fd2 h h2
    exact rebuild_after_destroy tid a c a2 c2 fd fd2 h h2

/-! ## loop() and quit() -/

theorem call_fields (loop : EventLoop) (c : LoopCall) :
    (loop.call c).pollReturnTime_ = loop.pollReturnTime_
    ∧ (loop.call c).quit_ = (loop.quit_ || c.isQuit) := by
  cases c with
  | queueInLoop tid cb =>
    simp only [EventLoop.call, EventLoop.queueInLoop, LoopCall.isQuit, Bool.or_false]
    split <;> exact ⟨rfl, rfl⟩
  | quit tid =>
    simp only [EventLoop.call, EventLoop.quit, LoopCall.isQuit, Bool.or_true]
    split <;> exact ⟨rfl, rfl⟩

theorem callAll_fields (loop : EventLoop) (calls : List LoopCall) :
    (loop.callAll calls).pollReturnTime_ = loop.pollReturnTime_
    ∧ (loop.callAll calls).quit_ = (loop.quit_ || calls.any LoopCall.isQuit) := by
  induction calls generalizing loop with
  | nil => simp [EventLoop.callAll]
  | cons c rest ih =>
    have h := ih (loop.call c)
    have hc := call_fields loop c
    simp only [EventLoop.callAll, List.foldl_cons] at h ⊢
    rw [h.1, h.2, hc.1, hc.2]
    simp [Bool.or_assoc]

theorem handle_fold (env : LoopEnv) (act : List Nat) (w : LoopRun) :
    act.foldl (EventLoop.handleOne env) w =
      { w with
        loop := w.loop.callAll (act.flatMap (fun ch =>
          ((w.chans ch).handleEvent env.alive w.loop.pollReturnTime_).flatMap env.onCall)),
        trace := w.trace ++ act.map (fun ch =>
          LoopEvent.handled ch ((w.chans ch).handleEvent env.alive w.loop.pollReturnTime_)) } := by
  induction act generalizing w with
  | nil => simp [EventLoop.callAll]
  | cons ch rest ih =>
    simp only [List.foldl_cons, ih, EventLoop.handleOne, (callAll_fields _ _).1,
      List.flatMap_cons, callAll_append, List.map_cons, List.append_assoc,
      List.singleton_append]

theorem poll_now (p : EPollPoller) (r : EpollWait) (chans : Nat → Channel)
    (active : List Nat) : (p.poll r chans active).2.2.2 = r.now := by
  unfold EPollPoller.poll
  simp only
  split <;> rfl

theorem callAll_quit (loop : EventLoop) (calls : List LoopCall) :
    (loop.callAll calls).quit_ = (loop.quit_ || calls.any LoopCall.isQuit) :=
  (callAll_fields loop calls).2

theorem doPendingFunctors_ran (body : EventLoop.Functor → List LoopCall) (l : EventLoop) :
    (l.doPendingFunctors body).2 = l.pendingFunctors_ :=
  (doPendingFunctors_eq body l).1

theorem doPendingFunctors_pending (body : EventLoop.Functor → List LoopCall) (l : EventLoop) :
    (l.doPendingFunctors body).1.pendingFunctors_ = enqueuedBy (l.pendingFunctors_.flatMap body) :=
  (doPendingFunctors_eq body l).2.1

theorem doPendingFunctors_quit (body : EventLoop.Functor → List LoopCall) (l : EventLoop) :
    (l.doPendingFunctors body).1.quit_
      = (l.quit_ || (l.pendingFunctors_.flatMap body).any LoopCall.isQuit) := by
  unfold EventLoop.doPendingFunctors
  simp only [runFunctors_eq]
  exact (callAll_fields _ _).2

/-- One pass of the loop, whatever is called during it: it polls once, then
handles every channel the poll reported, in order, then calls every closure
pending at that point, in order; `quit_` is set afterwards exactly if it was
set before or `quit()` was called during the pass. -/
theorem iteration_eq (env : LoopEnv) (w : LoopRun) (r : EpollWait) :
    (EventLoop.iteration env w r).trace =
        w.trace ++ [LoopEvent.polled (EventLoop.passActive w r)]
          ++ (EventLoop.passActive w r).map
              (fun ch => LoopEvent.handled ch (EventLoop.passCalls env w r ch))
          ++ (EventLoop.passQueue env w r).map LoopEvent.ran
    ∧ (EventLoop.iteration env w r).loop.quit_ =
        (w.loop.quit_ || (EventLoop.passLoopCalls env w r).any LoopCall.isQuit)
    ∧ (EventLoop.iteration env w r).loop.pendingFunctors_
        = enqueuedBy ((EventLoop.passQueue env w r).flatMap env.body) := by
  unfold EventLoop.iteration
  simp only [handle_fold, poll_now, doPendingFunctors_ran, doPendingFunctors_pending,
    doPendingFunctors_quit, callAll_pending, callAll_quit]
  refine ⟨?_, ?_, ?_⟩
  · rfl
  · simp only [EventLoop.passLoopCalls, List.any_append, Bool.or_assoc]
    rfl
  · rfl

/-- C18: `quit()` during a pass of `loop()`.  At the head of a pass with
`quit_` clear, if `quit()` is called at any point of the pass (by a channel
callback, by a pending closure, or by another thread meanwhile), then the
loop returns right after this pass, whatever further results of `epoll_wait`
are waiting: the pass is completed (one poll, `handleEvent` on every channel
that poll reported, in order, then every closure pending at the drain, in
order) and nothing is polled after it; on return `looping_` is false. -/
theorem quit_during_iteration (env : LoopEnv) (w : LoopRun) (r : EpollWait)
    (rest : List EpollWait)
    (hq : w.loop.quit_ = false)
    (hcall : (EventLoop.passLoopCalls env w r).any LoopCall.isQuit = true) :
    EventLoop.loopFrom env (r :: rest) w
        = some (EventLoop.loopExit (EventLoop.iteration env w r))
    ∧ (EventLoop.loopExit (EventLoop.iteration env w r)).trace =
        w.trace ++ [LoopEvent.polled (EventLoop.passActive w r)]
          ++ (EventLoop.passActive w r).map
              (fun ch => LoopEvent.handled ch (EventLoop.passCalls env w r ch))
          ++ (EventLoop.passQueue env w r).map LoopEvent.ran
    ∧ (EventLoop.loopExit (EventLoop.iteration env w r)).loop.looping_ = false
    ∧ (EventLoop.loopExit (EventLoop.iteration env w r)).loop.quit_ = true := by
  obtain ⟨ht, hquit, _⟩ := iteration_eq env w r
  have hq2 : (EventLoop.iteration env w r).loop.quit_ = true := by
    rw [hquit, hcall, Bool.or_true]
  refine ⟨?_, ht, rfl, hq2⟩
  have hne : ¬ (w.loop.quit_ = true) := by simp [hq]
  cases rest with
  | nil => simp only [EventLoop.loopFrom, if_neg hne, if_pos hq2]
  | cons r2 rest2 => simp only [EventLoop.loopFrom, if_neg hne, if_pos hq2]

/-- C18 at the sample loop: the first of two pending closures calls `quit()`;
the second is still called, the loop returns and the second result of
`epoll_wait` is not taken. -/
theorem quit_during_iteration_witness :
    sampleRun.loop.quit_ = false
    ∧ (EventLoop.passLoopCalls sampleEnv sampleRun sampleTimeout).any LoopCall.isQuit = true
    ∧ EventLoop.loopFrom sampleEnv [sampleTimeout, sampleTimeout] sampleRun
        = some (EventLoop.loopExit (EventLoop.iteration sampleEnv sampleRun sampleTimeout))
    ∧ (EventLoop.loopExit (EventLoop.iteration sampleEnv sampleRun sampleTimeout)).trace
        = [LoopEvent.polled [], LoopEvent.ran (EventLoop.Functor.other 7),
           LoopEvent.ran (EventLoop.Functor.other 8)] :=
  ⟨by decide, by decide,
   (quit_during_iteration sampleEnv sampleRun sampleTimeout [sampleTimeout]
      (by decide) (by decide)).1,
   by decide⟩

/-! ## Connection names -/

theorem digitChar_inj : ∀ d1 < 10, ∀ d2 < 10, digitChar d1 = digitChar d2 → d1 = d2 := by
  decide

theorem map_digitChar_inj (l1 l2 : List Nat) (h1 : ∀ d ∈ l1, d < 10) (h2 : ∀ d ∈ l2, d < 10)
    (h : l1.map digitChar = l2.map digitChar) : l1 = l2 := by
  induction l1 generalizing l2 with
  | nil =>
    cases l2 with
    | nil => rfl
    | cons b t => simp at h
  | cons a t ih =>
    cases l2 with
    | nil => simp at h
    | cons b t2 =>
      simp only [List.map_cons, List.cons.injEq] at h
      have hab := digitChar_inj a (h1 a (List.mem_cons_self _ _)) b
        (h2 b (List.mem_cons_self _ _)) h.1
      have := ih t2 (fun d hd => h1 d (List.mem_cons_of_mem _ hd))
        (fun d hd => h2 d (List.mem_cons_of_mem _ hd)) h.2
      rw [hab, this]

theorem fmtU_data_pos (n : Nat) (h : n ≠ 0) :
    (fmtU n).data = (Nat.digits 10 n).reverse.map digitChar := by
  simp [fmtU, h]

theorem digits_head_ne_zero (n : Nat) (h : n ≠ 0) :
    ∃ d t, (Nat.digits 10 n).reverse = d :: t ∧ d ≠ 0 := by
  have hne : Nat.digits 10 n ≠ [] := Nat.digits_ne_nil_iff_ne_zero.mpr h
  have hl := Nat.getLast_digit_ne_zero 10 h
  have hr : (Nat.digits 10 n).reverse ≠ [] := by simpa using hne
  cases hrev : (Nat.digits 10 n).reverse with
  | nil => exact absurd hrev hr
  | cons d t =>
    refine ⟨d, t, rfl, ?_⟩
    have : (Nat.digits 10 n).getLast hne = d := by
      have h2 := List.head_reverse hr
      rw [← h2]
      simp [hrev]
    rw [← this]
    exact hl

theorem fmtU_inj (n m : Nat) (h : fmtU n = fmtU m) : n = m := by
  have hd : (fmtU n).data = (fmtU m).data := by rw [h]
  have hlt : ∀ k d, d ∈ (Nat.digits 10 k).reverse → d < 10 := by
    intro k d hdm
    exact Nat.digits_lt_base (by norm_num) (List.mem_reverse.mp hdm)
  have hzero : ∀ k, k ≠ 0 → (fmtU 0).data ≠ (fmtU k).data := by
    intro k hk he
    rw [fmtU_data_pos k hk] at he
    obtain ⟨d, t, hrev, hd0⟩ := digits_head_ne_zero k hk
    rw [hrev] at he
    simp only [fmtU, if_true, List.map_cons, List.cons.injEq] at he
    have hd10 : d < 10 := hlt k d (by rw [hrev]; exact List.mem_cons_self _ _)
    have : (0 : Nat) = d := digitChar_inj 0 (by norm_num) d hd10 (by rw [← he.1]; rfl)
    exact hd0 this.symm
  by_cases hn : n = 0
  · by_cases hm : m = 0
    · rw [hn, hm]
    · rw [hn] at hd
      exact absurd hd (hzero m hm)
  · by_cases hm : m = 0
    · rw [hm] at hd
      exact absurd hd.symm (hzero n hn)
    · rw [fmtU_data_pos n hn, fmtU_data_pos m hm] at hd
      have := map_digitChar_inj _ _ (hlt n) (hlt m) hd
      exact Nat.digits_inj_iff.mp (List.reverse_injective this)

theorem fmtU_length (n k : Nat) (hk : 0 < k) (h : n < 10 ^ k) : (fmtU n).length ≤ k := by
  by_cases hn : n = 0
  · simp [fmtU, hn, String.length]
    omega
  · have hlen : (fmtU n).length = (Nat.digits 10 n).length := by
      simp [String.length, fmtU_data_pos n hn]
    rw [hlen]
    have h1 := Nat.base_pow_length_digits_le 10 n (by norm_num) hn
    have h2 : 10 ^ (Nat.digits 10 n).length < 10 ^ (k + 1) := by
      calc 10 ^ (Nat.digits 10 n).length ≤ 10 * n := h1
        _ < 10 * 10 ^ k := by omega
        _ = 10 ^ (k + 1) := by ring
    have := (Nat.pow_lt_pow_iff_right (by norm_num : 1 < 10)).mp h2
    omega

theorem toIpPort_length (a : InetAddress) : a.toIpPort.length ≤ 21 := by
  have hb : ∀ x : Nat, (fmtU (x % 256)).length ≤ 3 := fun x =>
    fmtU_length _ 3 (by norm_num) (by have := Nat.mod_lt x (by norm_num : 0 < 256); omega)
  have hp : (fmtU (ntohs a.sin_port)).length ≤ 5 := by
    apply fmtU_length _ 5 (by norm_num)
    unfold ntohs
    have h1 := Nat.mod_lt a.sin_port (by norm_num : 0 < 256)
    have h2 := Nat.mod_lt (a.sin_port / 256) (by norm_num : 0 < 256)
    omega
  have h0 := hb a.s_addr
  have h1 := hb (a.s_addr / 256)
  have h2 := hb (a.s_addr / 65536)
  have h3 := hb (a.s_addr / 16777216)
  have hdot : ".".length = 1 := rfl
  have hcol : ":".length = 1 := rfl
  simp only [InetAddress.toIpPort, inet_ntop, String.length_append, hdot, hcol]
  omega

theorem fmtD_nonneg (i : Int) (h : 0 ≤ i) : fmtD i = fmtU i.toNat := by
  unfold fmtD
  rw [if_neg (by omega)]

theorem string_mk_data (s : String) : String.mk s.data = s := rfl

/-- With an id between 1 and `INT_MAX` and the text of a listening address as
`ipPort_`, the 64-byte buffer does not truncate: the next connection is named
server name, "-", ip:port, "#", id in decimal. -/
theorem connName_eq (s : TcpServer) (h1 : 1 ≤ s.nextConnId_) (h2 : s.nextConnId_ ≤ INT_MAX)
    (hip : s.ipPort_.length ≤ 21) :
    s.connName = s.nameOf s.nextConnId_.toNat := by
  unfold TcpServer.connName TcpServer.nameOf snprintf
  simp only
  rw [fmtD_nonneg _ (by omega)]
  have hlen : (fmtU s.nextConnId_.toNat).length ≤ 10 := by
    apply fmtU_length _ 10 (by norm_num)
    unfold INT_MAX at h2
    omega
  have hd : "-".length = 1 := rfl
  have hh : "#".length = 1 := rfl
  have htot : ("-" ++ s.ipPort_ ++ "#" ++ fmtU s.nextConnId_.toNat).data.length ≤ 64 - 1 := by
    have : ("-" ++ s.ipPort_ ++ "#" ++ fmtU s.nextConnId_.toNat).length ≤ 63 := by
      simp only [String.length_append, hd, hh]
      omega
    exact this
  rw [List.take_of_length_le htot, string_mk_data]

theorem string_append_left_cancel (a b c : String) (h : a ++ b = a ++ c) : b = c := by
  have hd : (a ++ b).data = (a ++ c).data := by rw [h]
  rw [String.data_append, String.data_append] at hd
  have := List.append_cancel_left hd
  cases b; cases c
  simp only at this
  rw [this]

theorem nameOf_inj (s : TcpServer) (k1 k2 : Nat) (h : s.nameOf k1 = s.nameOf k2) : k1 = k2 := by
  unfold TcpServer.nameOf at h
  have h1 := string_append_left_cancel _ _ _ h
  have h2 := string_append_left_cancel _ _ _ h1
  exact fmtU_inj _ _ h2

theorem conn_find_none (m : ConnectionMap) (name : String)
    (h : name ∉ m.map Prod.fst) : m.find name = none := by
  induction m with
  | nil => rfl
  | cons e rest ih =>
    obtain ⟨k, v⟩ := e
    simp only [List.map_cons, List.mem_cons, not_or] at h
    simp only [ConnectionMap.find]
    rw [if_neg (fun hk => h.1 hk.symm)]
    exact ih h.2

theorem conn_find_assign (m : ConnectionMap) (name : String) (conn : Nat) :
    (m.assign name conn).find name = some conn := by
  induction m with
  | nil => simp [ConnectionMap.assign, ConnectionMap.find]
  | cons e rest ih =>
    obtain ⟨k, v⟩ := e
    by_cases h : k = name
    · simp [ConnectionMap.assign, ConnectionMap.find, h]
    · simp [ConnectionMap.assign, ConnectionMap.find, h, ih]

theorem conn_keys_assign (m : ConnectionMap) (name : String) (conn : Nat) (key : String)
    (h : key ∈ (m.assign name conn).map Prod.fst) :
    key ∈ m.map Prod.fst ∨ key = name := by
  induction m with
  | nil =>
    simp only [ConnectionMap.assign, List.map_cons, List.map_nil, List.mem_singleton] at h
    exact Or.inr h
  | cons e rest ih =>
    obtain ⟨k, v⟩ := e
    by_cases hk : k = name
    · simp only [ConnectionMap.assign, hk, if_true, List.map_cons, List.mem_cons] at h ⊢
      rcases h with h | h
      · exact Or.inr h
      · exact Or.inl (Or.inr h)
    · simp only [ConnectionMap.assign, hk, if_false, List.map_cons, List.mem_cons] at h ⊢
      rcases h with h | h
      · exact Or.inl (Or.inl h)
      · rcases ih h with h | h
        · exact Or.inl (Or.inr h)
        · exact Or.inr h

theorem conn_keys_erase (m : ConnectionMap) (name key : String)
    (h : key ∈ (m.erase name).map Prod.fst) : key ∈ m.map Prod.fst := by
  simp only [ConnectionMap.erase, List.mem_map, List.mem_filter] at h ⊢
  obtain ⟨e, ⟨he, _⟩, hk⟩ := h
  exact ⟨e, he, hk⟩

theorem newConnection_server (s : TcpServer) (a : Accepted) :
    (s.newConnection a).1 =
      { s with
        nextConnId_ := intIncr s.nextConnId_,
        connections_ := s.connections_.assign s.connName a.connAddr }
    ∧ (s.newConnection a).2.1.name_ = s.connName := by
  unfold TcpServer.newConnection
  simp only
  split
  · refine ⟨rfl, ?_⟩
    unfold TcpConnection.connectEstablished
    simp only
    split <;> rfl
  · exact ⟨rfl, rfl⟩

theorem step_fields (s : TcpServer) (st : ServerStep) :
    (s.step st).name_ = s.name_ ∧ (s.step st).ipPort_ = s.ipPort_
    ∧ (s.step st).nextConnId_ = (if st.isAccept then intIncr s.nextConnId_ else s.nextConnId_) := by
  cases st with
  | accept a =>
    have e : s.step (ServerStep.accept a) = (s.newConnection a).1 := rfl
    rw [e, (newConnection_server s a).1]
    exact ⟨rfl, rfl, rfl⟩
  | remove conn ioLoop tid =>
    exact ⟨rfl, rfl, rfl⟩

theorem nameOf_congr (s t : TcpServer) (hn : t.name_ = s.name_) (hi : t.ipPort_ = s.ipPort_)
    (k : Nat) : t.nameOf k = s.nameOf k := by
  simp [TcpServer.nameOf, hn, hi]

theorem steps_namesIssued (l : List ServerStep) (s : TcpServer) (h : s.namesIssued)
    (hb : s.nextConnId_ + Int.ofNat (l.countP ServerStep.isAccept) ≤ INT_MAX) :
    (s.steps l).namesIssued
    ∧ (s.steps l).nextConnId_ = s.nextConnId_ + Int.ofNat (l.countP ServerStep.isAccept)
    ∧ (s.steps l).name_ = s.name_ ∧ (s.steps l).ipPort_ = s.ipPort_ := by
  induction l generalizing s with
  | nil => simp [TcpServer.steps, h]
  | cons st rest ih =>
    obtain ⟨h1, h2, h3⟩ := h
    obtain ⟨f1, f2, f3⟩ := step_fields s st
    have hstep : (s.step st).namesIssued
        ∧ (s.step st).nextConnId_
            = s.nextConnId_ + Int.ofNat ([st].countP ServerStep.isAccept) := by
      cases st with
      | accept a =>
        simp only [ServerStep.isAccept, if_true] at f3
        simp only [List.countP_cons, ServerStep.isAccept, List.countP_nil, if_true,
          Int.ofNat_eq_coe] at hb ⊢
        have hlt : s.nextConnId_ < INT_MAX := by
          have : (0 : Int) ≤ ((List.countP ServerStep.isAccept rest : Nat) : Int) :=
            Int.ofNat_nonneg _
          push_cast at hb
          omega
        have hinc : intIncr s.nextConnId_ = s.nextConnId_ + 1 := by
          unfold intIncr
          rw [if_neg (by omega)]
        refine ⟨⟨?_, ?_, ?_⟩, ?_⟩
        · rw [f3, hinc]; omega
        · rw [f2]; exact h2
        · intro key hkey
          simp only [TcpServer.step, (newConnection_server s a).1] at hkey
          rcases conn_keys_assign _ _ _ _ hkey with hk | hk
          · obtain ⟨j, j1, j2, j3⟩ := h3 key hk
            refine ⟨j, j1, ?_, ?_⟩
            · rw [f3, hinc]; omega
            · rw [j3, nameOf_congr s _ f1 f2]
          · refine ⟨s.nextConnId_.toNat, by omega, ?_, ?_⟩
            · rw [f3, hinc]
              simp only [Int.ofNat_eq_coe]
              omega
            · rw [hk, connName_eq s h1 (by omega) h2, nameOf_congr s _ f1 f2]
        · rw [f3, hinc]
          simp
      | remove conn ioLoop tid =>
        simp only [ServerStep.isAccept, Bool.false_eq_true, if_false] at f3
        refine ⟨⟨by rw [f3]; exact h1, by rw [f2]; exact h2, ?_⟩, ?_⟩
        · intro key hkey
          have hk := conn_keys_erase _ _ _ hkey
          obtain ⟨j, j1, j2, j3⟩ := h3 key hk
          exact ⟨j, j1, by rw [f3]; exact j2, by rw [j3, nameOf_congr s _ f1 f2]⟩
        · rw [f3]
          simp [ServerStep.isAccept]
    have hb2 : (s.step st).nextConnId_ + Int.ofNat (rest.countP ServerStep.isAccept)
        ≤ INT_MAX := by
      rw [hstep.2]
      simp only [List.countP_cons, List.countP_nil, Int.ofNat_eq_coe] at hb ⊢
      push_cast at hb ⊢
      omega
    obtain ⟨i1, i2, i3, i4⟩ := ih (s.step st) hstep.1 hb2
    simp only [TcpServer.steps, List.foldl_cons] at i1 i2 i3 i4 ⊢
    refine ⟨i1, ?_, by rw [i3, f1], by rw [i4, f2]⟩
    rw [i2, hstep.2]
    simp only [List.countP_cons, List.countP_nil, Int.ofNat_eq_coe]
    push_cast
    omega

theorem conn_find_assign_ne (m : ConnectionMap) (name key : String) (conn : Nat)
    (h : key ≠ name) : (m.assign name conn).find key = m.find key := by
  induction m with
  | nil =>
    simp only [ConnectionMap.assign, ConnectionMap.find]
    rw [if_neg (fun e => h e.symm)]
  | cons e rest ih =>
    obtain ⟨k, v⟩ := e
    by_cases hk : k = name
    · have hkk : k ≠ key := fun e => h (e.symm.trans hk)
      simp only [ConnectionMap.assign, hk, if_true, ConnectionMap.find]
      rw [if_neg (fun e => h e.symm), if_neg (fun e => h e.symm)]
    · simp only [ConnectionMap.assign, hk, if_false, ConnectionMap.find, ih]

theorem ctor_namesIssued (addr : Nat) (listenAddr : InetAddress) (nameArg : String) :
    (TcpServer.ctor addr listenAddr nameArg).namesIssued := by
  refine ⟨by simp [TcpServer.ctor], toIpPort_length listenAddr, ?_⟩
  intro key hkey
  simp [TcpServer.ctor] at hkey

theorem fmtU_ne_minus (n m : Nat) : "-" ++ fmtU n ≠ fmtU m := by
  intro h
  have hd : ("-" ++ fmtU n).data = (fmtU m).data := by rw [h]
  rw [String.data_append] at hd
  by_cases hm : m = 0
  · subst hm
    have hl := congrArg List.length hd
    by_cases hn : n = 0
    · subst hn
      simp [fmtU] at hl
    · rw [fmtU_data_pos n hn] at hl
      have hpos : 0 < (Nat.digits 10 n).length :=
        List.length_pos.mpr (Nat.digits_ne_nil_iff_ne_zero.mpr hn)
      have h1 : (fmtU 0).data.length = 1 := rfl
      have h2 : "-".data.length = 1 := rfl
      rw [List.length_append, List.length_map, List.length_reverse, h1, h2] at hl
      omega
  · rw [fmtU_data_pos m hm] at hd
    have hne : (Nat.digits 10 m).reverse ≠ [] := by
      simpa using Nat.digits_ne_nil_iff_ne_zero.mpr hm
    obtain ⟨d, ds, hds⟩ := List.exists_cons_of_ne_nil hne
    have hdlt : d < 10 := by
      have : d ∈ Nat.digits 10 m := by
        have : d ∈ (Nat.digits 10 m).reverse := by rw [hds]; exact List.mem_cons_self _ _
        exact List.mem_reverse.mp this
      exact Nat.digits_lt_base (by norm_num) this
    rw [hds] at hd
    simp only [List.map_cons] at hd
    have hhead : '-' = digitChar d := by
      have := congrArg List.head? hd
      simpa using this
    have : ∀ e : Nat, e < 10 → '-' ≠ digitChar e := by decide
    exact this d hdlt hhead

theorem connName_wrapped (s : TcpServer) (h : s.nextConnId_ = INT_MIN)
    (hip : s.ipPort_.length ≤ 21) :
    s.connName = s.name_ ++ ("-" ++ s.ipPort_ ++ "#" ++ ("-" ++ fmtU 2147483648)) := by
  unfold TcpServer.connName snprintf
  simp only
  have hfd : fmtD s.nextConnId_ = "-" ++ fmtU 2147483648 := by
    rw [h]
    unfold fmtD INT_MIN
    rw [if_pos (by norm_num)]
    rfl
  rw [hfd]
  have hlen : (fmtU 2147483648).length ≤ 10 := fmtU_length _ 10 (by norm_num) (by norm_num)
  have hd : "-".length = 1 := rfl
  have hh : "#".length = 1 := rfl
  have htot : ("-" ++ s.ipPort_ ++ "#" ++ ("-" ++ fmtU 2147483648)).data.length ≤ 64 - 1 := by
    have : ("-" ++ s.ipPort_ ++ "#" ++ ("-" ++ fmtU 2147483648)).length ≤ 63 := by
      simp only [String.length_append, hd, hh]
      omega
    exact this
  rw [List.take_of_length_le htot, string_mk_data]

theorem steps_append (s : TcpServer) (l1 l2 : List ServerStep) :
    s.steps (l1 ++ l2) = (s.steps l1).steps l2 := by
  simp [TcpServer.steps, List.foldl_append]

theorem countP_replicate_accept (n : Nat) (a : Accepted) :
    (List.replicate n (ServerStep.accept a)).countP ServerStep.isAccept = n := by
  induction n with
  | zero => rfl
  | succ n ih =>
    rw [List.replicate_succ, List.countP_cons, ih]
    simp [ServerStep.isAccept]

theorem sampleServer_ipPort : sampleServer.ipPort_ = "127.0.0.1:8080" := by
  simp only [sampleServer, TcpServer.ctor, InetAddress.toIpPort, inet_ntop, ntohs, fmtU]
  norm_num
  decide

theorem fmtU_wrapped : fmtU 2147483648 = "2147483648" := by
  simp only [fmtU]
  norm_num
  decide

/-- C19 (counterexample): the 2147483648-th connection that `sampleServer`
accepts is not named with the decimal id 2147483648: the `int` counter has
wrapped and `%d` prints a negative number. -/
theorem newConnection_id_wraps :
    ((sampleServer.steps
        (List.replicate 2147483647 (ServerStep.accept sampleAccepted))).newConnection
          sampleAccepted).2.1.name_ = "srv-127.0.0.1:8080#-2147483648"
    ∧ ((sampleServer.steps
        (List.replicate 2147483647 (ServerStep.accept sampleAccepted))).newConnection
          sampleAccepted).2.1.name_
      ≠ sampleServer.name_ ++ ("-" ++ sampleServer.ipPort_ ++ "#" ++ fmtU 2147483648) := by
  have hsplit : List.replicate 2147483647 (ServerStep.accept sampleAccepted)
      = List.replicate 2147483646 (ServerStep.accept sampleAccepted)
        ++ [ServerStep.accept sampleAccepted] := by
    have : (2147483647 : Nat) = 2147483646 + 1 := rfl
    rw [this, List.replicate_succ']
  have hcnt := countP_replicate_accept 2147483646 sampleAccepted
  have hinv := steps_namesIssued (List.replicate 2147483646 (ServerStep.accept sampleAccepted))
    sampleServer (ctor_namesIssued _ _ _)
    (by
      rw [hcnt]
      have : sampleServer.nextConnId_ = 1 := rfl
      rw [this]
      unfold INT_MAX
      norm_num)
  obtain ⟨i1, i2, i3, i4⟩ := hinv
  rw [hcnt] at i2
  have hone : sampleServer.nextConnId_ = 1 := rfl
  rw [hone] at i2
  have hmax : (sampleServer.steps
      (List.replicate 2147483646 (ServerStep.accept sampleAccepted))).nextConnId_ = INT_MAX := by
    rw [i2]
    unfold INT_MAX
    norm_num
  obtain ⟨f1, f2, f3⟩ := step_fields
    (sampleServer.steps (List.replicate 2147483646 (ServerStep.accept sampleAccepted)))
    (ServerStep.accept sampleAccepted)
  have hstep : sampleServer.steps (List.replicate 2147483647 (ServerStep.accept sampleAccepted))
      = (sampleServer.steps
          (List.replicate 2147483646 (ServerStep.accept sampleAccepted))).step
            (ServerStep.accept sampleAccepted) := by
    rw [hsplit, steps_append]
    rfl
  have hmin : (sampleServer.steps
      (List.replicate 2147483647 (ServerStep.accept sampleAccepted))).nextConnId_ = INT_MIN := by
    rw [hstep, f3, hmax]
    simp [ServerStep.isAccept, intIncr]
  have hname : (sampleServer.steps
      (List.replicate 2147483647 (ServerStep.accept sampleAccepted))).name_
        = sampleServer.name_ := by
    rw [hstep, f1, i3]
  have hport : (sampleServer.steps
      (List.replicate 2147483647 (ServerStep.accept sampleAccepted))).ipPort_
        = sampleServer.ipPort_ := by
    rw [hstep, f2, i4]
  rw [(newConnection_server _ sampleAccepted).2,
    connName_wrapped _ hmin (by rw [hport]; exact (ctor_namesIssued _ _ _).2.1),
    hname, hport]
  refine ⟨?_, ?_⟩
  · rw [sampleServer_ipPort, fmtU_wrapped]
    decide
  · intro h
    have h1 := string_append_left_cancel _ _ _ h
    have h2 := string_append_left_cancel _ _ _ h1
    exact fmtU_ne_minus _ _ h2

/-- C19 (amended): on a server made by the constructor, after any accepts and
removals, the k-th accepted connection, for k up to 2147483647 (the largest
`int`), is named server name, "-", ip:port text, "#", k in decimal, and the
64-byte buffer holds that text whole; names of different numbers differ; the
registry had no entry under the new name, has the new connection under it
afterwards, and keeps every other entry as it was. -/
theorem newConnection_names (addr : Nat) (listenAddr : InetAddress) (nameArg : String)
    (l : List ServerStep) (a : Accepted) (k : Nat)
    (hk : k = l.countP ServerStep.isAccept + 1) (hmax : k ≤ 2147483647) :
    (((TcpServer.ctor addr listenAddr nameArg).steps l).newConnection a).2.1.name_
        = nameArg ++ ("-" ++ listenAddr.toIpPort ++ "#" ++ fmtU k)
    ∧ snprintf 64 ("-" ++ listenAddr.toIpPort ++ "#" ++ fmtD (Int.ofNat k))
        = "-" ++ listenAddr.toIpPort ++ "#" ++ fmtU k
    ∧ (∀ j : Nat, j ≠ k →
        nameArg ++ ("-" ++ listenAddr.toIpPort ++ "#" ++ fmtU j)
          ≠ nameArg ++ ("-" ++ listenAddr.toIpPort ++ "#" ++ fmtU k))
    ∧ ((TcpServer.ctor addr listenAddr nameArg).steps l).connections_.find
        (nameArg ++ ("-" ++ listenAddr.toIpPort ++ "#" ++ fmtU k)) = none
    ∧ (((TcpServer.ctor addr listenAddr nameArg).steps l).newConnection a).1.connections_.find
        (nameArg ++ ("-" ++ listenAddr.toIpPort ++ "#" ++ fmtU k)) = some a.connAddr
    ∧ ∀ key : String, key ≠ nameArg ++ ("-" ++ listenAddr.toIpPort ++ "#" ++ fmtU k) →
        (((TcpServer.ctor addr listenAddr nameArg).steps l).newConnection a).1.connections_.find
            key
          = ((TcpServer.ctor addr listenAddr nameArg).steps l).connections_.find key := by
  have hone : (TcpServer.ctor addr listenAddr nameArg).nextConnId_ = 1 := rfl
  have hnm : (TcpServer.ctor addr listenAddr nameArg).name_ = nameArg := rfl
  have hipp : (TcpServer.ctor addr listenAddr nameArg).ipPort_ = listenAddr.toIpPort := rfl
  have hb : (TcpServer.ctor addr listenAddr nameArg).nextConnId_
      + Int.ofNat (l.countP ServerStep.isAccept) ≤ INT_MAX := by
    rw [hone]
    unfold INT_MAX
    simp only [Int.ofNat_eq_coe]
    omega
  obtain ⟨i1, i2, i3, i4⟩ :=
    steps_namesIssued l (TcpServer.ctor addr listenAddr nameArg) (ctor_namesIssued _ _ _) hb
  rw [hone] at i2
  rw [hnm] at i3
  rw [hipp] at i4
  have hid : ((TcpServer.ctor addr listenAddr nameArg).steps l).nextConnId_ = Int.ofNat k := by
    rw [i2, hk]
    simp only [Int.ofNat_eq_coe]
    push_cast
    omega
  have hle : ((TcpServer.ctor addr listenAddr nameArg).steps l).nextConnId_ ≤ INT_MAX := by
    rw [hid]
    unfold INT_MAX
    simp only [Int.ofNat_eq_coe]
    omega
  have hname := connName_eq _ i1.1 hle i1.2.1
  have htn : ((TcpServer.ctor addr listenAddr nameArg).steps l).nextConnId_.toNat = k := by
    rw [hid]
    rfl
  rw [htn] at hname
  have hof : ((TcpServer.ctor addr listenAddr nameArg).steps l).nameOf k
      = nameArg ++ ("-" ++ listenAddr.toIpPort ++ "#" ++ fmtU k) := by
    unfold TcpServer.nameOf
    rw [i3, i4]
  rw [hof] at hname
  obtain ⟨n1, n2⟩ := newConnection_server ((TcpServer.ctor addr listenAddr nameArg).steps l) a
  have hbuf : snprintf 64 ("-" ++ listenAddr.toIpPort ++ "#" ++ fmtD (Int.ofNat k))
      = "-" ++ listenAddr.toIpPort ++ "#" ++ fmtU k := by
    have e := hname
    unfold TcpServer.connName at e
    simp only at e
    rw [i3, i4, hid] at e
    exact string_append_left_cancel _ _ _ e
  refine ⟨by rw [n2, hname], hbuf, ?_, ?_, ?_, ?_⟩
  · intro j hj e
    have h1 := string_append_left_cancel _ _ _ e
    have h2 := string_append_left_cancel _ _ _ h1
    exact hj (fmtU_inj _ _ h2)
  · apply conn_find_none
    intro hmem
    obtain ⟨j, _, j2, j3⟩ := i1.2.2 _ hmem
    have hjk : j = k := by
      have e : ((TcpServer.ctor addr listenAddr nameArg).steps l).nameOf k
          = ((TcpServer.ctor addr listenAddr nameArg).steps l).nameOf j := by
        rw [hof]; exact j3
      exact (nameOf_inj _ _ _ e).symm
    rw [hid, hjk] at j2
    exact absurd j2 (lt_irrefl _)
  · rw [n1]
    simp only
    rw [hname]
    exact conn_find_assign _ _ _
  · intro key hkey
    rw [n1]
    simp only
    rw [hname]
    exact conn_find_assign_ne _ _ _ _ hkey

theorem newConnection_names_witness :
    (2 = [ServerStep.accept sampleAccepted,
          ServerStep.remove sampleConn sampleLoop 1].countP ServerStep.isAccept + 1
      ∧ 2 ≤ 2147483647)
    ∧ (((TcpServer.ctor 500 { sin_port := 36895, s_addr := 16777343 } "srv").steps
          [ServerStep.accept sampleAccepted,
           ServerStep.remove sampleConn sampleLoop 1]).newConnection sampleAccepted).2.1.name_
        = "srv" ++ ("-" ++ InetAddress.toIpPort { sin_port := 36895, s_addr := 16777343 }
            ++ "#" ++ fmtU 2) :=
  ⟨⟨rfl, by decide⟩,
   (newConnection_names 500 { sin_port := 36895, s_addr := 16777343 } "srv"
      [ServerStep.accept sampleAccepted, ServerStep.remove sampleConn sampleLoop 1]
      sampleAccepted 2 rfl (by decide)).1⟩

/-! ## handleWrite -/

theorem retrieve_readable (b : Buffer) (len : Nat) :
    (b.retrieve len).readableBytes = b.readableBytes - len := by
  unfold Buffer.retrieve
  split
  · simp only [Buffer.readableBytes]
    omega
  · rename_i h
    simp only [Buffer.retrieveAll, Buffer.readableBytes] at h ⊢
    omega

theorem shutdownInLoop_not_writing (c : TcpConnection) (h : c.channel_.isWriting = false) :
    c.shutdownInLoop = [Effect.shutdownWr c.socket_.sockfd_] := by
  simp [TcpConnection.shutdownInLoop, h, Socket.shutdownWrite]

theorem queueInLoop_poller (loop : EventLoop) (tid : Int) (cb : EventLoop.Functor) :
    (loop.queueInLoop tid cb).poller_ = loop.poller_ := by
  unfold EventLoop.queueInLoop
  simp only
  split <;> rfl

/-- `handleWrite` on a write-interested channel when the write takes a
positive number of bytes and readable bytes are left. -/
theorem handleWrite_bytes_left (c : TcpConnection) (loop : EventLoop) (tid : Int) (w : SysRet)
    (hw : c.channel_.isWriting = true) (hn : 0 < w.ret)
    (hleft : c.outputBuffer_.readableBytes - w.ret.toNat ≠ 0) :
    c.handleWrite loop tid w
      = ({ c with outputBuffer_ := c.outputBuffer_.retrieve w.ret.toNat }, loop,
          [Effect.write c.channel_.fd_ c.outputBuffer_.peek]) := by
  unfold TcpConnection.handleWrite
  simp only [Buffer.writeFd]
  rw [if_pos hw, if_pos hn]
  have hz : ((c.outputBuffer_.retrieve w.ret.toNat).readableBytes == 0) = false := by
    rw [retrieve_readable]
    simpa using hleft
  rw [hz]
  rfl

/-- `handleWrite` on a write-interested channel when the write empties the
output buffer. -/
theorem handleWrite_drained (c : TcpConnection) (loop : EventLoop) (tid : Int) (w : SysRet)
    (hw : c.channel_.isWriting = true) (hn : 0 < w.ret)
    (hleft : c.outputBuffer_.readableBytes - w.ret.toNat = 0) :
    c.handleWrite loop tid w
      = ({ c with
            outputBuffer_ := c.outputBuffer_.retrieve w.ret.toNat,
            channel_ := (c.channel_.disableWriting loop).2 },
          (match c.writeCompleteCallback_ with
            | some cb =>
              (c.channel_.disableWriting loop).1.queueInLoop tid
                (EventLoop.Functor.writeComplete cb c.addr)
            | none => (c.channel_.disableWriting loop).1),
          [Effect.write c.channel_.fd_ c.outputBuffer_.peek] ++
            (if c.state_ = StateE.kDisconnecting then [Effect.shutdownWr c.socket_.sockfd_]
             else [])) := by
  unfold TcpConnection.handleWrite
  simp only [Buffer.writeFd]
  rw [if_pos hw, if_pos hn]
  have hz : ((c.outputBuffer_.retrieve w.ret.toNat).readableBytes == 0) = true := by
    rw [retrieve_readable]
    simpa using hleft
  rw [hz]
  simp only [if_true]
  have hs := shutdownInLoop_not_writing
    ({ c with
        outputBuffer_ := c.outputBuffer_.retrieve w.ret.toNat,
        channel_ := (c.channel_.disableWriting loop).2 } : TcpConnection)
    (disableWriting_isWriting _ _)
  by_cases hd : c.state_ = StateE.kDisconnecting
  · rw [if_pos hd, if_pos hd, hs]
  · rw [if_neg hd, if_neg hd]
    rfl

/-- C21: `handleWrite` by the channel's write interest and the result `n` of
the write.  Not write-interested: nothing changes and nothing is called.
Write-interested and `n ≤ 0`: the write was made, connection (buffer, interest,
state) and loop are unchanged.  Write-interested and `0 < n ≤ readable`: the
readable bytes shrink by exactly `n` and the state stays; if bytes are left,
channel and loop are unchanged and only the write was made; if none are left,
the channel went through `disableWriting` (it is no longer write-interested),
the write-complete callback, if registered, was put in the queue once (and
nothing else), and `shutdown(WR)` is called exactly when the state is
Disconnecting. -/
theorem handleWrite_by_result (c : TcpConnection) (loop : EventLoop) (tid : Int) (w : SysRet) :
    (c.channel_.isWriting = false → c.handleWrite loop tid w = (c, loop, []))
    ∧ (c.channel_.isWriting = true → w.ret ≤ 0 →
        c.handleWrite loop tid w
          = (c, loop, [Effect.write c.channel_.fd_ c.outputBuffer_.peek]))
    ∧ (c.channel_.isWriting = true → 0 < w.ret →
        w.ret ≤ Int.ofNat c.outputBuffer_.readableBytes →
        (c.handleWrite loop tid w).1.outputBuffer_.readableBytes + w.ret.toNat
            = c.outputBuffer_.readableBytes
        ∧ (c.handleWrite loop tid w).1.state_ = c.state_
        ∧ ((c.handleWrite loop tid w).1.outputBuffer_.readableBytes ≠ 0 →
            (c.handleWrite loop tid w).1.channel_ = c.channel_
            ∧ (c.handleWrite loop tid w).2.1 = loop
            ∧ (c.handleWrite loop tid w).2.2
                = [Effect.write c.channel_.fd_ c.outputBuffer_.peek])
        ∧ ((c.handleWrite loop tid w).1.outputBuffer_.readableBytes = 0 →
            (c.handleWrite loop tid w).1.channel_ = (c.channel_.disableWriting loop).2
            ∧ (c.handleWrite loop tid w).1.channel_.isWriting = false
            ∧ (c.handleWrite loop tid w).1.channel_.events_
                = c.channel_.events_ &&& bitNot kWriteEvent
            ∧ (c.handleWrite loop tid w).2.1.poller_ = (c.channel_.disableWriting loop).1.poller_
            ∧ (c.handleWrite loop tid w).2.1.pendingFunctors_
                = loop.pendingFunctors_ ++
                  (match c.writeCompleteCallback_ with
                    | some cb => [EventLoop.Functor.writeComplete cb c.addr]
                    | none => [])
            ∧ (c.handleWrite loop tid w).2.2
                = [Effect.write c.channel_.fd_ c.outputBuffer_.peek] ++
                  (if c.state_ = StateE.kDisconnecting then
                    [Effect.shutdownWr c.socket_.sockfd_]
                   else []))) := by
  refine ⟨?_, ?_, ?_⟩
  · intro hw
    unfold TcpConnection.handleWrite
    simp [hw]
  · intro hw hn
    unfold TcpConnection.handleWrite
    simp only [Buffer.writeFd]
    rw [if_pos hw, if_neg (by omega)]
  · intro hw hn hle
    have hle2 : w.ret.toNat ≤ c.outputBuffer_.readableBytes := by
      simp only [Int.ofNat_eq_coe] at hle
      omega
    have hr := retrieve_readable c.outputBuffer_ w.ret.toNat
    by_cases hleft : c.outputBuffer_.readableBytes - w.ret.toNat = 0
    · rw [handleWrite_drained c loop tid w hw hn hleft]
      refine ⟨?_, rfl, ?_, ?_⟩
      · show (c.outputBuffer_.retrieve w.ret.toNat).readableBytes + w.ret.toNat = _
        omega
      · intro h
        exfalso
        apply h
        show (c.outputBuffer_.retrieve w.ret.toNat).readableBytes = 0
        omega
      · intro _
        refine ⟨rfl, disableWriting_isWriting _ _, ?_, ?_, ?_, rfl⟩
        · show (c.channel_.disableWriting loop).2.events_ = _
          unfold Channel.disableWriting
          rw [channel_update_events]
        · cases c.writeCompleteCallback_ with
          | none => rfl
          | some cb => exact queueInLoop_poller _ _ _
        · cases c.writeCompleteCallback_ with
          | none =>
            show (c.channel_.disableWriting loop).1.pendingFunctors_ = _
            simp [Channel.disableWriting, channel_update_pending]
          | some cb =>
            show ((c.channel_.disableWriting loop).1.queueInLoop tid _).pendingFunctors_ = _
            rw [queueInLoop_pending]
            rfl
    · rw [handleWrite_bytes_left c loop tid w hw hn hleft]
      refine ⟨?_, rfl, fun _ => ⟨rfl, rfl, rfl⟩, ?_⟩
      · show (c.outputBuffer_.retrieve w.ret.toNat).readableBytes + w.ret.toNat = _
        omega
      · intro h
        exfalso
        apply hleft
        have h2 : (c.outputBuffer_.retrieve w.ret.toNat).readableBytes = 0 := h
        omega

/-- `handleWrite` at the sample connection with three bytes pending and in
state Disconnecting: a write that takes all three empties the buffer, ends the
write interest, queues the write-complete callback and shuts the write
direction down. -/
theorem handleWrite_sample :
    ((fireAll sampleHalfClose sampleEstablished).1.handleWrite
        (fireAll sampleHalfClose sampleEstablished).2 1 { ret := 3, errno := 0 }).1.outputBuffer_.readableBytes
      = 0
    ∧ ((fireAll sampleHalfClose sampleEstablished).1.handleWrite
        (fireAll sampleHalfClose sampleEstablished).2 1 { ret := 3, errno := 0 }).1.channel_.isWriting
      = false
    ∧ ((fireAll sampleHalfClose sampleEstablished).1.handleWrite
        (fireAll sampleHalfClose sampleEstablished).2 1 { ret := 3, errno := 0 }).2.1.pendingFunctors_
      = [EventLoop.Functor.writeComplete 3 200]
    ∧ ((fireAll sampleHalfClose sampleEstablished).1.handleWrite
        (fireAll sampleHalfClose sampleEstablished).2 1 { ret := 3, errno := 0 }).2.2
      = [Effect.write 5 [1, 2, 3], Effect.shutdownWr 5] := by
  decide

/-! ## handleClose and handleRead -/

theorem disableAll_events (ch : Channel) (loop : EventLoop) :
    (ch.disableAll loop).2.events_ = kNoneEvent := by
  unfold Channel.disableAll
  rw [channel_update_events]

/-- C22: `handleClose` with the connection callback and the close hook set.
It invokes the connection callback and then the close hook, each once, both
with this connection, and the connection callback sees `connected()` false.
Each of the two finds the connection as `handleClose` leaves it: in state
Disconnected and with an empty interest mask, so both were set before any
callback ran. -/
theorem handleClose_order (c : TcpConnection) (loop : EventLoop) (cb hook : Nat)
    (hcb : c.connectionCallback_ = some cb) (hhook : c.closeCallback_ = some hook) :
    (c.handleClose loop).2.2
        = [Effect.connectionCallback cb c.addr false, Effect.closeCallback hook c.addr]
    ∧ (c.handleCloseSeen loop).map Prod.fst = (c.handleClose loop).2.2
    ∧ (∀ e, e ∈ c.handleCloseSeen loop →
        e.2 = (c.handleClose loop).1
        ∧ e.2.state_ = StateE.kDisconnected
        ∧ e.2.channel_.events_ = kNoneEvent
        ∧ e.2.connected = false)
    ∧ (c.handleClose loop).1.state_ = StateE.kDisconnected
    ∧ (c.handleClose loop).1.channel_.events_ = kNoneEvent
    ∧ (c.handleClose loop).1.channel_.fd_ = c.channel_.fd_
    ∧ (c.handleClose loop).2.1 = ((c.setState StateE.kDisconnected).channel_.disableAll loop).1 := by
  have e1 : c.handleClose loop
      = ({ c.setState StateE.kDisconnected with
            channel_ := ((c.setState StateE.kDisconnected).channel_.disableAll loop).2 },
          ((c.setState StateE.kDisconnected).channel_.disableAll loop).1,
          [Effect.connectionCallback cb c.addr false, Effect.closeCallback hook c.addr]) := by
    unfold TcpConnection.handleClose
    simp [TcpConnection.setState, hcb, hhook, TcpConnection.connected]
  have e2 : c.handleCloseSeen loop
      = [(Effect.connectionCallback cb c.addr false,
            { c.setState StateE.kDisconnected with
              channel_ := ((c.setState StateE.kDisconnected).channel_.disableAll loop).2 }),
         (Effect.closeCallback hook c.addr,
            { c.setState StateE.kDisconnected with
              channel_ := ((c.setState StateE.kDisconnected).channel_.disableAll loop).2 })] := by
    unfold TcpConnection.handleCloseSeen
    simp [TcpConnection.setState, hcb, hhook, TcpConnection.connected]
  have hev := disableAll_events (c.setState StateE.kDisconnected).channel_ loop
  have hfd : ((c.setState StateE.kDisconnected).channel_.disableAll loop).2.fd_
      = c.channel_.fd_ := by
    unfold Channel.disableAll Channel.update EventLoop.updateChannel EPollPoller.updateChannel
    simp only [TcpConnection.setState]
    split
    · rfl
    · split <;> rfl
  rw [e1, e2]
  refine ⟨rfl, rfl, ?_, rfl, hev, hfd, rfl⟩
  intro e he
  simp only [List.mem_cons, List.mem_singleton, List.not_mem_nil, or_false] at he
  rcases he with he | he
  · rw [he]
    exact ⟨rfl, rfl, hev, rfl⟩
  · rw [he]
    exact ⟨rfl, rfl, hev, rfl⟩

/-- C22 at the established sample connection. -/
theorem handleClose_order_witness :
    (sampleEstablished.1.connectionCallback_ = some 1
      ∧ sampleEstablished.1.closeCallback_ = some 4)
    ∧ (sampleEstablished.1.handleClose sampleEstablished.2).2.2
        = [Effect.connectionCallback 1 sampleEstablished.1.addr false,
           Effect.closeCallback 4 sampleEstablished.1.addr] :=
  ⟨⟨by decide, by decide⟩,
   (handleClose_order sampleEstablished.1 sampleEstablished.2 1 4 (by decide) (by decide)).1⟩

theorem retrieve_wf (b : Buffer) (len : Nat) (h : b.wf) : (b.retrieve len).wf := by
  obtain ⟨h1, h2, h3⟩ := h
  unfold Buffer.retrieve
  split
  · rename_i hlt
    simp only [Buffer.readableBytes] at hlt
    exact ⟨by simp only; omega, by simp only; omega, h3⟩
  · exact ⟨le_refl _, le_refl _, by simp only [Buffer.retrieveAll]; omega⟩

/-- What `sendInLoop` does when the condition of TcpConnection.cc:83 is
false and the state is not Disconnected: no call is made, `data` goes to the
output buffer whole, and at most the high-water-mark callback is queued. -/
theorem sendInLoop_skip (c : TcpConnection) (loop : EventLoop) (tid : Int)
    (data : List Byte) (w : SysRet)
    (h : (c.channel_.isWriting && c.outputBuffer_.readableBytes == 0) = false)
    (hs : c.state_ ≠ StateE.kDisconnected) :
    (c.sendInLoop loop tid data w).2.2 = []
    ∧ (c.sendInLoop loop tid data w).1.outputBuffer_
        = (if data.length > 0 then c.outputBuffer_.append data else c.outputBuffer_)
    ∧ ∃ extra, (c.sendInLoop loop tid data w).2.1.pendingFunctors_
          = loop.pendingFunctors_ ++ extra
        ∧ ∀ f, f ∈ extra → f.isWriteComplete = false := by
  have hskip := sendInLoopDirect_skip c loop tid data w h
  unfold TcpConnection.sendInLoop
  rw [if_neg hs, hskip]
  simp only [Bool.not_false, Bool.true_and, Int.toNat_zero, List.drop_zero, List.take_length]
  by_cases hlen : data.length > 0
  · simp only [hlen, decide_True, if_true]
    have hq : ∃ extra,
        (if (c.outputBuffer_.readableBytes + data.length) % SIZE_MOD ≥ c.highWaterMark_
              ∧ c.outputBuffer_.readableBytes < c.highWaterMark_ then
            match c.highWaterMarkCallback_ with
            | some cb =>
              loop.queueInLoop tid
                (EventLoop.Functor.highWaterMark cb c.addr
                  ((c.outputBuffer_.readableBytes + data.length) % SIZE_MOD))
            | none => loop
          else loop).pendingFunctors_ = loop.pendingFunctors_ ++ extra
        ∧ ∀ f, f ∈ extra → f.isWriteComplete = false := by
      split
      · cases c.highWaterMarkCallback_ with
        | none => exact ⟨[], by simp, by simp⟩
        | some cb =>
          refine ⟨[EventLoop.Functor.highWaterMark cb c.addr
            ((c.outputBuffer_.readableBytes + data.length) % SIZE_MOD)], ?_, ?_⟩
          · simp only [queueInLoop_pending]
          · intro f hf
            simp only [List.mem_singleton] at hf
            rw [hf]
            rfl
      · exact ⟨[], by simp, by simp⟩
    split
    · exact ⟨rfl, rfl, hq⟩
    · exact ⟨rfl, rfl, hq⟩
  · simp only [hlen, decide_False, if_false]
    exact ⟨rfl, rfl, [], by simp, by simp⟩

theorem sendInLoop_out_wf (c : TcpConnection) (loop : EventLoop) (tid : Int)
    (data : List Byte) (w : SysRet) (h : c.outputBuffer_.wf) :
    (c.sendInLoop loop tid data w).1.outputBuffer_.wf := by
  unfold TcpConnection.sendInLoop
  split
  · exact h
  · simp only
    split
    · split
      · exact (append_wf _ _ h).1
      · exact (append_wf _ _ h).1
    · exact h

theorem handleWrite_out_wf (c : TcpConnection) (loop : EventLoop) (tid : Int) (w : SysRet)
    (h : c.outputBuffer_.wf) :
    (c.handleWrite loop tid w).1.outputBuffer_.wf := by
  unfold TcpConnection.handleWrite
  simp only
  split
  · split
    · split
      · split
        · exact retrieve_wf _ _ h
        · exact retrieve_wf _ _ h
      · exact retrieve_wf _ _ h
    · exact h
  · exact h

theorem shutdown_out (c : TcpConnection) (loop : EventLoop) (tid : Int) :
    (c.shutdown loop tid).1.outputBuffer_ = c.outputBuffer_ := by
  unfold TcpConnection.shutdown
  split
  · simp only [TcpConnection.setState]
    split <;> rfl
  · rfl

theorem runSteps_out_wf (steps : List ConnStep) (st : TcpConnection × EventLoop)
    (h : st.1.outputBuffer_.wf) : (runSteps steps st).1.outputBuffer_.wf := by
  induction steps generalizing st with
  | nil => exact h
  | cons s rest ih =>
    simp only [runSteps, List.foldl_cons]
    apply ih
    cases s with
    | sendInLoop tid data w => exact sendInLoop_out_wf _ _ _ _ _ h
    | handleWrite tid w => exact handleWrite_out_wf _ _ _ _ h
    | shutdown tid =>
      simp only [ConnStep.run]
      rw [shutdown_out]
      exact h
    | shutdownInLoop => exact h

theorem connectEstablished_out (c : TcpConnection) (loop : EventLoop) :
    (c.connectEstablished loop).1.outputBuffer_ = c.outputBuffer_ := by
  unfold TcpConnection.connectEstablished
  simp only [TcpConnection.setState]
  split <;> rfl

/-- C27: a connection whose channel has no interest yet and whose output
buffer is empty and well-formed goes through `connectEstablished` and any
sequence of `sendInLoop` and `handleWrite` steps (`shutdown` steps may be
interleaved).  In the state reached it is not Disconnected, and a `sendInLoop`
there makes no call at all, so no direct write; if `len > 0` all bytes of
`data` are appended to the output buffer and the channel is write-interested
afterwards; whatever it puts in the loop's queue is not a write-complete
callback. -/
theorem sendInLoop_never_writes (c0 : TcpConnection) (loop0 : EventLoop)
    (steps : List ConnStep) (tid : Int) (data : List Byte) (w : SysRet)
    (hch : c0.channel_.events_ = 0)
    (hbuf : c0.outputBuffer_.readerIndex_ = c0.outputBuffer_.writerIndex_)
    (hwf : c0.outputBuffer_.wf) :
    (runSteps steps (c0.established loop0)).1.state_ ≠ StateE.kDisconnected
    ∧ ((runSteps steps (c0.established loop0)).1.sendInLoop
          (runSteps steps (c0.established loop0)).2 tid data w).2.2 = []
    ∧ (0 < data.length →
        ((runSteps steps (c0.established loop0)).1.sendInLoop
            (runSteps steps (c0.established loop0)).2 tid data w).1.outputBuffer_.peek
          = (runSteps steps (c0.established loop0)).1.outputBuffer_.peek ++ data
        ∧ ((runSteps steps (c0.established loop0)).1.sendInLoop
            (runSteps steps (c0.established loop0)).2 tid data w).1.channel_.isWriting = true)
    ∧ ∃ extra,
        ((runSteps steps (c0.established loop0)).1.sendInLoop
            (runSteps steps (c0.established loop0)).2 tid data w).2.1.pendingFunctors_
          = (runSteps steps (c0.established loop0)).2.pendingFunctors_ ++ extra
        ∧ ∀ f, f ∈ extra → f.isWriteComplete = false := by
  have h0 := connectEstablished_inv c0 loop0 hch hbuf
  have hinv := runSteps_inv steps (c0.established loop0) ⟨Or.inl h0.1, h0.2⟩
  have hwf0 : (c0.established loop0).1.outputBuffer_.wf := by
    show (c0.connectEstablished loop0).1.outputBuffer_.wf
    rw [connectEstablished_out]
    exact hwf
  have hwfr := runSteps_out_wf steps (c0.established loop0) hwf0
  have hs : (runSteps steps (c0.established loop0)).1.state_ ≠ StateE.kDisconnected := by
    rcases hinv.1 with h | h <;> rw [h] <;> decide
  obtain ⟨e1, e2, e3⟩ := sendInLoop_skip (runSteps steps (c0.established loop0)).1
    (runSteps steps (c0.established loop0)).2 tid data w (inv_direct_cond _ hinv.2) hs
  refine ⟨hs, e1, ?_, e3⟩
  intro hlen
  have hafter := sendInLoop_inv (runSteps steps (c0.established loop0)).1
    (runSteps steps (c0.established loop0)).2 tid data w hinv.2
  rw [e2, if_pos hlen]
  have ha := append_wf (runSteps steps (c0.established loop0)).1.outputBuffer_ data hwfr
  refine ⟨ha.2, ?_⟩
  apply hafter.2.mpr
  rw [e2, if_pos hlen, ← peek_length _ ha.1, ha.2, List.length_append]
  omega

/-- C27 at the sample connection after the two sample steps, for two more
bytes. -/
theorem sendInLoop_never_writes_witness :
    (sampleConn.channel_.events_ = 0
      ∧ sampleConn.outputBuffer_.readerIndex_ = sampleConn.outputBuffer_.writerIndex_
      ∧ sampleConn.outputBuffer_.wf)
    ∧ ((runSteps sampleSteps (sampleConn.established sampleLoop)).1.sendInLoop
          (runSteps sampleSteps (sampleConn.established sampleLoop)).2 1 [4, 5]
          { ret := 2, errno := 0 }).2.2 = [] :=
  ⟨⟨by decide, by decide, ctor_wf 16⟩,
   (sendInLoop_never_writes sampleConn sampleLoop sampleSteps 1 [4, 5] { ret := 2, errno := 0 }
      (by decide) (by decide) (ctor_wf 16)).2.1⟩

/-! ## The event list of the poller -/

theorem update_eventsSize (p : EPollPoller) (op : EpollOp) (ch : Channel) :
    (p.update op ch).eventsSize = p.eventsSize := by
  unfold EPollPoller.update
  simp only
  split
  · rfl
  · split <;> rfl

theorem updateChannel_eventsSize (p : EPollPoller) (ch : Channel) :
    (p.updateChannel ch).1.eventsSize = p.eventsSize := by
  unfold EPollPoller.updateChannel
  simp only
  split
  · rw [update_eventsSize]
    split <;> rfl
  · split
    · exact update_eventsSize _ _ _
    · exact update_eventsSize _ _ _

theorem removeChannel_eventsSize (p : EPollPoller) (ch : Channel) :
    (p.removeChannel ch).1.eventsSize = p.eventsSize := by
  unfold EPollPoller.removeChannel
  simp only
  split
  · exact update_eventsSize _ _ _
  · rfl

/-- The poller after `poll`: only the size of the event list can differ. -/
theorem poll_poller (p : EPollPoller) (r : EpollWait) (chans : Nat → Channel)
    (act : List Nat) :
    (p.poll r chans act).1
      = { p with eventsSize :=
            if 0 < r.numEvents ∧ r.numEvents = Int.ofNat p.eventsSize then p.eventsSize * 2
            else p.eventsSize } := by
  unfold EPollPoller.poll
  simp only
  by_cases hn : r.numEvents > 0
  · rw [if_pos hn]
    simp only
    by_cases he : r.numEvents.toNat = p.eventsSize
    · have he2 : r.numEvents = Int.ofNat p.eventsSize := by
        simp only [Int.ofNat_eq_coe]
        omega
      rw [if_pos he, if_pos ⟨hn, he2⟩]
    · have he2 : ¬ (0 < r.numEvents ∧ r.numEvents = Int.ofNat p.eventsSize) := by
        rintro ⟨_, h⟩
        apply he
        rw [h]
        rfl
      rw [if_neg he, if_neg he2]
  · rw [if_neg hn, if_neg (fun h => hn h.1)]

theorem step_eventsSize (w : PollerWorld) (call : PollerCall) :
    (w.step call).poller.eventsSize = w.poller.eventsSize
    ∨ (w.step call).poller.eventsSize = w.poller.eventsSize * 2 := by
  cases call with
  | updateChannel a events => exact Or.inl (updateChannel_eventsSize _ _)
  | removeChannel a => exact Or.inl (removeChannel_eventsSize _ _)
  | poll r =>
    simp only [PollerWorld.step, poll_poller]
    split
    · exact Or.inr rfl
    · exact Or.inl rfl

theorem run_eventsSize (calls : List PollerCall) (w : PollerWorld) :
    ∃ k, (w.run calls).poller.eventsSize = w.poller.eventsSize * 2 ^ k := by
  induction calls generalizing w with
  | nil => exact ⟨0, by simp [PollerWorld.run]⟩
  | cons c rest ih =>
    obtain ⟨k, hk⟩ := ih (w.step c)
    simp only [PollerWorld.run, List.foldl_cons] at hk ⊢
    rcases step_eventsSize w c with h | h
    · exact ⟨k, by rw [hk, h]⟩
    · exact ⟨k + 1, by rw [hk, h, pow_succ]; ring⟩

/-- C24: the event list of the poller.  It has 16 slots after construction.
A `poll` whose `epoll_wait` reports `numEvents > 0` doubles its size if
`numEvents` equals the size before the call and leaves it otherwise; a timeout
(`numEvents = 0`) and an error (`numEvents < 0`) leave it.  `updateChannel`
and `removeChannel` leave it.  Hence after any sequence of calls on a fresh
poller the size is `16 * 2 ^ k` for some `k`, and no sequence of calls makes
it smaller. -/
theorem eventsSize_growth :
    EPollPoller.ctor.eventsSize = 16
    ∧ (∀ (p : EPollPoller) (r : EpollWait) (chans : Nat → Channel) (act : List Nat),
        (0 < r.numEvents → r.numEvents = Int.ofNat p.eventsSize →
          (p.poll r chans act).1.eventsSize = p.eventsSize * 2)
        ∧ (0 < r.numEvents → r.numEvents ≠ Int.ofNat p.eventsSize →
          (p.poll r chans act).1.eventsSize = p.eventsSize)
        ∧ (r.numEvents ≤ 0 → (p.poll r chans act).1.eventsSize = p.eventsSize))
    ∧ (∀ (p : EPollPoller) (ch : Channel),
        (p.updateChannel ch).1.eventsSize = p.eventsSize
        ∧ (p.removeChannel ch).1.eventsSize = p.eventsSize)
    ∧ (∀ (chans : Nat → Channel) (calls : List PollerCall),
        ∃ k, ((PollerWorld.fresh chans).run calls).poller.eventsSize = 16 * 2 ^ k)
    ∧ (∀ (w : PollerWorld) (calls : List PollerCall),
        w.poller.eventsSize ≤ (w.run calls).poller.eventsSize) := by
  refine ⟨rfl, ?_, ?_, ?_, ?_⟩
  · intro p r chans act
    rw [poll_poller]
    refine ⟨?_, ?_, ?_⟩
    · intro h1 h2
      simp only
      rw [if_pos ⟨h1, h2⟩]
    · intro h1 h2
      simp only
      rw [if_neg (fun h => h2 h.2)]
    · intro h1
      simp only
      rw [if_neg (fun h => by omega)]
  · intro p ch
    exact ⟨updateChannel_eventsSize p ch, removeChannel_eventsSize p ch⟩
  · intro chans calls
    exact run_eventsSize calls (PollerWorld.fresh chans)
  · intro w calls
    obtain ⟨k, hk⟩ := run_eventsSize calls w
    rw [hk]
    exact Nat.le_mul_of_pos_right _ (Nat.pos_pow_of_pos k (by norm_num))

/-- The sample calls on fresh sample channels end with a poll that fills the
16 slots: the event list then has 32. -/
theorem eventsSize_sample :
    ((PollerWorld.fresh sampleChans).run sampleCalls).poller.eventsSize = 32 := by
  decide

/-! ## The registry and the kernel's interest list over a run of calls -/

theorem registered_append (l : List EpollItem) (it : EpollItem) (fd : Int) :
    registered (l ++ [it]) fd = (registered l fd || it.fd == fd) := by
  simp [registered]

theorem registered_mod (l : List EpollItem) (fd0 : Int) (events ptr : Nat) (fd : Int) :
    registered (l.map (fun it =>
        if it.fd = fd0 then ({ fd := fd0, events := events, ptr := ptr } : EpollItem) else it)) fd
      = registered l fd := by
  induction l with
  | nil => rfl
  | cons it rest ih =>
    simp only [registered, List.map_cons, List.any_cons] at ih ⊢
    rw [ih]
    by_cases h : it.fd = fd0
    · simp [h]
    · simp [h]

theorem registered_del (l : List EpollItem) (fd0 fd : Int) :
    registered (l.filter (fun it => it.fd != fd0)) fd = (registered l fd && fd != fd0) := by
  rw [Bool.eq_iff_iff]
  simp only [registered, List.any_eq_true, List.mem_filter, Bool.and_eq_true, bne_iff_ne,
    beq_iff_eq, ne_eq]
  constructor
  · rintro ⟨it, ⟨hm, hne⟩, he⟩
    exact ⟨⟨it, hm, he⟩, by rw [← he]; exact hne⟩
  · rintro ⟨⟨it, hm, he⟩, hne⟩
    exact ⟨it, ⟨hm, by rw [he]; exact hne⟩, he⟩

theorem update_add (p : EPollPoller) (ch : Channel)
    (h : registered p.interest ch.fd_ = false) :
    (p.update EpollOp.EPOLL_CTL_ADD ch).fatal = p.fatal
    ∧ ∀ fd, registered (p.update EpollOp.EPOLL_CTL_ADD ch).interest fd
        = (registered p.interest fd || ch.fd_ == fd) := by
  have e : p.update EpollOp.EPOLL_CTL_ADD ch
      = { p with
          ctlCalls := p.ctlCalls ++ [{ op := EpollOp.EPOLL_CTL_ADD, fd := ch.fd_,
                                       events := ch.events_, ptr := ch.addr }],
          interest := p.interest ++ [{ fd := ch.fd_, events := ch.events_, ptr := ch.addr }] } := by
    unfold EPollPoller.update epoll_ctl
    simp [h]
  rw [e]
  exact ⟨rfl, fun fd => registered_append _ _ _⟩

theorem update_mod (p : EPollPoller) (ch : Channel)
    (h : registered p.interest ch.fd_ = true) :
    (p.update EpollOp.EPOLL_CTL_MOD ch).fatal = p.fatal
    ∧ ∀ fd, registered (p.update EpollOp.EPOLL_CTL_MOD ch).interest fd
        = registered p.interest fd := by
  have e : p.update EpollOp.EPOLL_CTL_MOD ch
      = { p with
          ctlCalls := p.ctlCalls ++ [{ op := EpollOp.EPOLL_CTL_MOD, fd := ch.fd_,
                                       events := ch.events_, ptr := ch.addr }],
          interest := p.interest.map (fun it =>
            if it.fd = ch.fd_ then
              ({ fd := ch.fd_, events := ch.events_, ptr := ch.addr } : EpollItem)
            else it) } := by
    unfold EPollPoller.update epoll_ctl
    simp [h]
  rw [e]
  exact ⟨rfl, fun fd => registered_mod _ _ _ _ _⟩

theorem update_del (p : EPollPoller) (ch : Channel)
    (h : registered p.interest ch.fd_ = true) :
    (p.update EpollOp.EPOLL_CTL_DEL ch).fatal = p.fatal
    ∧ ∀ fd, registered (p.update EpollOp.EPOLL_CTL_DEL ch).interest fd
        = (registered p.interest fd && fd != ch.fd_) := by
  have e : p.update EpollOp.EPOLL_CTL_DEL ch
      = { p with
          ctlCalls := p.ctlCalls ++ [{ op := EpollOp.EPOLL_CTL_DEL, fd := ch.fd_,
                                       events := ch.events_, ptr := ch.addr }],
          interest := p.interest.filter (fun it => it.fd != ch.fd_) } := by
    unfold EPollPoller.update epoll_ctl
    simp [h]
  rw [e]
  exact ⟨rfl, fun fd => registered_del _ _ _⟩

theorem consistent_frame (w : PollerWorld) (hc : w.consistent) (a : Nat) (ch : Channel)
    (p : EPollPoller) (haddr : ch.addr = a) (hfd : ch.fd_ = (w.chans a).fd_)
    (hidx : ch.index_ = kNew ∨ ch.index_ = kAdded ∨ ch.index_ = kDeleted)
    (hself_new : ch.index_ = kNew → p.channels_.find ch.fd_ = none)
    (hself_in : ch.index_ ≠ kNew → p.channels_.find ch.fd_ = some a)
    (hother : ∀ fd, fd ≠ ch.fd_ → p.channels_.find fd = w.poller.channels_.find fd)
    (hreg_self : registered p.interest ch.fd_ = true ↔ ch.index_ = kAdded)
    (hreg_other : ∀ fd, fd ≠ ch.fd_ →
      registered p.interest fd = registered w.poller.interest fd)
    (hfatal : p.fatal = false) :
    ({ poller := p, chans := Function.update w.chans a ch } : PollerWorld).consistent := by
  obtain ⟨i1, i2, i3, i4, i5, i6, _⟩ := hc
  have hsame : ∀ b, b ≠ a → Function.update w.chans a ch b = w.chans b :=
    fun b hb => Function.update_noteq hb _ _
  have hat : Function.update w.chans a ch a = ch := Function.update_same _ _ _
  have hfds : ∀ b, (Function.update w.chans a ch b).fd_ = (w.chans b).fd_ := by
    intro b
    by_cases hb : b = a
    · subst hb
      rw [hat, hfd]
    · rw [hsame b hb]
  have hne : ∀ b, b ≠ a → (w.chans b).fd_ ≠ ch.fd_ := by
    intro b hb e
    rw [hfd] at e
    exact hb (i2 b a e)
  refine ⟨?_, ?_, ?_, ?_, ?_, ?_, hfatal⟩
  · intro b
    by_cases hb : b = a
    · subst hb
      simp only [hat, haddr]
    · simp only [hsame b hb, i1 b]
  · intro b c e
    simp only [hfds] at e
    exact i2 b c e
  · intro b
    by_cases hb : b = a
    · subst hb
      simp only [hat]
      exact hidx
    · simp only [hsame b hb]
      exact i3 b
  · intro b
    by_cases hb : b = a
    · subst hb
      simp only [hat]
      exact hself_new
    · simp only [hsame b hb]
      intro h
      rw [hother _ (hne b hb)]
      exact i4 b h
  · intro b
    by_cases hb : b = a
    · subst hb
      simp only [hat]
      exact hself_in
    · simp only [hsame b hb]
      intro h
      rw [hother _ (hne b hb)]
      exact i5 b h
  · intro b
    by_cases hb : b = a
    · subst hb
      simp only [hat]
      exact hreg_self
    · simp only [hsame b hb]
      rw [hreg_other _ (hne b hb)]
      exact i6 b

theorem updateChannel_new (p : EPollPoller) (ch : Channel) (h : ch.index_ = kNew) :
    p.updateChannel ch
      = (({ p with channels_ := p.channels_.assign ch.fd_ ch.addr } : EPollPoller).update
            EpollOp.EPOLL_CTL_ADD (ch.set_index kAdded),
         ch.set_index kAdded) := by
  simp [EPollPoller.updateChannel, h]

theorem updateChannel_deleted (p : EPollPoller) (ch : Channel) (h : ch.index_ = kDeleted) :
    p.updateChannel ch
      = (p.update EpollOp.EPOLL_CTL_ADD (ch.set_index kAdded), ch.set_index kAdded) := by
  have hk : kDeleted ≠ kNew := by decide
  simp [EPollPoller.updateChannel, h, hk]

theorem updateChannel_added_none (p : EPollPoller) (ch : Channel) (h : ch.index_ = kAdded)
    (he : ch.events_ = 0) :
    p.updateChannel ch
      = (p.update EpollOp.EPOLL_CTL_DEL ch, ch.set_index kDeleted) := by
  have hk : ¬ (kAdded = kNew ∨ kAdded = kDeleted) := by decide
  simp [EPollPoller.updateChannel, h, hk, Channel.isNoneEvent, kNoneEvent, he]

theorem updateChannel_added_some (p : EPollPoller) (ch : Channel) (h : ch.index_ = kAdded)
    (he : ch.events_ ≠ 0) :
    p.updateChannel ch = (p.update EpollOp.EPOLL_CTL_MOD ch, ch) := by
  have hk : ¬ (kAdded = kNew ∨ kAdded = kDeleted) := by decide
  simp [EPollPoller.updateChannel, h, hk, Channel.isNoneEvent, kNoneEvent, he]

theorem removeChannel_added (p : EPollPoller) (ch : Channel) (h : ch.index_ = kAdded) :
    p.removeChannel ch
      = (({ p with channels_ := p.channels_.erase ch.fd_ } : EPollPoller).update
            EpollOp.EPOLL_CTL_DEL ch,
         ch.set_index kNew) := by
  simp [EPollPoller.removeChannel, h]

theorem removeChannel_other (p : EPollPoller) (ch : Channel) (h : ch.index_ ≠ kAdded) :
    p.removeChannel ch
      = ({ p with channels_ := p.channels_.erase ch.fd_ }, ch.set_index kNew) := by
  simp [EPollPoller.removeChannel, h]

theorem fill_fields (events : List EpollEvent) (chans : Nat → Channel) (act : List Nat)
    (b : Nat) :
    ((events.foldl
        (fun (acc : (Nat → Channel) × List Nat) ev =>
          (Function.update acc.1 ev.ptr ((acc.1 ev.ptr).set_revents ev.events),
           acc.2 ++ [ev.ptr]))
        (chans, act)).1 b).addr = (chans b).addr
    ∧ ((events.foldl
        (fun (acc : (Nat → Channel) × List Nat) ev =>
          (Function.update acc.1 ev.ptr ((acc.1 ev.ptr).set_revents ev.events),
           acc.2 ++ [ev.ptr]))
        (chans, act)).1 b).fd_ = (chans b).fd_
    ∧ ((events.foldl
        (fun (acc : (Nat → Channel) × List Nat) ev =>
          (Function.update acc.1 ev.ptr ((acc.1 ev.ptr).set_revents ev.events),
           acc.2 ++ [ev.ptr]))
        (chans, act)).1 b).index_ = (chans b).index_ := by
  induction events generalizing chans act with
  | nil => exact ⟨rfl, rfl, rfl⟩
  | cons ev rest ih =>
    simp only [List.foldl_cons]
    obtain ⟨h1, h2, h3⟩ := ih (Function.update chans ev.ptr ((chans ev.ptr).set_revents ev.events))
      (act ++ [ev.ptr])
    have hk : (Function.update chans ev.ptr ((chans ev.ptr).set_revents ev.events) b).addr
          = (chans b).addr
        ∧ (Function.update chans ev.ptr ((chans ev.ptr).set_revents ev.events) b).fd_
          = (chans b).fd_
        ∧ (Function.update chans ev.ptr ((chans ev.ptr).set_revents ev.events) b).index_
          = (chans b).index_ := by
      rw [Function.update_apply]
      split
      · rename_i hb
        subst hb
        exact ⟨rfl, rfl, rfl⟩
      · exact ⟨rfl, rfl, rfl⟩
    exact ⟨h1.trans hk.1, h2.trans hk.2.1, h3.trans hk.2.2⟩

theorem poll_fields (p : EPollPoller) (r : EpollWait) (chans : Nat → Channel)
    (act : List Nat) (b : Nat) :
    ((p.poll r chans act).2.1 b).addr = (chans b).addr
    ∧ ((p.poll r chans act).2.1 b).fd_ = (chans b).fd_
    ∧ ((p.poll r chans act).2.1 b).index_ = (chans b).index_ := by
  unfold EPollPoller.poll
  simp only
  split
  · exact fill_fields _ _ _ _
  · exact ⟨rfl, rfl, rfl⟩

theorem consistent_congr (w v : PollerWorld) (hc : w.consistent)
    (hch : ∀ b, (v.chans b).addr = (w.chans b).addr ∧ (v.chans b).fd_ = (w.chans b).fd_
      ∧ (v.chans b).index_ = (w.chans b).index_)
    (hmap : v.poller.channels_ = w.poller.channels_)
    (hint : v.poller.interest = w.poller.interest)
    (hfatal : v.poller.fatal = w.poller.fatal) : v.consistent := by
  obtain ⟨i1, i2, i3, i4, i5, i6, i7⟩ := hc
  refine ⟨?_, ?_, ?_, ?_, ?_, ?_, by rw [hfatal]; exact i7⟩
  · intro b
    rw [(hch b).1]
    exact i1 b
  · intro b c e
    rw [(hch b).2.1, (hch c).2.1] at e
    exact i2 b c e
  · intro b
    rw [(hch b).2.2]
    exact i3 b
  · intro b
    rw [(hch b).2.2, (hch b).2.1, hmap]
    exact i4 b
  · intro b
    rw [(hch b).2.2, (hch b).2.1, hmap]
    exact i5 b
  · intro b
    rw [(hch b).2.2, (hch b).2.1, hint]
    exact i6 b

theorem step_consistent (w : PollerWorld) (call : PollerCall) (hc : w.consistent) :
    (w.step call).consistent := by
  have hc0 := hc
  obtain ⟨i1, i2, i3, i4, i5, i6, i7⟩ := hc
  have hkn : kNew ≠ kAdded := by decide
  have hkd : kDeleted ≠ kAdded := by decide
  have hdn : kDeleted ≠ kNew := by decide
  have han : kAdded ≠ kNew := by decide
  cases call with
  | updateChannel a events =>
    simp only [PollerWorld.step]
    rcases i3 a with hi | hi | hi
    · -- new
      have hreg : registered w.poller.interest (w.chans a).fd_ = false := by
        cases hr : registered w.poller.interest (w.chans a).fd_
        · rfl
        · exact absurd ((i6 a).mp hr) (by rw [hi]; exact hkn)
      rw [updateChannel_new w.poller ({ w.chans a with events_ := events } : Channel) hi]
      obtain ⟨uf, ur⟩ := update_add
        ({ w.poller with channels_ := w.poller.channels_.assign (w.chans a).fd_ (w.chans a).addr }
          : EPollPoller)
        (({ w.chans a with events_ := events } : Channel).set_index kAdded) hreg
      refine consistent_frame w hc0 a (({ w.chans a with events_ := events } : Channel).set_index kAdded)
        (({ w.poller with
            channels_ := w.poller.channels_.assign (w.chans a).fd_ (w.chans a).addr }
          : EPollPoller).update EpollOp.EPOLL_CTL_ADD (({ w.chans a with events_ := events } : Channel).set_index kAdded))
        (i1 a) rfl (Or.inr (Or.inl rfl)) ?_ ?_ ?_ ?_ ?_ ?_
      · intro h
        exact absurd h han
      · intro _
        rw [update_channels]
        simp only [Channel.set_index]
        rw [find_assign_self, i1 a]
      · intro fd hfd
        rw [update_channels]
        exact find_assign_ne _ _ _ _ hfd
      · rw [ur]
        simp [Channel.set_index]
      · intro fd hfd
        rw [ur]
        have : ((({ w.chans a with events_ := events } : Channel).set_index kAdded).fd_ == fd)
            = false := by
          simp only [beq_eq_false_iff_ne, ne_eq]
          exact fun e => hfd e.symm
        rw [this, Bool.or_false]
      · rw [uf]
        exact i7
    · -- added
      have hreg : registered w.poller.interest (w.chans a).fd_ = true := (i6 a).mpr hi
      by_cases he : events = 0
      · rw [updateChannel_added_none w.poller ({ w.chans a with events_ := events } : Channel) hi he]
        obtain ⟨uf, ur⟩ := update_del w.poller ({ w.chans a with events_ := events } : Channel) hreg
        refine consistent_frame w hc0 a (({ w.chans a with events_ := events } : Channel).set_index kDeleted)
          (w.poller.update EpollOp.EPOLL_CTL_DEL ({ w.chans a with events_ := events } : Channel))
          (i1 a) rfl (Or.inr (Or.inr rfl)) ?_ ?_ ?_ ?_ ?_ ?_
        · intro h
          exact absurd h hdn
        · intro _
          rw [update_channels]
          exact i5 a (by rw [hi]; exact han)
        · intro fd _
          rw [update_channels]
        · rw [ur]
          simp only [Channel.set_index, bne_self_eq_false, Bool.and_false, Bool.false_eq_true,
            false_iff]
          exact hkd
        · intro fd hfd
          rw [ur]
          have : (fd != ({ w.chans a with events_ := events } : Channel).fd_) = true := by
            simp only [bne_iff_ne, ne_eq]
            exact hfd
          rw [this, Bool.and_true]
        · rw [uf]
          exact i7
      · rw [updateChannel_added_some w.poller ({ w.chans a with events_ := events } : Channel) hi he]
        obtain ⟨uf, ur⟩ := update_mod w.poller ({ w.chans a with events_ := events } : Channel) hreg
        refine consistent_frame w hc0 a ({ w.chans a with events_ := events } : Channel)
          (w.poller.update EpollOp.EPOLL_CTL_MOD ({ w.chans a with events_ := events } : Channel))
          (i1 a) rfl (Or.inr (Or.inl hi)) ?_ ?_ ?_ ?_ ?_ ?_
        · intro h
          exact absurd (hi.symm.trans h) han
        · intro _
          rw [update_channels]
          exact i5 a (by rw [hi]; exact han)
        · intro fd _
          rw [update_channels]
        · rw [ur]
          exact ⟨fun _ => hi, fun _ => hreg⟩
        · intro fd _
          rw [ur]
        · rw [uf]
          exact i7
    · -- deleted
      have hreg : registered w.poller.interest (w.chans a).fd_ = false := by
        cases hr : registered w.poller.interest (w.chans a).fd_
        · rfl
        · exact absurd ((i6 a).mp hr) (by rw [hi]; exact hkd)
      rw [updateChannel_deleted w.poller ({ w.chans a with events_ := events } : Channel) hi]
      obtain ⟨uf, ur⟩ := update_add w.poller
        (({ w.chans a with events_ := events } : Channel).set_index kAdded) hreg
      refine consistent_frame w hc0 a (({ w.chans a with events_ := events } : Channel).set_index kAdded)
        (w.poller.update EpollOp.EPOLL_CTL_ADD (({ w.chans a with events_ := events } : Channel).set_index kAdded))
        (i1 a) rfl (Or.inr (Or.inl rfl)) ?_ ?_ ?_ ?_ ?_ ?_
      · intro h
        exact absurd h han
      · intro _
        rw [update_channels]
        exact i5 a (by rw [hi]; exact hdn)
      · intro fd _
        rw [update_channels]
      · rw [ur]
        simp [Channel.set_index]
      · intro fd hfd
        rw [ur]
        have : ((({ w.chans a with events_ := events } : Channel).set_index kAdded).fd_ == fd)
            = false := by
          simp only [beq_eq_false_iff_ne, ne_eq]
          exact fun e => hfd e.symm
        rw [this, Bool.or_false]
      · rw [uf]
        exact i7
  | removeChannel a =>
    simp only [PollerWorld.step]
    by_cases hi : (w.chans a).index_ = kAdded
    · have hreg : registered w.poller.interest (w.chans a).fd_ = true := (i6 a).mpr hi
      rw [removeChannel_added _ _ hi]
      obtain ⟨uf, ur⟩ := update_del
        ({ w.poller with channels_ := w.poller.channels_.erase (w.chans a).fd_ } : EPollPoller)
        (w.chans a) hreg
      refine consistent_frame w hc0 a ((w.chans a).set_index kNew)
        (({ w.poller with channels_ := w.poller.channels_.erase (w.chans a).fd_ }
          : EPollPoller).update EpollOp.EPOLL_CTL_DEL (w.chans a))
        (i1 a) rfl (Or.inl rfl) ?_ ?_ ?_ ?_ ?_ ?_
      · intro _
        rw [update_channels]
        exact find_erase_self _ _
      · intro h
        exact absurd rfl h
      · intro fd hfd
        rw [update_channels]
        exact find_erase_ne _ _ _ hfd
      · rw [ur]
        simp only [Channel.set_index, bne_self_eq_false, Bool.and_false, Bool.false_eq_true,
          false_iff]
        exact hkn
      · intro fd hfd
        rw [ur]
        have : (fd != (w.chans a).fd_) = true := by
          simp only [bne_iff_ne, ne_eq]
          exact hfd
        rw [this, Bool.and_true]
      · rw [uf]
        exact i7
    · have hreg : registered w.poller.interest (w.chans a).fd_ = false := by
        cases hr : registered w.poller.interest (w.chans a).fd_
        · rfl
        · exact absurd ((i6 a).mp hr) hi
      rw [removeChannel_other _ _ hi]
      refine consistent_frame w hc0 a ((w.chans a).set_index kNew)
        ({ w.poller with channels_ := w.poller.channels_.erase (w.chans a).fd_ })
        (i1 a) rfl (Or.inl rfl) ?_ ?_ ?_ ?_ ?_ ?_
      · intro _
        exact find_erase_self _ _
      · intro h
        exact absurd rfl h
      · intro fd hfd
        exact find_erase_ne _ _ _ hfd
      · simp only [Channel.set_index]
        rw [hreg]
        simp only [Bool.false_eq_true, false_iff]
        exact hkn
      · intro fd _
        rfl
      · exact i7
  | poll r =>
    apply consistent_congr w _ hc0
    · intro b
      exact poll_fields _ _ _ _ _
    · simp only [PollerWorld.step, poll_poller]
    · simp only [PollerWorld.step, poll_poller]
    · simp only [PollerWorld.step, poll_poller]

theorem run_consistent (calls : List PollerCall) (w : PollerWorld) (hc : w.consistent) :
    (w.run calls).consistent := by
  induction calls generalizing w with
  | nil => exact hc
  | cons c rest ih =>
    simp only [PollerWorld.run, List.foldl_cons]
    exact ih (w.step c) (step_consistent w c hc)

theorem fresh_consistent (chans : Nat → Channel) (haddr : ∀ a, (chans a).addr = a)
    (hfd : ∀ a b, (chans a).fd_ = (chans b).fd_ → a = b)
    (hnew : ∀ a, (chans a).index_ = kNew) : (PollerWorld.fresh chans).consistent := by
  have hkn : kNew ≠ kAdded := by decide
  refine ⟨haddr, hfd, fun a => Or.inl (hnew a), fun a _ => rfl, ?_, ?_, rfl⟩
  · intro a h
    exact absurd (hnew a) h
  · intro a
    simp only [PollerWorld.fresh, EPollPoller.ctor, registered, List.any_nil,
      Bool.false_eq_true, false_iff, hnew a]
    exact hkn

theorem step_issued (w : PollerWorld) (call : PollerCall) (hc : w.consistent) :
    ∀ k, k ∈ w.issued call →
      (k.op = EpollOp.EPOLL_CTL_ADD → registered w.poller.interest k.fd = false)
      ∧ (k.op = EpollOp.EPOLL_CTL_MOD ∨ k.op = EpollOp.EPOLL_CTL_DEL →
          registered w.poller.interest k.fd = true) := by
  obtain ⟨i1, i2, i3, i4, i5, i6, i7⟩ := hc
  have hkn : kNew ≠ kAdded := by decide
  have hkd : kDeleted ≠ kAdded := by decide
  have hAM : EpollOp.EPOLL_CTL_ADD ≠ EpollOp.EPOLL_CTL_MOD := by decide
  have hAD : EpollOp.EPOLL_CTL_ADD ≠ EpollOp.EPOLL_CTL_DEL := by decide
  have hDA : EpollOp.EPOLL_CTL_DEL ≠ EpollOp.EPOLL_CTL_ADD := by decide
  have hMA : EpollOp.EPOLL_CTL_MOD ≠ EpollOp.EPOLL_CTL_ADD := by decide
  have hone : ∀ (l : List CtlCall) (c : CtlCall), (l ++ [c]).drop l.length = [c] := by
    intro l c
    rw [List.drop_left]
  have hnot : ∀ a, (w.chans a).index_ ≠ kAdded →
      registered w.poller.interest (w.chans a).fd_ = false := by
    intro a hi
    cases hr : registered w.poller.interest (w.chans a).fd_
    · rfl
    · exact absurd ((i6 a).mp hr) hi
  intro k hk
  cases call with
  | updateChannel a events =>
    simp only [PollerWorld.issued, PollerWorld.step] at hk
    rcases i3 a with hi | hi | hi
    · rw [updateChannel_new w.poller ({ w.chans a with events_ := events } : Channel) hi] at hk
      simp only [update_ctlCalls, hone, List.mem_singleton] at hk
      rw [hk]
      refine ⟨fun _ => hnot a (by rw [hi]; exact hkn), ?_⟩
      rintro (h | h)
      · exact absurd h hAM
      · exact absurd h hAD
    · have hreg : registered w.poller.interest (w.chans a).fd_ = true := (i6 a).mpr hi
      by_cases he : events = 0
      · rw [updateChannel_added_none w.poller ({ w.chans a with events_ := events } : Channel)
          hi he] at hk
        simp only [update_ctlCalls, hone, List.mem_singleton] at hk
        rw [hk]
        exact ⟨fun h => absurd h hDA, fun _ => hreg⟩
      · rw [updateChannel_added_some w.poller ({ w.chans a with events_ := events } : Channel)
          hi he] at hk
        simp only [update_ctlCalls, hone, List.mem_singleton] at hk
        rw [hk]
        exact ⟨fun h => absurd h hMA, fun _ => hreg⟩
    · rw [updateChannel_deleted w.poller ({ w.chans a with events_ := events } : Channel) hi]
        at hk
      simp only [update_ctlCalls, hone, List.mem_singleton] at hk
      rw [hk]
      refine ⟨fun _ => hnot a (by rw [hi]; exact hkd), ?_⟩
      rintro (h | h)
      · exact absurd h hAM
      · exact absurd h hAD
  | removeChannel a =>
    simp only [PollerWorld.issued, PollerWorld.step] at hk
    by_cases hi : (w.chans a).index_ = kAdded
    · rw [removeChannel_added _ _ hi] at hk
      simp only [update_ctlCalls, hone, List.mem_singleton] at hk
      rw [hk]
      exact ⟨fun h => absurd h hDA, fun _ => (i6 a).mpr hi⟩
    · rw [removeChannel_other _ _ hi] at hk
      simp only [List.drop_length, List.not_mem_nil] at hk
  | poll r =>
    simp only [PollerWorld.issued, PollerWorld.step, poll_poller, List.drop_length,
      List.not_mem_nil] at hk

/-- C25: the registry of the poller.  Channels sit at their own addresses,
no two of them share an fd, and none has been handed to the poller yet (state
new, as the constructor leaves it).  After any sequence of `updateChannel`,
`removeChannel` and `poll` calls on a fresh poller, for every channel:
`hasChannel` is true, and the map sends the channel's fd to the channel,
exactly when its state is added or deleted; in state new the map has no entry
for its fd; and the state is one of the three. -/
theorem registry_invariant (chans : Nat → Channel) (calls : List PollerCall) (a : Nat)
    (haddr : ∀ b, (chans b).addr = b)
    (hfd : ∀ b c, (chans b).fd_ = (chans c).fd_ → b = c)
    (hnew : ∀ b, (chans b).index_ = kNew) :
    (((PollerWorld.fresh chans).run calls).poller.hasChannel
          (((PollerWorld.fresh chans).run calls).chans a) = true
        ↔ (((PollerWorld.fresh chans).run calls).chans a).index_ = kAdded
          ∨ (((PollerWorld.fresh chans).run calls).chans a).index_ = kDeleted)
    ∧ (((PollerWorld.fresh chans).run calls).poller.channels_.find
          (((PollerWorld.fresh chans).run calls).chans a).fd_
          = some (((PollerWorld.fresh chans).run calls).chans a).addr
        ↔ (((PollerWorld.fresh chans).run calls).chans a).index_ = kAdded
          ∨ (((PollerWorld.fresh chans).run calls).chans a).index_ = kDeleted)
    ∧ ((((PollerWorld.fresh chans).run calls).chans a).index_ = kNew →
        ((PollerWorld.fresh chans).run calls).poller.channels_.find
          (((PollerWorld.fresh chans).run calls).chans a).fd_ = none)
    ∧ ((((PollerWorld.fresh chans).run calls).chans a).index_ = kNew
        ∨ (((PollerWorld.fresh chans).run calls).chans a).index_ = kAdded
        ∨ (((PollerWorld.fresh chans).run calls).chans a).index_ = kDeleted) := by
  obtain ⟨i1, _, i3, i4, i5, _, _⟩ :=
    run_consistent calls (PollerWorld.fresh chans) (fresh_consistent chans haddr hfd hnew)
  have han : kAdded ≠ kNew := by decide
  have hdn : kDeleted ≠ kNew := by decide
  have hmap : ((PollerWorld.fresh chans).run calls).poller.channels_.find
        (((PollerWorld.fresh chans).run calls).chans a).fd_
        = some (((PollerWorld.fresh chans).run calls).chans a).addr
      ↔ (((PollerWorld.fresh chans).run calls).chans a).index_ = kAdded
        ∨ (((PollerWorld.fresh chans).run calls).chans a).index_ = kDeleted := by
    constructor
    · intro h
      rcases i3 a with hi | hi | hi
      · rw [i4 a hi] at h
        exact absurd h (by simp)
      · exact Or.inl hi
      · exact Or.inr hi
    · intro h
      rw [i1 a]
      apply i5 a
      rcases h with h | h
      · rw [h]; exact han
      · rw [h]; exact hdn
  refine ⟨?_, hmap, i4 a, i3 a⟩
  rw [← hmap]
  unfold EPollPoller.hasChannel
  cases hf : ((PollerWorld.fresh chans).run calls).poller.channels_.find
      (((PollerWorld.fresh chans).run calls).chans a).fd_ with
  | none => simp
  | some ptr => simp

theorem sampleChans_fresh :
    (∀ b, (sampleChans b).addr = b)
    ∧ (∀ b c, (sampleChans b).fd_ = (sampleChans c).fd_ → b = c)
    ∧ (∀ b, (sampleChans b).index_ = kNew) := by
  refine ⟨fun _ => rfl, ?_, fun _ => rfl⟩
  intro b c h
  simp only [sampleChans, Channel.ctor, Int.ofNat_eq_coe, Nat.cast_inj] at h
  exact h

/-- C25 at the sample channels after the sample calls: the channel at
address 6 is still in the map, the removed channel at address 5 is not. -/
theorem registry_invariant_witness :
    ((∀ b, (sampleChans b).addr = b)
      ∧ (∀ b c, (sampleChans b).fd_ = (sampleChans c).fd_ → b = c)
      ∧ (∀ b, (sampleChans b).index_ = kNew))
    ∧ (((PollerWorld.fresh sampleChans).run sampleCalls).poller.hasChannel
          (((PollerWorld.fresh sampleChans).run sampleCalls).chans 6) = true
        ↔ (((PollerWorld.fresh sampleChans).run sampleCalls).chans 6).index_ = kAdded
          ∨ (((PollerWorld.fresh sampleChans).run sampleCalls).chans 6).index_ = kDeleted)
    ∧ ((PollerWorld.fresh sampleChans).run sampleCalls).poller.hasChannel
          (((PollerWorld.fresh sampleChans).run sampleCalls).chans 6) = true
    ∧ ((PollerWorld.fresh sampleChans).run sampleCalls).poller.hasChannel
          (((PollerWorld.fresh sampleChans).run sampleCalls).chans 5) = false :=
  ⟨sampleChans_fresh,
   (registry_invariant sampleChans sampleCalls 6 sampleChans_fresh.1 sampleChans_fresh.2.1
      sampleChans_fresh.2.2).1,
   by decide, by decide⟩

/-- C26: the kernel's interest list.  Under the conditions of C25, after any
sequence of calls on a fresh poller: the fd of a channel is in the kernel's
interest list exactly when the channel's state is added; no `epoll_ctl` has
failed fatally; and whatever call comes next, an `EPOLL_CTL_ADD` it issues is
for an fd that is not in the interest list and an `EPOLL_CTL_MOD` or
`EPOLL_CTL_DEL` is for one that is. -/
theorem kernel_registration (chans : Nat → Channel) (calls : List PollerCall) (a : Nat)
    (next : PollerCall)
    (haddr : ∀ b, (chans b).addr = b)
    (hfd : ∀ b c, (chans b).fd_ = (chans c).fd_ → b = c)
    (hnew : ∀ b, (chans b).index_ = kNew) :
    (registered ((PollerWorld.fresh chans).run calls).poller.interest
          (((PollerWorld.fresh chans).run calls).chans a).fd_ = true
        ↔ (((PollerWorld.fresh chans).run calls).chans a).index_ = kAdded)
    ∧ ((PollerWorld.fresh chans).run calls).poller.fatal = false
    ∧ ∀ k, k ∈ ((PollerWorld.fresh chans).run calls).issued next →
        (k.op = EpollOp.EPOLL_CTL_ADD →
          registered ((PollerWorld.fresh chans).run calls).poller.interest k.fd = false)
        ∧ (k.op = EpollOp.EPOLL_CTL_MOD ∨ k.op = EpollOp.EPOLL_CTL_DEL →
          registered ((PollerWorld.fresh chans).run calls).poller.interest k.fd = true) := by
  have hc := run_consistent calls (PollerWorld.fresh chans)
    (fresh_consistent chans haddr hfd hnew)
  exact ⟨hc.2.2.2.2.2.1 a, hc.2.2.2.2.2.2, step_issued _ next hc⟩

/-- C26 at the sample channels: after both were given read interest, taking
all interest from the channel at address 5 issues one `EPOLL_CTL_DEL`, for its
fd, which is registered. -/
theorem kernel_registration_witness :
    ((∀ b, (sampleChans b).addr = b)
      ∧ (∀ b c, (sampleChans b).fd_ = (sampleChans c).fd_ → b = c)
      ∧ (∀ b, (sampleChans b).index_ = kNew))
    ∧ (registered ((PollerWorld.fresh sampleChans).run (sampleCalls.take 2)).poller.interest
          (((PollerWorld.fresh sampleChans).run (sampleCalls.take 2)).chans 5).fd_ = true
        ↔ (((PollerWorld.fresh sampleChans).run (sampleCalls.take 2)).chans 5).index_ = kAdded)
    ∧ ((PollerWorld.fresh sampleChans).run (sampleCalls.take 2)).issued
          (PollerCall.updateChannel 5 kNoneEvent)
        = [{ op := EpollOp.EPOLL_CTL_DEL, fd := 5, events := 0, ptr := 5 }]
    ∧ registered ((PollerWorld.fresh sampleChans).run (sampleCalls.take 2)).poller.interest 5
        = true :=
  ⟨sampleChans_fresh,
   (kernel_registration sampleChans (sampleCalls.take 2) 5
      (PollerCall.updateChannel 5 kNoneEvent) sampleChans_fresh.1 sampleChans_fresh.2.1
      sampleChans_fresh.2.2).1,
   by decide, by decide⟩

/-! ## loop() after an early quit() -/

theorem loopFrom_running (env : LoopEnv) (r : EpollWait) (rest : List EpollWait)
    (w : LoopRun) (hq : w.loop.quit_ = false) :
    EventLoop.loopFrom env (r :: rest) w
      = EventLoop.loopFrom env rest (EventLoop.iteration env w r) := by
  have hne : ¬ (w.loop.quit_ = true) := by simp [hq]
  simp only [EventLoop.loopFrom, if_neg hne]

theorem loopFrom_quit_set (env : LoopEnv) (polls : List EpollWait) (w : LoopRun)
    (hq : w.loop.quit_ = true) :
    EventLoop.loopFrom env polls w = some (EventLoop.loopExit w) := by
  cases polls with
  | nil => simp only [EventLoop.loopFrom, if_pos hq]
  | cons r rest => simp only [EventLoop.loopFrom, if_pos hq]

theorem passes_noQuit (env : LoopEnv) (polls : List EpollWait) :
    ∀ (w : LoopRun), w.loop.quit_ = false → EventLoop.noQuit env polls w = true →
      (EventLoop.passes env polls w).loop.quit_ = false
      ∧ ∀ more, EventLoop.loopFrom env (polls ++ more) w
          = EventLoop.loopFrom env more (EventLoop.passes env polls w) := by
  induction polls with
  | nil =>
    intro w hq _
    exact ⟨hq, fun _ => rfl⟩
  | cons r rest ih =>
    intro w hq hno
    simp only [EventLoop.noQuit, Bool.and_eq_true, Bool.not_eq_true'] at hno
    have hq2 : (EventLoop.iteration env w r).loop.quit_ = false := by
      rw [(iteration_eq env w r).2.1, hq, hno.1]
      rfl
    obtain ⟨h1, h2⟩ := ih (EventLoop.iteration env w r) hq2 hno.2
    refine ⟨h1, fun more => ?_⟩
    rw [List.cons_append, loopFrom_running env r (rest ++ more) w hq]
    exact h2 more

/-- C28: `quit()` before `loop()`.  The flag that `quit()` set is cleared on
entry: with a result of `epoll_wait` at hand the loop makes its first pass,
polling first.  As long as nobody calls `quit()` during the passes it keeps
running, pass after pass; the first pass during which `quit()` is called is
completed and is the last one. -/
theorem loop_clears_quit (env : LoopEnv) (w : LoopRun) (tid : Int) (polls : List EpollWait)
    (r : EpollWait) (rest : List EpollWait)
    (hno : EventLoop.noQuit env polls
      (EventLoop.loopEntry { w with loop := w.loop.quit tid }) = true) :
    (w.loop.quit tid).quit_ = true
    ∧ (EventLoop.loopEntry { w with loop := w.loop.quit tid }).loop.quit_ = false
    ∧ EventLoop.loop env (r :: rest) { w with loop := w.loop.quit tid }
        = EventLoop.loopFrom env rest
            (EventLoop.iteration env (EventLoop.loopEntry { w with loop := w.loop.quit tid }) r)
    ∧ (∃ more, (EventLoop.iteration env
          (EventLoop.loopEntry { w with loop := w.loop.quit tid }) r).trace
        = w.trace ++ [LoopEvent.polled
            (EventLoop.passActive (EventLoop.loopEntry { w with loop := w.loop.quit tid }) r)]
          ++ more)
    ∧ EventLoop.loop env polls { w with loop := w.loop.quit tid } = none
    ∧ ((EventLoop.passLoopCalls env
          (EventLoop.passes env polls (EventLoop.loopEntry { w with loop := w.loop.quit tid }))
          r).any LoopCall.isQuit = true →
        EventLoop.loop env (polls ++ r :: rest) { w with loop := w.loop.quit tid }
          = some (EventLoop.loopExit (EventLoop.iteration env
              (EventLoop.passes env polls
                (EventLoop.loopEntry { w with loop := w.loop.quit tid })) r))) := by
  have hentry : (EventLoop.loopEntry { w with loop := w.loop.quit tid }).loop.quit_ = false := rfl
  have hloop : ∀ ps, EventLoop.loop env ps { w with loop := w.loop.quit tid }
      = EventLoop.loopFrom env ps (EventLoop.loopEntry { w with loop := w.loop.quit tid }) :=
    fun _ => rfl
  obtain ⟨hq, happ⟩ := passes_noQuit env polls _ hentry hno
  refine ⟨?_, hentry, ?_, ?_, ?_, ?_⟩
  · unfold EventLoop.quit
    simp only
    split <;> rfl
  · rw [hloop]
    exact loopFrom_running env r rest _ hentry
  · refine ⟨(EventLoop.passActive
          (EventLoop.loopEntry { w with loop := w.loop.quit tid }) r).map
        (fun ch => LoopEvent.handled ch (EventLoop.passCalls env
          (EventLoop.loopEntry { w with loop := w.loop.quit tid }) r ch))
      ++ (EventLoop.passQueue env
          (EventLoop.loopEntry { w with loop := w.loop.quit tid }) r).map LoopEvent.ran, ?_⟩
    have ht : (EventLoop.loopEntry { w with loop := w.loop.quit tid }).trace = w.trace := rfl
    rw [(iteration_eq env (EventLoop.loopEntry { w with loop := w.loop.quit tid }) r).1, ht,
      List.append_assoc]
  · rw [hloop]
    have h := happ []
    rw [List.append_nil] at h
    rw [h]
    simp only [EventLoop.loopFrom, hq, Bool.false_eq_true, if_false]
  · intro hcall
    rw [hloop, happ (r :: rest), loopFrom_running env r rest _ hq]
    apply loopFrom_quit_set
    rw [(iteration_eq env (EventLoop.passes env polls
      (EventLoop.loopEntry { w with loop := w.loop.quit tid })) r).2.1, hcall, Bool.or_true]

/-- C28 at the sample loop: `quit()` is called from thread 2 before `loop()`;
the first pass runs the pending closure, which queues another; nobody calls
`quit()` during it and the loop is still running; the closure run by the
second pass calls `quit()` and the loop returns after that pass. -/
theorem loop_clears_quit_witness :
    EventLoop.noQuit sampleEnvTwo [sampleTimeout]
        (EventLoop.loopEntry { sampleIdle with loop := sampleIdle.loop.quit 2 }) = true
    ∧ EventLoop.loop sampleEnvTwo [sampleTimeout]
        { sampleIdle with loop := sampleIdle.loop.quit 2 } = none
    ∧ (EventLoop.passLoopCalls sampleEnvTwo
          (EventLoop.passes sampleEnvTwo [sampleTimeout]
            (EventLoop.loopEntry { sampleIdle with loop := sampleIdle.loop.quit 2 }))
          sampleTimeout).any LoopCall.isQuit = true
    ∧ EventLoop.loop sampleEnvTwo ([sampleTimeout] ++ sampleTimeout :: [sampleTimeout])
        { sampleIdle with loop := sampleIdle.loop.quit 2 }
      = some (EventLoop.loopExit (EventLoop.iteration sampleEnvTwo
          (EventLoop.passes sampleEnvTwo [sampleTimeout]
            (EventLoop.loopEntry { sampleIdle with loop := sampleIdle.loop.quit 2 }))
          sampleTimeout)) :=
  ⟨by decide,
   (loop_clears_quit sampleEnvTwo sampleIdle 2 [sampleTimeout] sampleTimeout [sampleTimeout]
      (by decide)).2.2.2.2.1,
   by decide,
   (loop_clears_quit sampleEnvTwo sampleIdle 2 [sampleTimeout] sampleTimeout [sampleTimeout]
      (by decide)).2.2.2.2.2 (by decide)⟩

/-- The record of that run: two polls, the closure `other 8` after the first
and the closure `other 7` after the second. -/
theorem loop_clears_quit_sample :
    (EventLoop.loopExit (EventLoop.iteration sampleEnvTwo
        (EventLoop.passes sampleEnvTwo [sampleTimeout]
          (EventLoop.loopEntry { sampleIdle with loop := sampleIdle.loop.quit 2 }))
        sampleTimeout)).trace
      = [LoopEvent.polled [], LoopEvent.ran (EventLoop.Functor.other 8),
         LoopEvent.polled [], LoopEvent.ran (EventLoop.Functor.other 7)] := by
  decide

end Muduo
